import Mathlib

/-!
# Teippi `image.cpp`: GRP frame access and image state

A shallow embedding of `src/image.cpp`.

* Byte buffers (`GrpFrameHeader::frame`, `*bw::iscript`) are lists of
  naturals.  A read outside a frame buffer has no value (`none`); the iscript
  buffer reads as 0 past its end.
* The C++ `int` computations are done on `Nat`; bitwise complements
  (`~(grp_padding_size - 1)`, `~(InvisibilityDone | BeginInvisibility)`) are
  taken on 32 bits.
* Enumerators and constants that `image.cpp` takes from headers that are not
  part of the sources (`grp_padding_size`, `ImageFlags`, `DrawFunc`,
  `IscriptAnim`, `UnitStatus`) are fields of `Consts`: no value is assumed.
* Functions of other translation units (the iscript interpreter, the overlay
  files) are fields of `Externals`; calls that leave `image.cpp` are recorded
  in a log.
* Member functions of one image work on a `World` (the image and what it can
  reach); `SingleDelete`, which patches its neighbours, works on a `Memory` of
  images and sprites addressed by pointers.
-/

namespace Teippi

/-! ## Constants coming from headers -/

/-- The `ImageFlags` bits used by `image.cpp` (declared in `image.h`). -/
structure ImageFlagBits where
  Redraw : Nat
  Flipped : Nat
  Hidden : Nat
  UseParentLo : Nat
  deriving DecidableEq, Repr

/-- The `Image::DrawFunc` enumerators used by `image.cpp` (declared in `image.h`). -/
structure DrawFuncIds where
  Normal : Nat
  Cloaking : Nat
  Cloak : Nat
  Decloaking : Nat
  DetectedCloaking : Nat
  DetectedCloak : Nat
  DetectedDecloaking : Nat
  WarpFlash : Nat
  deriving DecidableEq, Repr

/-- The `IscriptAnim` enumerators used by `image.cpp` (declared in `iscript.h`). -/
structure IscriptAnimIds where
  Init : Nat
  Death : Nat
  GndAttkInit : Nat
  AirAttkInit : Nat
  GndAttkRpt : Nat
  AirAttkRpt : Nat
  Walking : Nat
  Working : Nat
  deriving DecidableEq, Repr

/-- The `UnitStatus` bits used by `image.cpp` (declared in `unit.h`). -/
structure UnitStatusBits where
  InvisibilityDone : Nat
  BeginInvisibility : Nat
  deriving DecidableEq, Repr

/-- Everything `image.cpp` reads from headers outside the sources. -/
structure Consts where
  grp_padding_size : Nat
  ImageFlags : ImageFlagBits
  DrawFunc : DrawFuncIds
  IscriptAnim : IscriptAnimIds
  UnitStatus : UnitStatusBits
  deriving DecidableEq, Repr

/-! ## GRP frames -/

/-- `GrpFrameHeader`: stored position and size of a frame and its byte buffer. -/
structure GrpFrameHeader where
  x : Nat
  y : Nat
  w : Nat
  h : Nat
  frame : List Nat
  deriving DecidableEq, Repr

/-- `((uint16_t *)p)[0]` at byte offset `i` (little endian). -/
def read16 (buf : List Nat) (i : Nat) : Option Nat :=
  match buf[i]?, buf[i + 1]? with
  | some lo, some hi => some (lo + 256 * hi)
  | _, _ => none

/-- `GrpFrameHeader::IsDecoded`: `((uint16_t *)frame)[0] == 0`. -/
def GrpFrameHeader.IsDecoded (f : GrpFrameHeader) : Bool :=
  read16 f.frame 0 == some 0

/-- `v & ~m` on 32-bit two's complement `int`s, for non-negative `v`, `m`. -/
def andNot32 (v m : Nat) : Nat :=
  v &&& (2 ^ 32 - 1 - m)

/-- `GrpFrameHeader::GetWidth`. -/
def GrpFrameHeader.GetWidth (K : Consts) (f : GrpFrameHeader) : Nat :=
  if f.IsDecoded then
    let width := f.w
    -- Round upwards to grp_padding_size
    let width := width + (K.grp_padding_size - 1)
    let width := andNot32 width (K.grp_padding_size - 1)
    -- And add safety padding
    let width := width + 2 * (K.grp_padding_size - 1)
    width
  else
    f.w

/-- The `while (true)` loop of `GrpFrameHeader::GetPixel` for an encoded frame.
`line` is the read cursor (an offset into `frame`), `pos` the number of pixels
already passed.  Every iteration moves `line` forward by at least one byte, so
`fuel` = buffer length is never exhausted before a read leaves the buffer. -/
def getPixelLoop (frame : List Nat) (x : Nat) : Nat → Nat → Nat → Option Nat
  | 0, _, _ => none
  | fuel + 1, line, pos =>
    match frame[line]? with
    | none => none
    | some val =>
      if val &&& 0x80 ≠ 0 then
        let val := val &&& 0x7f            -- val &= ~0x80 (uint8_t)
        if x < pos + val then some 0
        else getPixelLoop frame x fuel (line + 1) (pos + val)
      else if val &&& 0x40 ≠ 0 then
        let val := val &&& 0xbf            -- val &= ~0x40 (uint8_t)
        match frame[line + 1]? with
        | none => none
        | some color =>
          if x < pos + val then some color
          else getPixelLoop frame x fuel (line + 2) (pos + val)
      else
        if x < pos + val then frame[line + 1 + (x - pos)]?
        else getPixelLoop frame x fuel (line + 1 + val) (pos + val)

/-- `GrpFrameHeader::GetPixel`; `none` when a read leaves the frame buffer. -/
def GrpFrameHeader.GetPixel (K : Consts) (f : GrpFrameHeader) (x y : Nat) : Option Nat :=
  if f.IsDecoded then
    f.frame[2 + (K.grp_padding_size - 1) + x + y * f.GetWidth K]?
  else
    match read16 f.frame (2 * y) with
    | none => none
    | some off => getPixelLoop f.frame x f.frame.length off 0

/-! ### Reference decoder (written from the description of the format) -/

/-- Reference decoder of one token row: expands tokens starting at offset
`line` until exactly `remaining` pixels have been produced.
A token with bit 7 set expands to `token & 0x7f` zero pixels, a token with
bit 6 set to `token & 0x3f` copies of the following byte, any other token to
the following `token` literal bytes.  `none` if the tokens leave the buffer or
their run lengths do not add up to `remaining`. -/
def refDecodeRow (frame : List Nat) : Nat → Nat → Nat → Option (List Nat)
  | 0, _, remaining => if remaining = 0 then some [] else none
  | fuel + 1, line, remaining =>
    if remaining = 0 then some []
    else
      match frame[line]? with
      | none => none
      | some tok =>
        if tok &&& 0x80 ≠ 0 then
          let n := tok &&& 0x7f
          if n ≤ remaining then
            (refDecodeRow frame fuel (line + 1) (remaining - n)).map
              (fun rest => List.replicate n 0 ++ rest)
          else none
        else if tok &&& 0x40 ≠ 0 then
          let n := tok &&& 0x3f
          match frame[line + 1]? with
          | none => none
          | some color =>
            if n ≤ remaining then
              (refDecodeRow frame fuel (line + 2) (remaining - n)).map
                (fun rest => List.replicate n color ++ rest)
            else none
        else
          let lit := (frame.drop (line + 1)).take tok
          if lit.length = tok ∧ tok ≤ remaining then
            (refDecodeRow frame fuel (line + 1 + tok) (remaining - tok)).map
              (fun rest => lit ++ rest)
          else none

/-- Reference decode-to-flat-buffer of an encoded frame: the rows `0 .. h-1`,
each expanded to `w` pixels, concatenated. -/
def refDecode (f : GrpFrameHeader) : Option (List Nat) :=
  (List.range f.h).foldr
    (fun y acc =>
      match read16 f.frame (2 * y), acc with
      | some off, some rest =>
        (refDecodeRow f.frame f.frame.length off f.w).map (fun row => row ++ rest)
      | _, _ => none)
    (some [])

/-- A well-formed run-length-encoded frame: bytes are bytes, the first 16-bit
word is non-zero, and the row-offset table points at token rows whose run
lengths sum to the frame width (the reference decoder succeeds). -/
def GrpFrameHeader.WellFormedEncoded (f : GrpFrameHeader) : Prop :=
  (∀ b ∈ f.frame, b < 256) ∧ f.IsDecoded = false ∧ (refDecode f).isSome

instance (f : GrpFrameHeader) : Decidable f.WellFormedEncoded := by
  unfold GrpFrameHeader.WellFormedEncoded; infer_instance


/-- Example values for the header constants (the ones of StarCraft 1.16.1,
with a 16-pixel alignment unit); used only to instantiate statements. -/
def exampleConsts : Consts where
  grp_padding_size := 16
  ImageFlags := { Redraw := 0x1, Flipped := 0x2, Hidden := 0x40, UseParentLo := 0x80 }
  DrawFunc := { Normal := 0, Cloaking := 2, Cloak := 3, Decloaking := 4,
                DetectedCloaking := 5, DetectedCloak := 6, DetectedDecloaking := 7,
                WarpFlash := 17 }
  IscriptAnim := { Init := 0, Death := 1, GndAttkInit := 2, AirAttkInit := 3,
                   GndAttkRpt := 5, AirAttkRpt := 6, Walking := 11, Working := 19 }
  UnitStatus := { InvisibilityDone := 0x100, BeginInvisibility := 0x200 }

/-- A 4x2 encoded frame: offset table `[4, 7]`, row 0 = two transparent pixels
then two pixels of colour 7, row 1 = literals 1 2 3 then one transparent pixel. -/
def exampleEncodedFrame : GrpFrameHeader where
  x := 0
  y := 0
  w := 4
  h := 2
  frame := [4, 0, 7, 0, 0x82, 0x42, 7, 3, 1, 2, 3, 0x81]

/-- A decoded frame of stored width 5 and height 1 (16-pixel alignment):
rows of 16 + 2 * 15 = 46 bytes after the two zero marker bytes. -/
def exampleDecodedFrame : GrpFrameHeader where
  x := 0
  y := 0
  w := 5
  h := 1
  frame := List.replicate 48 0


/-! ## Images -/

/-- A pointer to an image or a sprite; `0` is `nullptr`. -/
abbrev Ptr := Nat

/-- `Iscript`: the per-image script cursor. -/
structure Iscript where
  header : Nat
  pos : Nat
  return_pos : Nat
  animation : Nat
  wait : Nat
  deriving DecidableEq, Repr

/-- An entry of `bw::image_renderfuncs`: `[index].flipped` or `[index].nonflipped`. -/
structure RenderFunc where
  index : Nat
  flipped : Bool
  deriving DecidableEq, Repr

/-- The `list` member of `Image`. -/
structure ListEntry where
  prev : Ptr
  next : Ptr
  deriving DecidableEq, Repr

/-- The members of `Image` that `image.cpp` uses.  The member types are declared
in `image.h`; the members hold natural numbers, and the stores into the 16-bit
members `frameset` and `frame` reduce the stored value modulo `2 ^ 16` (see
`Image.UpdateFrameToDirection` and `Image.SetFrame`). -/
structure Image where
  list : ListEntry
  image_id : Nat
  x_off : Int
  y_off : Int
  parent : Ptr
  flags : Nat
  frameset : Nat
  frame : Nat
  direction : Nat
  drawfunc : Nat
  drawfunc_param : Nat
  Render : RenderFunc
  iscript : Iscript
  deriving DecidableEq, Repr

/-- The members of `Unit` written by `image.cpp`. -/
structure GameUnit where
  flags : Nat
  order_signal : Nat
  deriving DecidableEq, Repr

/-- The member of `Bullet` written by `image.cpp` (through the `(Unit *)` cast). -/
structure Bullet where
  order_signal : Nat
  deriving DecidableEq, Repr

/-- Calls that leave `image.cpp`, recorded in the order they happen. -/
inductive Event where
  /-- `ProgressFrame(ctx, rng, false, nullptr)`: one interpreter step. -/
  | ProgressFrame
  /-- `Warning("SetIscriptAnimation: Image %x does not have animation %x", ..)`. -/
  | WarnNoAnimation (image_id anim : Nat)
  /-- `Warning("Image warp flash drawfunc progress did not handle all ..", ..)`. -/
  | WarnUnhandledCommands (image_id : Nat)
  /-- `MarkImageAreaForRedraw(this)`. -/
  | MarkImageAreaForRedraw (image_id : Nat)
  deriving DecidableEq, Repr

/-- What `parent->main_image` points at, seen from the image `this`. -/
inductive MainImage where
  | null
  | this
  | other (m : Image)
  deriving DecidableEq, Repr

/-- The state the member functions of one image work on: the image itself
(`*this`), its parent's main image, the iscript context (`ctx->unit`,
`ctx->bullet`, `nullptr` = `none`), the random number generator, and the
globals `*bw::image_flags` and `*bw::iscript`. -/
structure World where
  img : Image
  main_image : MainImage
  unit : Option GameUnit
  bullet : Option Bullet
  rng : Nat
  image_flags : Nat
  iscript : List Nat
  log : List Event
  deriving DecidableEq, Repr

/-- Functions of other translation units, which are not part of the sources. -/
structure Externals where
  /-- The iscript interpreter, `Image::ProgressFrame(ctx, rng, false, nullptr)`:
  new state and the commands it returns. -/
  ProgressFrame : World → World × List Nat
  /-- The offset `LoFile::GetOverlay(main_image_id, 2)` holds for an image. -/
  OverlayOffset : Nat → Image → Int × Int

/-- `Image::IsFlipped` (inline in `image.h`): `flags & ImageFlags::Flipped`. -/
def Image.IsFlipped (K : Consts) (img : Image) : Bool :=
  img.flags &&& K.ImageFlags.Flipped != 0

/-- `Image::SetOffset`. -/
def Image.SetOffset (K : Consts) (x y : Int) (img : Image) : Image :=
  let img :=
    if img.x_off ≠ x ∨ img.y_off ≠ y then
      { img with flags := img.flags ||| K.ImageFlags.Redraw }
    else img
  { img with x_off := x, y_off := y }

/-- Modelled from the spec: `LoFile::SetImageOffset` (`lofile.cpp` is not part of
the sources).  The spec says the tracked overlay offset is recomputed: the
image's offset is set, through `Image::SetOffset`, to the value the overlay
file holds. -/
def LoFile_SetImageOffset (K : Consts) (X : Externals) (main_image_id : Nat)
    (img : Image) : Image :=
  img.SetOffset K (X.OverlayOffset main_image_id img).1 (X.OverlayOffset main_image_id img).2

/-- `Image::UpdateSpecialOverlayPos`. -/
def UpdateSpecialOverlayPos (K : Consts) (X : Externals) (w : World) : World :=
  match w.main_image with
  | MainImage.null => w
  | MainImage.this => { w with img := LoFile_SetImageOffset K X w.img.image_id w.img }
  | MainImage.other m => { w with img := LoFile_SetImageOffset K X m.image_id w.img }

/-- `Image::SetDrawFunc`. -/
def SetDrawFunc (K : Consts) (X : Externals) (drawfunc_ param : Nat) (w : World) : World :=
  let img := { w.img with drawfunc := drawfunc_, drawfunc_param := param }
  let img :=
    if img.IsFlipped K then { img with Render := { index := img.drawfunc, flipped := true } }
    else { img with Render := { index := img.drawfunc, flipped := false } }
  let img :=
    if img.drawfunc = K.DrawFunc.WarpFlash then { img with drawfunc_param := 0x230 } else img
  let w := { w with img := img }
  let w :=
    if w.img.flags &&& K.ImageFlags.UseParentLo ≠ 0 then UpdateSpecialOverlayPos K X w else w
  { w with img := { w.img with flags := w.img.flags ||| K.ImageFlags.Redraw } }

/-- `Image::SetFlipping`; `set << 1` is `2` for `true` and `0` for `false`. -/
def SetFlipping (K : Consts) (X : Externals) (set : Bool) (w : World) : World :=
  let state : Bool := w.img.flags &&& K.ImageFlags.Flipped != 0
  if state != set then
    let w := { w with img := { w.img with
      flags := w.img.flags ||| ((if set then 1 else 0) <<< 1) ||| K.ImageFlags.Redraw } }
    SetDrawFunc K X w.img.drawfunc w.img.drawfunc_param w
  else w

/-- `*(uint16_t *)(buf + i)`; bytes past the end of the buffer read as 0. -/
def load16 (buf : List Nat) (i : Nat) : Nat :=
  buf.getD i 0 + 256 * buf.getD (i + 1) 0

/-- `*(int32_t *)(buf + i)`; bytes past the end of the buffer read as 0. -/
def load32s (buf : List Nat) (i : Nat) : Int :=
  let v := buf.getD i 0 + 256 * buf.getD (i + 1) 0 + 65536 * buf.getD (i + 2) 0
    + 16777216 * buf.getD (i + 3) 0
  if v < 2 ^ 31 then (v : Int) else (v : Int) - 2 ^ 32

/-- The call `ProgressFrame(ctx, rng, false, nullptr)` made by `image.cpp`. -/
def ProgressFrame (X : Externals) (w : World) : World × List Nat :=
  ({ (X.ProgressFrame w).1 with log := w.log ++ [Event.ProgressFrame] }, (X.ProgressFrame w).2)

/-- `Image::SetIscriptAnimation`: the new state and the returned commands
(`ProgressFrame_C()` is the empty list). -/
def SetIscriptAnimation (K : Consts) (X : Externals) (anim : Nat) (w : World) :
    World × List Nat :=
  let A := K.IscriptAnim
  if anim = A.Death ∧ w.img.iscript.animation = A.Death then (w, [])
  else if w.img.flags &&& 0x10 = 0 ∧ anim ≠ A.Death ∧ anim ≠ A.Init then (w, []) -- ~flags & 0x10
  else if anim = w.img.iscript.animation ∧ (anim = A.Walking ∨ anim = A.Working) then (w, [])
  else
    let anim :=
      if anim = A.GndAttkRpt then
        if w.img.iscript.animation ≠ A.GndAttkRpt ∧ w.img.iscript.animation ≠ A.GndAttkInit then
          A.GndAttkInit
        else anim
      else if anim = A.AirAttkRpt then
        if w.img.iscript.animation ≠ A.AirAttkRpt ∧ w.img.iscript.animation ≠ A.AirAttkInit then
          A.AirAttkInit
        else anim
      else anim
    let pos := w.img.iscript.header
    let warned : World × List Nat :=
      ({ w with log := w.log ++ [Event.WarnNoAnimation w.img.image_id anim] }, [])
    if load32s w.iscript (pos + 4) ≥ (anim : Int) then
      let anim_off := load16 w.iscript (pos + 8 + anim * 2)
      if anim_off ≠ 0 then
        ProgressFrame X { w with img := { w.img with iscript :=
          { w.img.iscript with animation := anim, pos := anim_off, return_pos := 0, wait := 0 } } }
      else warned
    else warned

/-- `Image::UpdateFrameToDirection`.  Modelled from the game's image layout (the
class is declared in `image.h`, which is not among the sources): `frameset` and
`frame` are `uint16_t` members and `direction` is a `uint8_t` member, so the sum
is computed and compared on `int` and stored into `frame` modulo `2 ^ 16`. -/
def Image.UpdateFrameToDirection (K : Consts) (img : Image) : Image :=
  if img.frameset + img.direction ≠ img.frame then
    { img with frame := (img.frameset + img.direction) % 2 ^ 16,
               flags := img.flags ||| K.ImageFlags.Redraw }
  else img

/-- The unpacking `counter = (val & 0xff00) >> 8` of a drawfunc parameter. -/
def paramCounter (drawfunc_param : Nat) : Nat :=
  ((drawfunc_param % 2 ^ 32) &&& 0xff00) >>> 8

/-- The unpacking `state = val & 0xff` of a drawfunc parameter. -/
def paramState (drawfunc_param : Nat) : Nat :=
  (drawfunc_param % 2 ^ 32) &&& 0xff

/-- `Image::DrawFunc_ProgressFrame`. -/
def DrawFunc_ProgressFrame (K : Consts) (X : Externals) (w : World) : World :=
  let D := K.DrawFunc
  if w.img.drawfunc = D.Cloaking ∨ w.img.drawfunc = D.DetectedCloaking then
    let counter := paramCounter w.img.drawfunc_param
    let state := paramState w.img.drawfunc_param
    if counter ≠ 0 then
      { w with img := { w.img with drawfunc_param := ((counter - 1) <<< 8) ||| state } }
    else
      let w := { w with img := { w.img with drawfunc_param := (state + 1) ||| 0x300 } }
      let w := { w with img := { w.img with flags := w.img.flags ||| K.ImageFlags.Redraw } }
      if state + 1 ≥ 8 then
        let w := SetDrawFunc K X (w.img.drawfunc + 1) 0 w
        match w.unit with
        | some u =>
          { w with unit := some { u with flags := u.flags |||
              (K.UnitStatus.InvisibilityDone ||| K.UnitStatus.BeginInvisibility) } }
        | none => w
      else w
  else if w.img.drawfunc = D.Decloaking ∨ w.img.drawfunc = D.DetectedDecloaking then
    let counter := paramCounter w.img.drawfunc_param
    let state := paramState w.img.drawfunc_param
    if counter ≠ 0 then
      { w with img := { w.img with drawfunc_param := ((counter - 1) <<< 8) ||| state } }
    else
      -- `(state - 1) | 0x300` is computed on `int`: it is -1 for `state == 0`
      let w := { w with img := { w.img with
        drawfunc_param := if state = 0 then 0xffffffff else (state - 1) ||| 0x300 } }
      let w := { w with img := { w.img with flags := w.img.flags ||| K.ImageFlags.Redraw } }
      if state = 1 then
        let w := SetDrawFunc K X D.Normal 0 w
        match w.unit with
        | some u =>
          -- flags &= ~(InvisibilityDone | BeginInvisibility)
          { w with unit := some { u with flags := (andNot32 u.flags
              (K.UnitStatus.InvisibilityDone ||| K.UnitStatus.BeginInvisibility)) } }
        | none => w
      else w
  else if w.img.drawfunc = D.WarpFlash then
    let counter := paramCounter w.img.drawfunc_param
    let state := paramState w.img.drawfunc_param
    if counter ≠ 0 then
      { w with img := { w.img with drawfunc_param := ((counter - 1) <<< 8) ||| state } }
    else
      let w := { w with img := { w.img with flags := w.img.flags ||| K.ImageFlags.Redraw } }
      if state < 0x3f then
        { w with img := { w.img with drawfunc_param := (state + 1) ||| 0x300 } }
      else
        let r := SetIscriptAnimation K X K.IscriptAnim.Death w
        let w := r.1
        let w :=
          if r.2 ≠ [] then
            { w with log := w.log ++ [Event.WarnUnhandledCommands w.img.image_id] }
          else w
        -- Unit *entity = ctx->unit != nullptr ? ctx->unit : (Unit *)ctx->bullet;
        match w.unit, w.bullet with
        | some u, _ => { w with unit := some { u with order_signal := u.order_signal ||| 0x1 } }
        | none, some b =>
          { w with bullet := some { b with order_signal := b.order_signal ||| 0x1 } }
        | none, none => w
  else w


/-- Example externals: an interpreter step that does nothing and returns no
command, and an overlay file that keeps the image's offset. -/
def exampleExternals : Externals where
  ProgressFrame := fun w => (w, [])
  OverlayOffset := fun _ img => (img.x_off, img.y_off)

/-- An image of type 0 with every member zero. -/
def exampleImage : Image where
  list := { prev := 0, next := 0 }
  image_id := 0
  x_off := 0
  y_off := 0
  parent := 0
  flags := 0
  frameset := 0
  frame := 0
  direction := 0
  drawfunc := 0
  drawfunc_param := 0
  Render := { index := 0, flipped := false }
  iscript := { header := 0, pos := 0, return_pos := 0, animation := 0, wait := 0 }

/-- An iscript buffer with one header at offset 0: highest animation index 27
at bytes 4..7 and the offset table at byte 8, with entries `0x40` for animation 0
(Init), `0x50` for animation 1 (Death) and `0x60` for animation 2. -/
def exampleIscript : List Nat :=
  [0, 0, 0, 0, 27, 0, 0, 0, 0x40, 0, 0x50, 0, 0x60, 0]

/-- A state around `exampleImage`: it is its sprite's main image, a unit is the
iscript context. -/
def exampleWorld : World where
  img := exampleImage
  main_image := MainImage.this
  unit := some { flags := 0, order_signal := 0 }
  bullet := none
  rng := 0
  image_flags := 0
  iscript := exampleIscript
  log := []

/-- The early returns of `SetIscriptAnimation` ("early no-op checks"). -/
def earlyNoop (K : Consts) (anim : Nat) (w : World) : Prop :=
  (anim = K.IscriptAnim.Death ∧ w.img.iscript.animation = K.IscriptAnim.Death) ∨
  (w.img.flags &&& 0x10 = 0 ∧ anim ≠ K.IscriptAnim.Death ∧ anim ≠ K.IscriptAnim.Init) ∨
  (anim = w.img.iscript.animation ∧ (anim = K.IscriptAnim.Walking ∨ anim = K.IscriptAnim.Working))

instance (K : Consts) (anim : Nat) (w : World) : Decidable (earlyNoop K anim w) := by
  unfold earlyNoop; infer_instance

/-- The animation `SetIscriptAnimation` looks up for a request `anim` when the
current animation is `cur`: a ground or air attack repeat is replaced by the
matching attack init unless `cur` is that repeat or that init. -/
def redirectedAnim (K : Consts) (anim cur : Nat) : Nat :=
  if anim = K.IscriptAnim.GndAttkRpt then
    if cur ≠ K.IscriptAnim.GndAttkRpt ∧ cur ≠ K.IscriptAnim.GndAttkInit then
      K.IscriptAnim.GndAttkInit
    else anim
  else if anim = K.IscriptAnim.AirAttkRpt then
    if cur ≠ K.IscriptAnim.AirAttkRpt ∧ cur ≠ K.IscriptAnim.AirAttkInit then
      K.IscriptAnim.AirAttkInit
    else anim
  else anim

/-- The state in which `SetIscriptAnimation` runs the interpreter once it has
accepted animation `a` with table entry `off`. -/
def committed (w : World) (a off : Nat) : World :=
  { w with img := { w.img with iscript :=
    { header := w.img.iscript.header, pos := off, return_pos := 0, animation := a, wait := 0 } } }


/-- The example state with the image drawn flipped (Flipped flag set, flipped
render function selected). -/
def exampleFlippedWorld : World :=
  { exampleWorld with img := { exampleImage with
      flags := 0x2, Render := { index := 0, flipped := true } } }

/-- An image with frameset 10 whose direction has just been changed from 2 to
3: the display frame is still 12. -/
def exampleTurnedImage : Image :=
  { exampleImage with frameset := 10, direction := 3, frame := 12 }

/-- An image at the upper end of the frame range: frameset 65535 with
direction 1, display frame 0. -/
def exampleWrapImage : Image :=
  { exampleImage with frameset := 65535, direction := 1, frame := 0 }

/-- An image with frameset 10 and direction 1 whose display frame is 11. -/
def exampleFrameImage : Image :=
  { exampleImage with frameset := 10, direction := 1, frame := 11 }


/-- The layout of the `DrawFunc` enumeration that `image.cpp` relies on: the
cloak variants are consecutive (`drawfunc + 1` is the terminal variant of a
cloaking one, the range `Cloaking .. Decloaking`), the detected variants are
three further (`drawfunc + 3`), and Normal and WarpFlash are other enumerators. -/
def DrawFuncIds.Layout (D : DrawFuncIds) : Prop :=
  D.Cloak = D.Cloaking + 1 ∧ D.Decloaking = D.Cloaking + 2 ∧
  D.DetectedCloaking = D.Cloaking + 3 ∧ D.DetectedCloak = D.Cloaking + 4 ∧
  D.DetectedDecloaking = D.Cloaking + 5 ∧
  (D.Normal < D.Cloaking ∨ D.Cloaking + 5 < D.Normal) ∧
  (D.WarpFlash < D.Cloaking ∨ D.Cloaking + 5 < D.WarpFlash) ∧
  D.Normal ≠ D.WarpFlash

instance (D : DrawFuncIds) : Decidable D.Layout := by
  unfold DrawFuncIds.Layout; infer_instance

/-- The state after `n` calls of `DrawFunc_ProgressFrame` (`n` ticks). -/
def ticks (K : Consts) (X : Externals) (n : Nat) (w : World) : World :=
  (DrawFunc_ProgressFrame K X)^[n] w

/-- The packed parameter of a cloaking image `n` ticks after parameter 0, for
`n <= 28`: after tick `n >= 1` the state byte is `(n + 3) / 4` and the counter
byte is `3 - (n - 1) % 4`. -/
def cloakParamAfter (n : Nat) : Nat :=
  if n = 0 then 0 else 256 * (3 - (n - 1) % 4) + (n + 3) / 4

/-- The example state with a WarpFlash image whose counter is exhausted in
terminal state `0x3f`. -/
def exampleWarpFlashWorld : World :=
  { exampleWorld with img := { exampleImage with drawfunc := 17, drawfunc_param := 0x3f } }

/-- The example state with a Cloaking image, parameter 0. -/
def exampleCloakingWorld : World :=
  { exampleWorld with img := { exampleImage with drawfunc := 2, drawfunc_param := 0 } }

/-- `entity->order_signal |= 0x1` on the owning entity of the iscript context:
`ctx->unit` if it is not null, otherwise `ctx->bullet` if that is not null. -/
def signalOwner (w : World) : World :=
  match w.unit, w.bullet with
  | some u, _ => { w with unit := some { u with order_signal := u.order_signal ||| 0x1 } }
  | none, some b => { w with bullet := some { b with order_signal := b.order_signal ||| 0x1 } }
  | none, none => w

/-- The warning of the WarpFlash branch when `SetIscriptAnimation` returned
commands. -/
def warnUnhandled (r : World × List Nat) : World :=
  if r.2 ≠ [] then
    { r.1 with log := r.1.log ++ [Event.WarnUnhandledCommands r.1.img.image_id] }
  else r.1


/-- The write `ctx->unit->flags |= InvisibilityDone | BeginInvisibility`, made
when `ctx->unit` is not null. -/
def setInvisible (K : Consts) (w : World) : World :=
  match w.unit with
  | some u =>
    { w with unit := some { u with flags := u.flags |||
        (K.UnitStatus.InvisibilityDone ||| K.UnitStatus.BeginInvisibility) } }
  | none => w


/-! ## The overlay list of a sprite -/

/-- The members of `Sprite` that `image.cpp` uses. -/
structure Sprite where
  first_overlay : Ptr
  last_overlay : Ptr
  main_image : Ptr
  deriving DecidableEq, Repr

/-- The heap seen by `Image::SingleDelete`: the allocated images and sprites
(by address; `none` = not allocated), `*bw::image_flags`, and the calls that
leave `image.cpp`. -/
structure Memory where
  images : Ptr → Option Image
  sprites : Ptr → Option Sprite
  image_flags : Nat
  log : List Event

/-- `Image::SingleDelete` on the image at address `this`.  `none` when a null or
dangling pointer is dereferenced or an `Assert` fails. -/
def SingleDelete (this : Ptr) (m : Memory) : Option Memory :=
  match m.images this with
  | none => none
  | some img =>
    -- if (~*bw::image_flags & 1) MarkImageAreaForRedraw(this);
    let m := { m with log :=
      if m.image_flags &&& 1 = 0 then m.log ++ [Event.MarkImageAreaForRedraw img.image_id]
      else m.log }
    -- if (list.next) list.next->list.prev = list.prev; else { Assert; parent->last_overlay = list.prev; }
    let m1 : Option Memory :=
      if img.list.next ≠ 0 then
        match m.images img.list.next with
        | none => none
        | some n =>
          some { m with images := (Function.update m.images img.list.next
            (some { n with list := { n.list with prev := img.list.prev } })) }
      else
        match m.sprites img.parent with
        | none => none
        | some p =>
          if p.last_overlay = this then
            some { m with sprites := (Function.update m.sprites img.parent
              (some { p with last_overlay := img.list.prev })) }
          else none
    match m1 with
    | none => none
    | some m =>
      match m.images this with
      | none => none
      | some img =>
        -- if (list.prev) list.prev->list.next = list.next; else { Assert; parent->first_overlay = list.next; }
        let m2 : Option Memory :=
          if img.list.prev ≠ 0 then
            match m.images img.list.prev with
            | none => none
            | some n =>
              some { m with images := (Function.update m.images img.list.prev
                (some { n with list := { n.list with next := img.list.next } })) }
          else
            match m.sprites img.parent with
            | none => none
            | some p =>
              if p.first_overlay = this then
                some { m with sprites := (Function.update m.sprites img.parent
                  (some { p with first_overlay := img.list.next })) }
              else none
        match m2 with
        | none => none
        | some m =>
          match m.images this with
          | none => none
          | some img =>
            match m.sprites img.parent with
            | none => none
            | some p =>
              -- if (parent->main_image == this) parent->main_image = nullptr;
              let m := { m with sprites :=
                if p.main_image = this then
                  Function.update m.sprites img.parent (some { p with main_image := 0 })
                else m.sprites }
              -- delete this;
              some { m with images := Function.update m.images this none }

/-- A chain of images of sprite `sp` linked through `list.prev` / `list.next`:
the images at `l`, in this order, are allocated, not null, belong to `sp`, the
first one has `list.prev = prev`, the last one has `list.next = next`, and
neighbours point at each other. -/
def Chain (m : Memory) (sp : Ptr) : Ptr → List Ptr → Ptr → Prop
  | _, [], _ => True
  | prev, p :: rest, next =>
    p ≠ 0 ∧
    (∃ img, m.images p = some img ∧ img.parent = sp ∧ img.list.prev = prev ∧
      img.list.next = rest.headD next) ∧
    Chain m sp p rest next

/-- The overlay list of sprite `sp` is the well-formed doubly linked list of the
images at `l`: no image occurs twice, the images form a chain from `nullptr`
to `nullptr`, and `first_overlay` / `last_overlay` are its ends (`nullptr` when
`l` is empty). -/
def OverlayList (m : Memory) (sp : Ptr) (l : List Ptr) : Prop :=
  l.Nodup ∧ Chain m sp 0 l 0 ∧
  ∃ s, m.sprites sp = some s ∧ s.first_overlay = l.headD 0 ∧ s.last_overlay = l.getLastD 0

/-- An example heap: sprite 1 with the overlays at 10, 20, 30 (in this order);
the image at 20 is its main image. -/
def exampleMemory : Memory where
  images := fun p =>
    if p = 10 then some { exampleImage with parent := 1, list := { prev := 0, next := 20 } }
    else if p = 20 then some { exampleImage with parent := 1, list := { prev := 10, next := 30 } }
    else if p = 30 then some { exampleImage with parent := 1, list := { prev := 20, next := 0 } }
    else none
  sprites := fun p =>
    if p = 1 then some { first_overlay := 10, last_overlay := 30, main_image := 20 } else none
  image_flags := 0
  log := []


/-- The image at `p` after its neighbour between `pv` and `nx` has been unlinked:
the successor `nx` gets `list.prev = pv`, the predecessor `pv` gets
`list.next = nx`. -/
def relinked (pv nx p : Ptr) (img : Image) : Image :=
  { img with list := { prev := if p = nx then pv else img.list.prev,
                       next := if p = pv then nx else img.list.next } }


/-- `Image::IsHidden` (inline in `image.h`): `flags & ImageFlags::Hidden`. -/
def Image.IsHidden (K : Consts) (img : Image) : Bool :=
  img.flags &&& K.ImageFlags.Hidden != 0

/-- `Image::Show`. -/
def Image.Show (K : Consts) (img : Image) : Image :=
  if img.IsHidden K then
    let img := { img with flags := andNot32 img.flags K.ImageFlags.Hidden }
    { img with flags := img.flags ||| K.ImageFlags.Redraw }
  else img

/-- `Image::Hide`. -/
def Hide (K : Consts) (w : World) : World :=
  if ¬ w.img.IsHidden K then
    let w :=
      if w.image_flags &&& 0x1 = 0 then     -- ~*bw::image_flags & 0x1
        { w with log := w.log ++ [Event.MarkImageAreaForRedraw w.img.image_id] }
      else w
    { w with img := { w.img with flags := w.img.flags ||| K.ImageFlags.Hidden } }
  else w

/-- `Image::SetFrame(int new_frame)`.  Modelled from the game's image layout (the
class is declared in `image.h`, which is not among the sources): `frameset` and
`frame` are `uint16_t` members and `direction` is a `uint8_t` member, so the
comparisons are made on `int` and the stores into `frameset` and `frame` keep
the value modulo `2 ^ 16`. -/
def Image.SetFrame (K : Consts) (new_frame : Int) (img : Image) : Image :=
  if (img.frameset : Int) ≠ new_frame then
    let img := { img with frameset := (new_frame % 2 ^ 16).toNat }
    if img.frame ≠ img.frameset + img.direction then
      { img with frame := (img.frameset + img.direction) % 2 ^ 16,
                 flags := img.flags ||| K.ImageFlags.Redraw }
    else img
  else img

/-- `Image::MakeDetected`. -/
def MakeDetected (K : Consts) (X : Externals) (w : World) : World :=
  let can_detect_noncloaked : Bool :=
    match w.main_image with
    | MainImage.null => false
    | MainImage.this => decide (w.img.drawfunc = K.DrawFunc.Normal)
    | MainImage.other m => decide (m.drawfunc = K.DrawFunc.Normal)
  if can_detect_noncloaked = true ∧ w.img.drawfunc = K.DrawFunc.Normal then
    SetDrawFunc K X K.DrawFunc.DetectedCloak 0 w
  else if w.img.drawfunc ≥ K.DrawFunc.Cloaking ∧ w.img.drawfunc ≤ K.DrawFunc.Decloaking then
    SetDrawFunc K X (w.img.drawfunc + 3) w.img.drawfunc_param w
  else w

/-- The condition `can_detect_noncloaked` of `MakeDetected`: the parent's main
image exists and has drawfunc Normal. -/
def mainImageIsNormal (K : Consts) (w : World) : Prop :=
  match w.main_image with
  | MainImage.null => False
  | MainImage.this => w.img.drawfunc = K.DrawFunc.Normal
  | MainImage.other m => m.drawfunc = K.DrawFunc.Normal

instance (K : Consts) (w : World) : Decidable (mainImageIsNormal K w) := by
  unfold mainImageIsNormal; cases w.main_image <;> infer_instance

/-- The flag constants are flags: Hidden is a non-zero 32-bit mask that does not
overlap Redraw. -/
def ImageFlagBits.HiddenIsFlag (F : ImageFlagBits) : Prop :=
  F.Hidden ≠ 0 ∧ F.Hidden < 2 ^ 32 ∧ F.Redraw &&& F.Hidden = 0

instance (F : ImageFlagBits) : Decidable F.HiddenIsFlag := by
  unfold ImageFlagBits.HiddenIsFlag; infer_instance

/-- The example state with the image hidden. -/
def exampleHiddenWorld : World :=
  { exampleWorld with img := { exampleImage with flags := 0x40 } }


/-- Rounding `w` up to a multiple of the alignment unit `A`. -/
def alignUp (w A : Nat) : Nat :=
  (w + (A - 1)) / A * A

/-- The `IscriptAnim` enumerators used by `image.cpp` are distinct. -/
def IscriptAnimIds.Distinct (A : IscriptAnimIds) : Prop :=
  [A.Init, A.Death, A.GndAttkInit, A.AirAttkInit, A.GndAttkRpt, A.AirAttkRpt,
    A.Walking, A.Working].Nodup

instance (A : IscriptAnimIds) : Decidable A.Distinct := by
  unfold IscriptAnimIds.Distinct; infer_instance

/-- The header of the image's script contains animation `a`: the 32-bit value at
`header + 4` is at least `a` and the table entry of `a` is not zero. -/
def hasAnimation (w : World) (a : Nat) : Prop :=
  load32s w.iscript (w.img.iscript.header + 4) ≥ (a : Int) ∧
  load16 w.iscript (w.img.iscript.header + 8 + a * 2) ≠ 0

instance (w : World) (a : Nat) : Decidable (hasAnimation w a) := by
  unfold hasAnimation; infer_instance

/-- The example state with the full-iscript flag set and an iscript header that
has the animations 0 .. 6 (table entries `0x40 + 0x10 * a`). -/
def exampleAttackWorld : World :=
  { exampleWorld with
    img := { exampleImage with flags := 0x10 },
    iscript := [0, 0, 0, 0, 27, 0, 0, 0,
      0x40, 0, 0x50, 0, 0x60, 0, 0x70, 0, 0x80, 0, 0x90, 0, 0xa0, 0] }

/-- The example state with a Cloaking image whose fade has reached counter 1,
state 5. -/
def exampleFadingWorld : World :=
  { exampleWorld with img := { exampleImage with drawfunc := 2, drawfunc_param := 0x105 } }

/-- The example state with a Decloaking image, counter 0, state 2. -/
def exampleDecloakingWorld : World :=
  { exampleWorld with
    img := { exampleImage with drawfunc := 4, drawfunc_param := 2 },
    unit := some { flags := 0x300, order_signal := 0 } }

/-- The packed parameter of a decloaking image `n` ticks after parameter `p`
(counter 0, state `s`), for `n <= 4 * (s - 1)`: after tick `n >= 1` the state
byte is `s - (n + 3) / 4` and the counter byte is `3 - (n - 1) % 4`. -/
def decloakParamAfter (p n : Nat) : Nat :=
  if n = 0 then p else 256 * (3 - (n - 1) % 4) + (paramState p - (n + 3) / 4)

/-- The write `ctx->unit->flags &= ~(InvisibilityDone | BeginInvisibility)`, made
when `ctx->unit` is not null. -/
def clearInvisible (K : Consts) (w : World) : World :=
  match w.unit with
  | some u =>
    { w with unit := some { u with flags := (andNot32 u.flags
        (K.UnitStatus.InvisibilityDone ||| K.UnitStatus.BeginInvisibility)) } }
  | none => w


/-! ## Blit loops and draw variants

Pointers into the frame buffer and into the surface are offsets from the start
of the buffer (`Int`, since the loops move them by signed amounts).  A
per-pixel operation `op(image_pos, surface_pos)` is a function of the two
offsets that transforms a state `S` (the surface contents for the real
operations, the list of calls when the accesses themselves are of interest). -/

/-- `Rect32` as the blit loops use it: `left` / `top` are the pixels and rows to
skip, `right` / `bottom` the width and height to draw. -/
structure Rect32 where
  left : Nat
  top : Nat
  right : Nat
  bottom : Nat
  deriving DecidableEq, Repr

/-- `*p` for a pointer `p` into a byte buffer; reads as 0 outside the buffer. -/
def peek (buf : List Nat) (p : Int) : Nat :=
  if 0 ≤ p then buf.getD p.toNat 0 else 0

/-- `*p = v` for a pointer `p` into a byte buffer; nothing is stored outside it. -/
def poke (buf : List Nat) (p : Int) (v : Nat) : List Nat :=
  if 0 ≤ p then buf.set p.toNat v else buf

/-- `for (int i = 0; i < n; i++) { op(image_pos, surface_pos); image_pos++; surface_pos++; }` -/
def unrollNonFlipped {S : Type} (op : Int → Int → S → S) : Nat → Int × Int × S → Int × Int × S
  | 0, st => st
  | n + 1, (image_pos, surface_pos, s) =>
    unrollNonFlipped op n (image_pos + 1, surface_pos + 1, op image_pos surface_pos s)

/-- `for (int i = 0; i < n; i++) { op(image_pos, surface_pos); image_pos--; surface_pos++; }` -/
def unrollFlipped {S : Type} (op : Int → Int → S → S) : Nat → Int × Int × S → Int × Int × S
  | 0, st => st
  | n + 1, (image_pos, surface_pos, s) =>
    unrollFlipped op n (image_pos - 1, surface_pos + 1, op image_pos surface_pos s)

/-- `for (x32 x = 0; x < draw_width; x += loop_unroll_count)` of `Render_NonFlipped`,
from the current `x`; the body is the two half groups.  `fuel` = `draw_width`
is enough for a positive `loop_unroll_count`. -/
def groupsNonFlipped {S : Type} (loop_unroll_count : Nat) (op : Int → Int → S → S)
    (draw_width : Nat) : Nat → Nat → Int × Int × S → Int × Int × S
  | 0, _, st => st
  | fuel + 1, x, st =>
    if x < draw_width then
      groupsNonFlipped loop_unroll_count op draw_width fuel (x + loop_unroll_count)
        (unrollNonFlipped op (loop_unroll_count / 2)
          (unrollNonFlipped op (loop_unroll_count / 2) st))
    else st

/-- `for (x32 x = 0; x < draw_width; x += loop_unroll_count)` of `Render_Flipped`. -/
def groupsFlipped {S : Type} (loop_unroll_count : Nat) (op : Int → Int → S → S)
    (draw_width : Nat) : Nat → Nat → Int × Int × S → Int × Int × S
  | 0, _, st => st
  | fuel + 1, x, st =>
    if x < draw_width then
      groupsFlipped loop_unroll_count op draw_width fuel (x + loop_unroll_count)
        (unrollFlipped op (loop_unroll_count / 2)
          (unrollFlipped op (loop_unroll_count / 2) st))
    else st

/-- `for (y32 line_count = rect->bottom; line_count != 0; line_count--)` of
`Render_NonFlipped`. -/
def linesNonFlipped {S : Type} (loop_unroll_count : Nat) (op : Int → Int → S → S)
    (draw_width : Nat) (img_add surface_add : Int) : Nat → Int × Int × S → Int × Int × S
  | 0, st => st
  | line_count + 1, st =>
    linesNonFlipped loop_unroll_count op draw_width img_add surface_add line_count
      ((groupsNonFlipped loop_unroll_count op draw_width draw_width 0 st).1 + img_add,
       (groupsNonFlipped loop_unroll_count op draw_width draw_width 0 st).2.1 + surface_add,
       (groupsNonFlipped loop_unroll_count op draw_width draw_width 0 st).2.2)

/-- `for (y32 line_count = rect->bottom; line_count != 0; line_count--)` of
`Render_Flipped`. -/
def linesFlipped {S : Type} (loop_unroll_count : Nat) (op : Int → Int → S → S)
    (draw_width : Nat) (img_add surface_add : Int) : Nat → Int × Int × S → Int × Int × S
  | 0, st => st
  | line_count + 1, st =>
    linesFlipped loop_unroll_count op draw_width img_add surface_add line_count
      ((groupsFlipped loop_unroll_count op draw_width draw_width 0 st).1 + img_add,
       (groupsFlipped loop_unroll_count op draw_width draw_width 0 st).2.1 + surface_add,
       (groupsFlipped loop_unroll_count op draw_width draw_width 0 st).2.2)

/-- `Render_NonFlipped`, on a surface of width `surface_w` (`surface->w`). -/
def Render_NonFlipped {S : Type} (K : Consts) (surface_w : Nat) (x y : Int)
    (frame_header : GrpFrameHeader) (rect : Rect32) (op : Int → Int → S → S) (s : S) : S :=
  let loop_unroll_count := K.grp_padding_size
  let surface_pos : Int := x + y * surface_w
  let skip := rect.left
  let draw_width := andNot32 (rect.right + (loop_unroll_count - 1)) (loop_unroll_count - 1)
  let surface_add : Int := surface_w - draw_width
  let img_width := frame_header.GetWidth K
  let img_add : Int := img_width - draw_width
  let image_pos : Int := 2 + img_width * rect.top + loop_unroll_count - 1
  let image_pos := image_pos + skip
  let sub : Int := x + draw_width - surface_w
  let image_pos := if x + draw_width ≥ surface_w then image_pos - sub else image_pos
  let surface_pos := if x + draw_width ≥ surface_w then surface_pos - sub else surface_pos
  (linesNonFlipped loop_unroll_count op draw_width img_add surface_add rect.bottom
    (image_pos, surface_pos, s)).2.2

/-- `Render_Flipped`, on a surface of width `surface_w` (`surface->w`). -/
def Render_Flipped {S : Type} (K : Consts) (surface_w : Nat) (x y : Int)
    (frame_header : GrpFrameHeader) (rect : Rect32) (op : Int → Int → S → S) (s : S) : S :=
  let loop_unroll_count := K.grp_padding_size
  let skip := rect.left
  let draw_width := andNot32 (rect.right + (loop_unroll_count - 1)) (loop_unroll_count - 1)
  let surface_pos : Int := x + y * surface_w
  let surface_add : Int := surface_w - draw_width
  let img_width := frame_header.GetWidth K
  let img_add : Int := img_width + draw_width
  let image_pos : Int := 2 + img_width * rect.top + loop_unroll_count - 1 + frame_header.w - 1
  let image_pos := image_pos - skip
  let sub : Int := x + draw_width - surface_w
  let image_pos := if x + draw_width ≥ surface_w then image_pos + sub else image_pos
  let surface_pos := if x + draw_width ≥ surface_w then surface_pos - sub else surface_pos
  (linesFlipped loop_unroll_count op draw_width img_add surface_add rect.bottom
    (image_pos, surface_pos, s)).2.2

/-- A per-pixel operation that stores `g (*in) (*out)` at `*out`: the new
destination pixel is a function of the source pixel and the current destination
pixel.  `*out = blend_table[*in << 8 | *out]`, `*out = *in ? remap[*in] : *out`,
`*out = *in ? remap[*out] : *out` and the conditional store of the
uncloaked-part variant are of this form. -/
def pixelOp (g : Nat → Nat → Nat) (frame : List Nat) (inp out : Int) (canvas : List Nat) :
    List Nat :=
  poke canvas out (g (peek frame inp) (peek canvas out))

/-- The identity per-pixel operation `*out = *in`. -/
def copyOp (frame : List Nat) (inp out : Int) (canvas : List Nat) : List Nat :=
  poke canvas out (peek frame inp)

/-- The per-pixel operation of `DrawCloaked_NonFlipped` and `DrawCloaked_Flipped`
(the two lambdas are the same); `remap` is `bw::cloak_remap_palette`, `N` is
`resolution::screen_width * resolution::screen_height`, and `surface_end` is
the offset `N`. -/
def cloakedOp (remap : List Nat) (N : Nat) (frame : List Nat) (inp out : Int)
    (canvas : List Nat) : List Nat :=
  let pos := remap.getD (peek frame inp) 0 % 256      -- uint8_t pos = remap[*in];
  let out_pos : Int := out + pos
  let out_pos := if out_pos ≥ N then out_pos - N else out_pos
  poke canvas out (peek canvas out_pos)

/-- `DrawCloaked_NonFlipped`. -/
def DrawCloaked_NonFlipped (K : Consts) (remap : List Nat) (N surface_w : Nat) (x y : Int)
    (frame_header : GrpFrameHeader) (rect : Rect32) (canvas : List Nat) : List Nat :=
  Render_NonFlipped K surface_w x y frame_header rect
    (cloakedOp remap N frame_header.frame) canvas

/-- `DrawCloaked_Flipped`. -/
def DrawCloaked_Flipped (K : Consts) (remap : List Nat) (N surface_w : Nat) (x y : Int)
    (frame_header : GrpFrameHeader) (rect : Rect32) (canvas : List Nat) : List Nat :=
  Render_Flipped K surface_w x y frame_header rect
    (cloakedOp remap N frame_header.frame) canvas

/-- The per-pixel operation of `DrawWarpTexture_NonFlipped` and
`DrawWarpTexture_Flipped`: the position of `in` inside the texture frame selects
the pixel of the target frame `frame_header` that masks the store.  `/` and `%`
are the C++ ones on `int`. -/
def warpTextureOp (K : Consts) (warp_texture_header frame_header : GrpFrameHeader)
    (inp out : Int) (canvas : List Nat) : List Nat :=
  let warp_texture_width : Int := warp_texture_header.GetWidth K
  let frame_width : Int := frame_header.GetWidth K
  let y := Int.tdiv (inp - 2) warp_texture_width
  let x := Int.tmod (inp - 2) warp_texture_width
  if peek frame_header.frame (2 + y * frame_width + x) ≠ 0 then
    poke canvas out (peek warp_texture_header.frame inp)
  else canvas

/-- The pointer pairs `(image_pos, surface_pos)` that `Render_NonFlipped` passes
to the per-pixel operation, in order. -/
def Render_NonFlipped_calls (K : Consts) (surface_w : Nat) (x y : Int)
    (frame_header : GrpFrameHeader) (rect : Rect32) : List (Int × Int) :=
  Render_NonFlipped K surface_w x y frame_header rect (fun ip sp tr => tr ++ [(ip, sp)]) []

/-- The pointer pairs `(image_pos, surface_pos)` that `Render_Flipped` passes to
the per-pixel operation, in order. -/
def Render_Flipped_calls (K : Consts) (surface_w : Nat) (x y : Int)
    (frame_header : GrpFrameHeader) (rect : Rect32) : List (Int × Int) :=
  Render_Flipped K surface_w x y frame_header rect (fun ip sp tr => tr ++ [(ip, sp)]) []

/-- The calls of one line: `n` calls from `(ip, sp)`, the image pointer moving by
`dir` and the surface pointer by 1 after each. -/
def rowCalls (dir : Int) : Nat → Int → Int → List (Int × Int)
  | 0, _, _ => []
  | n + 1, ip, sp => (ip, sp) :: rowCalls dir n (ip + dir) (sp + 1)

/-- The calls of `n` lines of `per_row` calls each, the line starts moving by
`stride_i` / `stride_s` from line to line. -/
def blitCalls (dir : Int) (per_row : Nat) (stride_i stride_s : Int) :
    Nat → Int → Int → List (Int × Int)
  | 0, _, _ => []
  | n + 1, ip, sp =>
    rowCalls dir per_row ip sp ++
      blitCalls dir per_row stride_i stride_s n (ip + stride_i) (sp + stride_s)

/-- Running a per-pixel operation over a list of calls. -/
def applyCalls {S : Type} (op : Int → Int → S → S) (calls : List (Int × Int)) (s : S) : S :=
  calls.foldl (fun s p => op p.1 p.2 s) s

/-- The byte of `f` that the column-mirrored frame holds at offset `i`: inside
the `w` stored columns of a row (which start `grp_padding_size - 1` bytes into
the row) column `c` is taken from column `w - 1 - c`; other bytes stay. -/
def mirrorIndex (K : Consts) (f : GrpFrameHeader) (i : Nat) : Nat :=
  if 2 ≤ i ∧ K.grp_padding_size - 1 ≤ (i - 2) % f.GetWidth K ∧
      (i - 2) % f.GetWidth K < K.grp_padding_size - 1 + f.w then
    2 + (i - 2) / f.GetWidth K * f.GetWidth K + (K.grp_padding_size - 1)
      + (f.w - 1 - ((i - 2) % f.GetWidth K - (K.grp_padding_size - 1)))
  else i

/-- The decoded frame `f` with the `w` stored columns of each row mirrored. -/
def mirrorFrame (K : Consts) (f : GrpFrameHeader) : GrpFrameHeader :=
  { f with frame := (List.range f.frame.length).map (fun i => f.frame.getD (mirrorIndex K f i) 0) }

/-- Header constants with a 2-pixel alignment unit, for small examples. -/
def smallConsts : Consts :=
  { exampleConsts with grp_padding_size := 2 }

/-- A decoded 2x1 frame for `smallConsts`: marker, one padding byte, the
pixels 7 and 9, one padding byte. -/
def smallFrame : GrpFrameHeader where
  x := 0
  y := 0
  w := 2
  h := 1
  frame := [0, 0, 0, 7, 9, 0]

/-- A decoded 2x1 target frame for `smallConsts` whose first pixel is set and
whose second pixel is clear. -/
def smallMask : GrpFrameHeader where
  x := 0
  y := 0
  w := 2
  h := 1
  frame := [0, 0, 0, 1, 0, 0]

/-- The rectangle covering `smallFrame`. -/
def smallRect : Rect32 where
  left := 0
  top := 0
  right := 2
  bottom := 1


/-- `draw_width` of the blit loops: `rect->right` rounded up to the alignment unit. -/
def drawWidth (K : Consts) (rect : Rect32) : Nat :=
  andNot32 (rect.right + (K.grp_padding_size - 1)) (K.grp_padding_size - 1)

/-- The number of calls the blit loops make per line: one group of
`loop_unroll_count / 2 + loop_unroll_count / 2` calls for every
`loop_unroll_count` columns of `draw_width`. -/
def perRow (K : Consts) (rect : Rect32) : Nat :=
  drawWidth K rect / K.grp_padding_size * (K.grp_padding_size / 2 + K.grp_padding_size / 2)

/-- The amount `sub` by which the right-edge clip moves the cursors (0 when the
clip does not trigger). -/
def clipSub (K : Consts) (surface_w : Nat) (x : Int) (rect : Rect32) : Int :=
  if x + drawWidth K rect ≥ surface_w then x + drawWidth K rect - surface_w else 0


/-- The packed parameter of a WarpFlash image `n` ticks after parameter `0x230`,
for `n <= 62`: the state byte is `0x30 + (n + 1) / 4` and the counter byte is
`3 - (n + 1) % 4`. -/
def warpFlashParamAfter (n : Nat) : Nat :=
  256 * (3 - (n + 1) % 4) + (0x30 + (n + 1) / 4)


/-! ## Theorems -/

theorem and_bf_eq_and_3f (v : Nat) (h : v &&& 0x80 = 0) : v &&& 0xbf = v &&& 0x3f := by
  have e : (0xbf : Nat) = 0x3f ||| 0x80 := by decide
  rw [e, Nat.and_or_distrib_left, h, Nat.or_zero]

theorem refDecodeRow_length (frame : List Nat) :
    ∀ (fuel line remaining : Nat) (row : List Nat),
      refDecodeRow frame fuel line remaining = some row → row.length = remaining := by
  intro fuel
  induction fuel with
  | zero =>
    intro line remaining row h
    simp only [refDecodeRow] at h
    split at h
    · simp_all
    · simp at h
  | succ fuel ih =>
    intro line remaining row h
    simp only [refDecodeRow] at h
    split at h
    · simp_all
    · split at h
      · simp at h
      · rename_i tok htok
        split at h
        · split at h
          · rename_i hn
            simp only [Option.map_eq_some'] at h
            obtain ⟨rest, hrest, rfl⟩ := h
            have := ih _ _ _ hrest
            simp [this]; omega
          · simp at h
        · split at h
          · split at h
            · simp at h
            · split at h
              · rename_i hn
                simp only [Option.map_eq_some'] at h
                obtain ⟨rest, hrest, rfl⟩ := h
                have := ih _ _ _ hrest
                simp [this]; omega
              · simp at h
          · split at h
            · rename_i hn
              simp only [Option.map_eq_some'] at h
              obtain ⟨rest, hrest, rfl⟩ := h
              have := ih _ _ _ hrest
              simp only [List.length_append, this]
              omega
            · simp at h

theorem getPixelLoop_refDecodeRow (frame : List Nat) (x : Nat) :
    ∀ (fuel line pos remaining : Nat) (row : List Nat),
      refDecodeRow frame fuel line remaining = some row → pos ≤ x → x < pos + remaining →
      getPixelLoop frame x fuel line pos = row[x - pos]? := by
  intro fuel
  induction fuel with
  | zero =>
    intro line pos remaining row h hx hlt
    simp only [refDecodeRow] at h
    split at h
    · omega
    · simp at h
  | succ fuel ih =>
    intro line pos remaining row h hx hlt
    simp only [refDecodeRow] at h
    rw [if_neg (by omega)] at h
    simp only [getPixelLoop]
    cases htok : frame[line]? with
    | none => simp [htok] at h
    | some tok =>
      simp only [htok] at h ⊢
      by_cases h7 : tok &&& 0x80 ≠ 0
      · rw [if_pos h7] at h ⊢
        split at h
        · rename_i hn
          simp only [Option.map_eq_some'] at h
          obtain ⟨rest, hrest, rfl⟩ := h
          by_cases hin : x < pos + (tok &&& 0x7f)
          · rw [if_pos hin, List.getElem?_append_left (by simp; omega)]
            rw [List.getElem?_replicate, if_pos (by omega)]
          · rw [if_neg hin, ih _ _ _ _ hrest (by omega) (by omega),
              List.getElem?_append_right (by simp; omega)]
            simp only [List.length_replicate]
            congr 1; omega
        · simp at h
      · rw [if_neg h7] at h ⊢
        have h7' : tok &&& 0x80 = 0 := by simpa using h7
        by_cases h6 : tok &&& 0x40 ≠ 0
        · rw [if_pos h6] at h ⊢
          rw [and_bf_eq_and_3f tok h7']
          cases hcol : frame[line + 1]? with
          | none => simp [hcol] at h
          | some color =>
            simp only [hcol] at h ⊢
            split at h
            · rename_i hn
              simp only [Option.map_eq_some'] at h
              obtain ⟨rest, hrest, rfl⟩ := h
              by_cases hin : x < pos + (tok &&& 0x3f)
              · rw [if_pos hin, List.getElem?_append_left (by simp; omega)]
                rw [List.getElem?_replicate, if_pos (by omega)]
              · rw [if_neg hin, ih _ _ _ _ hrest (by omega) (by omega),
                  List.getElem?_append_right (by simp; omega)]
                simp only [List.length_replicate]
                congr 1; omega
            · simp at h
        · rw [if_neg h6] at h ⊢
          split at h
          · rename_i hn
            simp only [Option.map_eq_some'] at h
            obtain ⟨rest, hrest, rfl⟩ := h
            by_cases hin : x < pos + tok
            · rw [if_pos hin, List.getElem?_append_left (by rw [hn.1]; omega)]
              rw [List.getElem?_take_of_lt (by omega), List.getElem?_drop]
            · rw [if_neg hin, ih _ _ _ _ hrest (by omega) (by omega),
                List.getElem?_append_right (by rw [hn.1]; omega)]
              rw [hn.1]
              congr 1; omega
          · simp at h

/-- Rows of the reference decode: row `i` of the flat buffer is the expansion
of the token row that the `i`-th offset-table entry points at. -/
theorem refDecode_rows (frame : List Nat) (w : Nat) :
    ∀ (ys : List Nat) (flat : List Nat),
      ys.foldr
        (fun y acc =>
          match read16 frame (2 * y), acc with
          | some off, some rest =>
            (refDecodeRow frame frame.length off w).map (fun row => row ++ rest)
          | _, _ => none)
        (some []) = some flat →
      flat.length = ys.length * w ∧
      ∀ i (hi : i < ys.length), ∃ off row,
        read16 frame (2 * ys[i]) = some off ∧
        refDecodeRow frame frame.length off w = some row ∧
        ∀ x, x < w → flat[i * w + x]? = row[x]? := by
  intro ys
  induction ys with
  | nil =>
    intro flat h
    simp at h
    subst h
    simp
  | cons y ys ih =>
    intro flat h
    simp only [List.foldr_cons] at h
    split at h
    · rename_i off rest hoff hrest
      simp only [Option.map_eq_some'] at h
      obtain ⟨row, hrow, rfl⟩ := h
      have hlen := refDecodeRow_length _ _ _ _ _ hrow
      obtain ⟨ihlen, ihrows⟩ := ih rest hrest
      refine ⟨by simp [hlen, ihlen]; ring, ?_⟩
      intro i hi
      cases i with
      | zero =>
        refine ⟨off, row, by simpa using hoff, hrow, ?_⟩
        intro x hx
        rw [List.getElem?_append_left (by omega)]
        simp
      | succ i =>
        obtain ⟨off', row', h1, h2, h3⟩ := ihrows i (by simpa using hi)
        refine ⟨off', row', by simpa using h1, h2, ?_⟩
        intro x hx
        rw [List.getElem?_append_right (by rw [hlen]; nlinarith)]
        rw [← h3 x hx, hlen]
        congr 1
        have : (i + 1) * w = i * w + w := by ring
        omega
    · simp at h

/-- C1: on every well-formed run-length-encoded frame and every in-bounds
`(x, y)`, `GetPixel` returns a pixel, and it is the pixel at `(x, y)` of the
reference decode-to-flat-buffer (row-major, `w` pixels per row). -/
theorem GetPixel_agrees_with_reference (K : Consts) (f : GrpFrameHeader) (x y : Nat)
    (hwf : f.WellFormedEncoded) (hx : x < f.w) (hy : y < f.h) :
    ∃ flat px, refDecode f = some flat ∧ flat.length = f.h * f.w ∧
      flat[y * f.w + x]? = some px ∧ f.GetPixel K x y = some px := by
  obtain ⟨_, hdec, hsome⟩ := hwf
  obtain ⟨flat, hflat⟩ := Option.isSome_iff_exists.mp hsome
  have hrows := refDecode_rows f.frame f.w (List.range f.h) flat hflat
  obtain ⟨hlen, hrows⟩ := hrows
  simp only [List.length_range] at hlen hrows
  obtain ⟨off, row, hoff, hrow, hpix⟩ := hrows y hy
  simp only [List.getElem_range] at hoff
  have hrl := refDecodeRow_length _ _ _ _ _ hrow
  have hget : f.GetPixel K x y = row[x]? := by
    simp only [GrpFrameHeader.GetPixel, hdec, hoff]
    rw [getPixelLoop_refDecodeRow f.frame x _ _ 0 f.w row hrow (by omega) (by omega)]
    simp
  have hlt : x < row.length := by omega
  refine ⟨flat, row[x], hflat, hlen, ?_, ?_⟩
  · rw [hpix x hx]; exact List.getElem?_eq_getElem hlt
  · rw [hget]; exact List.getElem?_eq_getElem hlt

/-- C1 instance: pixel (2, 0) of the example frame. -/
theorem GetPixel_agrees_with_reference_witness :
    ∃ flat px, refDecode exampleEncodedFrame = some flat ∧
      flat.length = exampleEncodedFrame.h * exampleEncodedFrame.w ∧
      flat[0 * exampleEncodedFrame.w + 2]? = some px ∧
      exampleEncodedFrame.GetPixel exampleConsts 2 0 = some px :=
  GetPixel_agrees_with_reference exampleConsts exampleEncodedFrame 2 0
    (by decide) (by decide) (by decide)

theorem andNot32_pow_two_sub_one (v k : Nat) (hv : v < 2 ^ 32) (hk : k ≤ 32) :
    andNot32 v (2 ^ k - 1) = v / 2 ^ k * 2 ^ k := by
  have hpos : 0 < 2 ^ k := Nat.two_pow_pos k
  have hle : 2 ^ k ≤ 2 ^ 32 := Nat.pow_le_pow_right (by decide) hk
  have hmask : 2 ^ 32 - 1 - (2 ^ k - 1) = 2 ^ 32 - ((2 ^ k - 1) + 1) := by omega
  unfold andNot32
  rw [hmask]
  apply Nat.eq_of_testBit_eq
  intro i
  rw [Nat.testBit_and, Nat.testBit_two_pow_sub_succ (by omega), Nat.testBit_two_pow_sub_one,
    Nat.mul_comm, Nat.testBit_mul_pow_two, ← Nat.shiftRight_eq_div_pow, Nat.testBit_shiftRight]
  by_cases hik : i < k
  · simp [hik]
  · have hge : k ≤ i := by omega
    by_cases hi32 : i < 32
    · simp [hik, hge, hi32, Nat.add_sub_cancel' hge]
    · have : v.testBit i = false :=
        Nat.testBit_lt_two_pow (lt_of_lt_of_le hv (Nat.pow_le_pow_right (by decide) (by omega)))
      simp [hik, hge, hi32, Nat.add_sub_cancel' hge, this]

/-- C2: with alignment unit `A = grp_padding_size = 2 ^ k` and a stored width
`w` in the range where the `int` arithmetic does not overflow, a decoded
frame has `GetWidth() = r + 2 * (A - 1)` where `r` is the least multiple of `A`
that is `>= w`; an encoded frame has `GetWidth() = w`. -/
theorem GetWidth_decoded_encoded (K : Consts) (f : GrpFrameHeader) (k : Nat)
    (hA : K.grp_padding_size = 2 ^ k) (hw : f.w + 3 * K.grp_padding_size < 2 ^ 31) :
    (f.IsDecoded = true →
      ∃ r, f.GetWidth K = r + 2 * (K.grp_padding_size - 1) ∧
        K.grp_padding_size ∣ r ∧ f.w ≤ r ∧
        ∀ m, K.grp_padding_size ∣ m → f.w ≤ m → r ≤ m) ∧
    (f.IsDecoded = false → f.GetWidth K = f.w) := by
  have hpos : 0 < 2 ^ k := Nat.two_pow_pos k
  have hk : k ≤ 32 := by
    by_contra hcon
    have : 2 ^ 32 ≤ 2 ^ k := Nat.pow_le_pow_right (by decide) (by omega)
    omega
  refine ⟨fun hd => ?_, fun hd => by simp [GrpFrameHeader.GetWidth, hd]⟩
  refine ⟨(f.w + (2 ^ k - 1)) / 2 ^ k * 2 ^ k, ?_, ?_, ?_, ?_⟩
  · simp only [GrpFrameHeader.GetWidth, hd, if_true, hA]
    rw [andNot32_pow_two_sub_one _ _ (by omega) hk]
  · rw [hA]; exact Dvd.intro_left _ rfl
  · have h1 := Nat.div_add_mod (f.w + (2 ^ k - 1)) (2 ^ k)
    have h2 := Nat.mod_lt (f.w + (2 ^ k - 1)) hpos
    rw [Nat.mul_comm] at h1
    omega
  · rintro m ⟨c, rfl⟩ hm
    rw [hA] at hm ⊢
    rw [Nat.mul_comm]
    apply Nat.mul_le_mul_left
    apply Nat.lt_succ_iff.mp
    rw [Nat.div_lt_iff_lt_mul hpos, Nat.succ_mul]
    rw [Nat.mul_comm] at hm
    generalize c * 2 ^ k = q at hm ⊢
    omega

theorem GetWidth_decoded_encoded_witness :
    (exampleDecodedFrame.IsDecoded = true →
      ∃ r, exampleDecodedFrame.GetWidth exampleConsts
          = r + 2 * (exampleConsts.grp_padding_size - 1) ∧
        exampleConsts.grp_padding_size ∣ r ∧ exampleDecodedFrame.w ≤ r ∧
        ∀ m, exampleConsts.grp_padding_size ∣ m → exampleDecodedFrame.w ≤ m → r ≤ m) ∧
    (exampleDecodedFrame.IsDecoded = false →
      exampleDecodedFrame.GetWidth exampleConsts = exampleDecodedFrame.w) :=
  GetWidth_decoded_encoded exampleConsts exampleDecodedFrame 4 (by decide) (by decide)

/-- C5: when the current animation is Walking (resp. Working),
`SetIscriptAnimation(Walking)` (resp. Working) returns the state it was given,
untouched (cursor, every other image member, and no interpreter step or warning
in the log) together with an empty command list; hence whenever a first call
left that animation active a second call is a no-op. -/
theorem SetIscriptAnimation_repeating_noop (K : Consts) (X : Externals) (w : World) (anim : Nat)
    (hrep : anim = K.IscriptAnim.Walking ∨ anim = K.IscriptAnim.Working) :
    (w.img.iscript.animation = anim → SetIscriptAnimation K X anim w = (w, [])) ∧
    ((SetIscriptAnimation K X anim w).1.img.iscript.animation = anim →
      SetIscriptAnimation K X anim (SetIscriptAnimation K X anim w).1
        = ((SetIscriptAnimation K X anim w).1, [])) := by
  have key : ∀ v : World, v.img.iscript.animation = anim →
      SetIscriptAnimation K X anim v = (v, []) := by
    intro v hv
    unfold SetIscriptAnimation
    simp only
    split
    · rfl
    · split
      · rfl
      · rw [if_pos ⟨hv.symm, hrep⟩]
  exact ⟨key w, key _⟩

theorem SetIscriptAnimation_repeating_noop_witness :
    ({ exampleWorld with img := { exampleImage with
          flags := 0x10, iscript := { exampleImage.iscript with animation := 11 } } }
        : World).img.iscript.animation = 11 ∧
    SetIscriptAnimation exampleConsts exampleExternals 11
      { exampleWorld with img := { exampleImage with
          flags := 0x10, iscript := { exampleImage.iscript with animation := 11 } } }
      = ({ exampleWorld with img := { exampleImage with
          flags := 0x10, iscript := { exampleImage.iscript with animation := 11 } } }, []) :=
  ⟨rfl, (SetIscriptAnimation_repeating_noop exampleConsts exampleExternals
    { exampleWorld with img := { exampleImage with
          flags := 0x10, iscript := { exampleImage.iscript with animation := 11 } } } 11
    (Or.inl rfl)).1 rfl⟩

theorem SetIscriptAnimation_past_checks (K : Consts) (X : Externals) (w : World) (anim : Nat)
    (hpass : ¬ earlyNoop K anim w) :
    SetIscriptAnimation K X anim w =
      if load32s w.iscript (w.img.iscript.header + 4)
          ≥ (redirectedAnim K anim w.img.iscript.animation : Int) then
        if load16 w.iscript
            (w.img.iscript.header + 8 + redirectedAnim K anim w.img.iscript.animation * 2) ≠ 0 then
          ProgressFrame X (committed w (redirectedAnim K anim w.img.iscript.animation)
            (load16 w.iscript
              (w.img.iscript.header + 8 + redirectedAnim K anim w.img.iscript.animation * 2)))
        else
          ({ w with log := w.log ++ [Event.WarnNoAnimation w.img.image_id
              (redirectedAnim K anim w.img.iscript.animation)] }, [])
      else
        ({ w with log := w.log ++ [Event.WarnNoAnimation w.img.image_id
            (redirectedAnim K anim w.img.iscript.animation)] }, []) := by
  simp only [earlyNoop, not_or] at hpass
  obtain ⟨h1, h2, h3⟩ := hpass
  unfold SetIscriptAnimation
  simp only
  rw [if_neg h1, if_neg h2, if_neg h3]
  rfl

/-- C6: for a request that passes the early no-op checks, with `a` the (possibly
redirected) animation and `off` the 16-bit entry at `header + 8 + 2 * a`:
if the 32-bit value at `header + 4` is `>= a` and `off` is non-zero, the result
is one interpreter step run on the state with `iscript.animation = a`,
`iscript.pos = off`, `iscript.return_pos = 0`, `iscript.wait = 0`; otherwise the
image and everything else is unchanged, one warning is logged and the command
list is empty.  The interpreter runs exactly in the first case. -/
theorem SetIscriptAnimation_commit_iff (K : Consts) (X : Externals) (w : World) (anim : Nat)
    (hpass : ¬ earlyNoop K anim w) :
    (load32s w.iscript (w.img.iscript.header + 4)
          ≥ (redirectedAnim K anim w.img.iscript.animation : Int) ∧
        load16 w.iscript
          (w.img.iscript.header + 8 + redirectedAnim K anim w.img.iscript.animation * 2) ≠ 0 →
      SetIscriptAnimation K X anim w =
        ProgressFrame X (committed w (redirectedAnim K anim w.img.iscript.animation)
          (load16 w.iscript
            (w.img.iscript.header + 8 + redirectedAnim K anim w.img.iscript.animation * 2)))) ∧
    (¬ (load32s w.iscript (w.img.iscript.header + 4)
          ≥ (redirectedAnim K anim w.img.iscript.animation : Int) ∧
        load16 w.iscript
          (w.img.iscript.header + 8 + redirectedAnim K anim w.img.iscript.animation * 2) ≠ 0) →
      SetIscriptAnimation K X anim w =
        ({ w with log := w.log ++ [Event.WarnNoAnimation w.img.image_id
            (redirectedAnim K anim w.img.iscript.animation)] }, [])) ∧
    ((SetIscriptAnimation K X anim w).1.log = w.log ++ [Event.ProgressFrame] ↔
      (load32s w.iscript (w.img.iscript.header + 4)
          ≥ (redirectedAnim K anim w.img.iscript.animation : Int) ∧
        load16 w.iscript
          (w.img.iscript.header + 8 + redirectedAnim K anim w.img.iscript.animation * 2) ≠ 0)) := by
  rw [SetIscriptAnimation_past_checks K X w anim hpass]
  by_cases h1 : load32s w.iscript (w.img.iscript.header + 4)
      ≥ (redirectedAnim K anim w.img.iscript.animation : Int)
  · by_cases h2 : load16 w.iscript
        (w.img.iscript.header + 8 + redirectedAnim K anim w.img.iscript.animation * 2) ≠ 0
    · simp only [if_pos h1, if_pos h2]
      refine ⟨fun _ => trivial, fun hn => absurd ⟨h1, h2⟩ hn, ?_⟩
      simp [ProgressFrame, committed, h1, h2]
    · simp only [if_pos h1, if_neg h2]
      refine ⟨fun hc => absurd hc.2 h2, fun _ => trivial, ?_⟩
      simp [h1, h2]
  · simp only [if_neg h1]
    refine ⟨fun hc => absurd hc.1 h1, fun _ => trivial, ?_⟩
    simp [h1]

theorem SetIscriptAnimation_commit_iff_witness :
    ¬ earlyNoop exampleConsts 0 exampleWorld ∧
    SetIscriptAnimation exampleConsts exampleExternals 0 exampleWorld =
      ProgressFrame exampleExternals (committed exampleWorld 0 0x40) :=
  ⟨by decide, (SetIscriptAnimation_commit_iff exampleConsts exampleExternals exampleWorld 0
    (by decide)).1 (by decide)⟩

/-- C7 as stated fails: with the current animation Death, a request for Init
that the header provides is committed (the cursor moves to Init's offset and the
interpreter runs). -/
theorem SetIscriptAnimation_death_not_terminal :
    ¬ ∀ (K : Consts) (X : Externals) (w : World) (anim : Nat),
      w.img.iscript.animation = K.IscriptAnim.Death →
      SetIscriptAnimation K X anim w = (w, []) := by
  intro h
  have h1 := h exampleConsts exampleExternals
    { exampleWorld with img := { exampleImage with
        iscript := { exampleImage.iscript with animation := 1 } } } 0 rfl
  have h2 := congrArg (fun r => r.1.img.iscript.pos) h1
  revert h2
  decide

/-- C7, amended: when the current animation is Death, `SetIscriptAnimation(Death)`
is a no-op: the state (cursor included) is returned untouched, no interpreter
step is logged, and the command list is empty. -/
theorem SetIscriptAnimation_death_on_death (K : Consts) (X : Externals) (w : World)
    (hdeath : w.img.iscript.animation = K.IscriptAnim.Death) :
    SetIscriptAnimation K X K.IscriptAnim.Death w = (w, []) := by
  unfold SetIscriptAnimation
  dsimp only
  rw [if_pos ⟨rfl, hdeath⟩]

theorem SetIscriptAnimation_death_on_death_witness :
    SetIscriptAnimation exampleConsts exampleExternals exampleConsts.IscriptAnim.Death
      { exampleWorld with img := { exampleImage with
          iscript := { exampleImage.iscript with animation := 1 } } }
      = ({ exampleWorld with img := { exampleImage with
          iscript := { exampleImage.iscript with animation := 1 } } }, []) :=
  SetIscriptAnimation_death_on_death exampleConsts exampleExternals
    { exampleWorld with img := { exampleImage with
        iscript := { exampleImage.iscript with animation := 1 } } } rfl

theorem or_and_self_right (a b : Nat) : (a ||| b) &&& b = b := by
  apply Nat.eq_of_testBit_eq
  intro i
  simp only [Nat.testBit_and, Nat.testBit_or]
  cases a.testBit i <;> cases b.testBit i <;> rfl

theorem or_or_self_right (a b : Nat) : a ||| b ||| b = a ||| b := by
  rw [Nat.or_assoc, Nat.or_self]

theorem or_and_ne_zero (a b c : Nat) (h : a &&& c ≠ 0) : (a ||| b) &&& c ≠ 0 := by
  obtain ⟨i, hi⟩ := Nat.ne_zero_implies_bit_true h
  intro h0
  have h1 := congrArg (fun n => n.testBit i) h0
  simp only [Nat.testBit_and, Nat.testBit_or, Nat.zero_testBit] at h1 hi
  cases ha : a.testBit i <;> cases hc : c.testBit i <;> simp_all

theorem SetOffset_eq (K : Consts) (x y : Int) (img : Image) :
    ∃ f, img.SetOffset K x y = { img with x_off := x, y_off := y, flags := f } ∧
      (f = img.flags ∨ f = img.flags ||| K.ImageFlags.Redraw) := by
  unfold Image.SetOffset
  dsimp only
  split
  · exact ⟨_, rfl, Or.inr rfl⟩
  · exact ⟨_, rfl, Or.inl rfl⟩

theorem UpdateSpecialOverlayPos_eq (K : Consts) (X : Externals) (w : World) :
    ∃ x y f, UpdateSpecialOverlayPos K X w =
        { w with img := { w.img with x_off := x, y_off := y, flags := f } } ∧
      (f = w.img.flags ∨ f = w.img.flags ||| K.ImageFlags.Redraw) := by
  unfold UpdateSpecialOverlayPos LoFile_SetImageOffset
  split
  · exact ⟨_, _, _, rfl, Or.inl rfl⟩
  · obtain ⟨f, h1, h2⟩ := SetOffset_eq K (X.OverlayOffset w.img.image_id w.img).1
      (X.OverlayOffset w.img.image_id w.img).2 w.img
    exact ⟨_, _, f, by rw [h1], h2⟩
  · rename_i m _
    obtain ⟨f, h1, h2⟩ := SetOffset_eq K (X.OverlayOffset m.image_id w.img).1
      (X.OverlayOffset m.image_id w.img).2 w.img
    exact ⟨_, _, f, by rw [h1], h2⟩

theorem SetDrawFunc_unfold (K : Consts) (X : Externals) (d p : Nat) (w : World) :
    SetDrawFunc K X d p w =
      { (if w.img.flags &&& K.ImageFlags.UseParentLo ≠ 0 then
          UpdateSpecialOverlayPos K X { w with img := { w.img with
            drawfunc := d,
            drawfunc_param := if d = K.DrawFunc.WarpFlash then 0x230 else p,
            Render := { index := d, flipped := w.img.IsFlipped K } } }
        else { w with img := { w.img with
            drawfunc := d,
            drawfunc_param := if d = K.DrawFunc.WarpFlash then 0x230 else p,
            Render := { index := d, flipped := w.img.IsFlipped K } } }) with
        img := { (if w.img.flags &&& K.ImageFlags.UseParentLo ≠ 0 then
          UpdateSpecialOverlayPos K X { w with img := { w.img with
            drawfunc := d,
            drawfunc_param := if d = K.DrawFunc.WarpFlash then 0x230 else p,
            Render := { index := d, flipped := w.img.IsFlipped K } } }
        else { w with img := { w.img with
            drawfunc := d,
            drawfunc_param := if d = K.DrawFunc.WarpFlash then 0x230 else p,
            Render := { index := d, flipped := w.img.IsFlipped K } } }).img with
          flags := (if w.img.flags &&& K.ImageFlags.UseParentLo ≠ 0 then
          UpdateSpecialOverlayPos K X { w with img := { w.img with
            drawfunc := d,
            drawfunc_param := if d = K.DrawFunc.WarpFlash then 0x230 else p,
            Render := { index := d, flipped := w.img.IsFlipped K } } }
        else { w with img := { w.img with
            drawfunc := d,
            drawfunc_param := if d = K.DrawFunc.WarpFlash then 0x230 else p,
            Render := { index := d, flipped := w.img.IsFlipped K } } }).img.flags
            ||| K.ImageFlags.Redraw } } := by
  unfold SetDrawFunc Image.IsFlipped
  dsimp only
  by_cases hf : (w.img.flags &&& K.ImageFlags.Flipped != 0) = true
  · by_cases hwf : d = K.DrawFunc.WarpFlash
    · simp only [hf, hwf, if_true]
    · simp only [hf, hwf, if_true, if_false]
  · by_cases hwf : d = K.DrawFunc.WarpFlash
    · simp only [hf, hwf, if_true, if_false, Bool.false_eq_true]
    · simp only [hf, hwf, if_true, if_false, Bool.false_eq_true]

/-- What `SetDrawFunc(d, p)` does to a state: it stores `d`, the parameter
(`0x230` for WarpFlash), selects the render function of `d` for the current
orientation, raises Redraw, and may move the offset (only when the image has
the UseParentLo flag). -/
theorem SetDrawFunc_eq (K : Consts) (X : Externals) (d p : Nat) (w : World) :
    ∃ x y : Int,
      SetDrawFunc K X d p w =
        { w with img := { w.img with
            drawfunc := d,
            drawfunc_param := if d = K.DrawFunc.WarpFlash then 0x230 else p,
            Render := { index := d, flipped := w.img.IsFlipped K },
            x_off := x, y_off := y,
            flags := w.img.flags ||| K.ImageFlags.Redraw } } ∧
      (w.img.flags &&& K.ImageFlags.UseParentLo = 0 → x = w.img.x_off ∧ y = w.img.y_off) := by
  rw [SetDrawFunc_unfold]
  by_cases hlo : w.img.flags &&& K.ImageFlags.UseParentLo ≠ 0
  · simp only [if_pos hlo]
    obtain ⟨x, y, f, h1, h2⟩ := UpdateSpecialOverlayPos_eq K X { w with img := { w.img with
            drawfunc := d,
            drawfunc_param := if d = K.DrawFunc.WarpFlash then 0x230 else p,
            Render := { index := d, flipped := w.img.IsFlipped K } } }
    rw [h1]
    refine ⟨x, y, ?_, fun h => absurd h hlo⟩
    rcases h2 with h2 | h2
    · subst h2; rfl
    · subst h2
      dsimp only
      rw [or_or_self_right]
  · simp only [if_neg hlo]
    exact ⟨w.img.x_off, w.img.y_off, rfl, fun _ => ⟨rfl, rfl⟩⟩

/-- On any image whose Flipped flag is set, `SetFlipping(false)` leaves it set,
whatever the values of the flag constants. -/
theorem SetFlipping_false_keeps_flag (K : Consts) (X : Externals) (w : World)
    (h : w.img.flags &&& K.ImageFlags.Flipped ≠ 0) :
    (SetFlipping K X false w).img.flags &&& K.ImageFlags.Flipped ≠ 0 := by
  unfold SetFlipping
  dsimp only
  split
  · obtain ⟨x, y, heq, -⟩ := SetDrawFunc_eq K X w.img.drawfunc w.img.drawfunc_param
      { w with img := { w.img with
        flags := w.img.flags ||| ((if false = true then 1 else 0) <<< 1) ||| K.ImageFlags.Redraw } }
    rw [heq]
    dsimp only
    rw [Nat.or_assoc, Nat.or_assoc]
    exact or_and_ne_zero _ _ _ h
  · exact h

/-- C8, the failing input: on a flipped image (flags = Flipped),
`SetFlipping(false)` leaves the Flipped flag set (`IsFlipped()` is still true),
raises Redraw and selects the flipped render function again. -/
theorem SetFlipping_false_on_flipped :
    (SetFlipping exampleConsts exampleExternals false exampleFlippedWorld).img.IsFlipped
        exampleConsts = true ∧
    (SetFlipping exampleConsts exampleExternals false exampleFlippedWorld).img.flags = 0x3 ∧
    (SetFlipping exampleConsts exampleExternals false exampleFlippedWorld).img.Render
        = { index := 0, flipped := true } := by
  decide

/-- C10 as stated (for every image) fails at the end of the range of the
`frame` member: on the image with frameset 65535, direction 1 and display
frame 0, `UpdateFrameToDirection` leaves the display frame 0, which is not
`frameset + direction = 65536`, and the flags change (Redraw is raised)
although the display frame value did not change. -/
theorem UpdateFrameToDirection_wraps :
    exampleWrapImage.frameset + exampleWrapImage.direction = 65536 ∧
    (exampleWrapImage.UpdateFrameToDirection exampleConsts).frame = 0 ∧
    (exampleWrapImage.UpdateFrameToDirection exampleConsts).frame = exampleWrapImage.frame ∧
    (exampleWrapImage.UpdateFrameToDirection exampleConsts).flags
      = exampleWrapImage.flags ||| exampleConsts.ImageFlags.Redraw ∧
    (exampleWrapImage.UpdateFrameToDirection exampleConsts).flags ≠ exampleWrapImage.flags := by
  decide

/-- C10, amended: for every image whose `frameset + direction` fits the 16-bit
`frame` member, after `UpdateFrameToDirection` the display frame is
`frameset + direction`; the flags become `flags | Redraw` (so the Redraw flag
is raised) if the frame value changed and are untouched if it did not; no other
member changes; and a second call changes nothing. -/
theorem UpdateFrameToDirection_spec (K : Consts) (img : Image)
    (hr : img.frameset + img.direction < 2 ^ 16) :
    (img.UpdateFrameToDirection K).frame = img.frameset + img.direction ∧
    (img.frame ≠ img.frameset + img.direction →
      (img.UpdateFrameToDirection K).flags = img.flags ||| K.ImageFlags.Redraw ∧
      (img.UpdateFrameToDirection K).flags &&& K.ImageFlags.Redraw = K.ImageFlags.Redraw) ∧
    (img.frame = img.frameset + img.direction →
      (img.UpdateFrameToDirection K).flags = img.flags) ∧
    img.UpdateFrameToDirection K =
      { img with frame := (img.UpdateFrameToDirection K).frame,
                 flags := (img.UpdateFrameToDirection K).flags } ∧
    (img.UpdateFrameToDirection K).UpdateFrameToDirection K = img.UpdateFrameToDirection K := by
  unfold Image.UpdateFrameToDirection
  rw [Nat.mod_eq_of_lt hr]
  by_cases h : img.frameset + img.direction = img.frame
  · simp [h]
  · have h' : ¬ img.frame = img.frameset + img.direction := fun e => h e.symm
    simp [h, h', or_and_self_right]

theorem UpdateFrameToDirection_spec_witness :
    exampleTurnedImage.frame = 12 ∧
    (exampleTurnedImage.UpdateFrameToDirection exampleConsts).frame
      = exampleTurnedImage.frameset + exampleTurnedImage.direction ∧
    (exampleTurnedImage.UpdateFrameToDirection exampleConsts).frame = 13 ∧
    (exampleTurnedImage.UpdateFrameToDirection exampleConsts).flags
      = exampleTurnedImage.flags ||| exampleConsts.ImageFlags.Redraw ∧
    (exampleTurnedImage.UpdateFrameToDirection exampleConsts).flags
      &&& exampleConsts.ImageFlags.Redraw = exampleConsts.ImageFlags.Redraw :=
  ⟨rfl, (UpdateFrameToDirection_spec exampleConsts exampleTurnedImage (by decide)).1, by decide,
    (UpdateFrameToDirection_spec exampleConsts exampleTurnedImage (by decide)).2.1 (by decide)⟩

theorem shl8_or (c s : Nat) (hs : s < 256) : (c <<< 8) ||| s = 256 * c + s := by
  rw [Nat.shiftLeft_eq, Nat.mul_comm]
  exact (Nat.mul_add_lt_is_or (i := 8) hs c).symm

theorem or_0x300 (s : Nat) (hs : s < 256) : s ||| 0x300 = 768 + s := by
  have h := shl8_or 3 s hs
  have e : (3 : Nat) <<< 8 = 0x300 := by decide
  rw [e] at h
  rw [Nat.or_comm, h]

theorem paramState_eq (p : Nat) : paramState p = p % 256 := by
  unfold paramState
  rw [show (0xff : Nat) = 2 ^ 8 - 1 by decide, Nat.and_pow_two_sub_one_eq_mod]
  omega

theorem paramCounter_eq (p : Nat) : paramCounter p = p / 256 % 256 := by
  unfold paramCounter
  have h : ∀ v : Nat, (v &&& 0xff00) >>> 8 = v / 256 % 256 := by
    intro v
    apply Nat.eq_of_testBit_eq
    intro i
    have e : (0xff00 : Nat) = (2 ^ 8 - 1) <<< 8 := by decide
    have e2 : (256 : Nat) = 2 ^ 8 := by decide
    rw [Nat.testBit_shiftRight, Nat.testBit_and, e, Nat.testBit_shiftLeft,
      Nat.testBit_two_pow_sub_one, e2, Nat.testBit_mod_two_pow, ← Nat.shiftRight_eq_div_pow,
      Nat.testBit_shiftRight]
    by_cases h : i < 8 <;> simp [h]
  rw [h]
  omega

theorem paramState_lt (p : Nat) : paramState p < 256 := by
  rw [paramState_eq]; omega

theorem paramCounter_lt (p : Nat) : paramCounter p < 256 := by
  rw [paramCounter_eq]; omega

theorem param_pack (c s : Nat) (hc : c < 256) (hs : s < 256) :
    paramCounter ((c <<< 8) ||| s) = c ∧ paramState ((c <<< 8) ||| s) = s := by
  rw [shl8_or c s hs, paramCounter_eq, paramState_eq]
  omega

/-- C4: on a WarpFlash image (WarpFlash being an enumerator other than the
cloaking and decloaking ones), one call of `DrawFunc_ProgressFrame`
(a) with a non-zero counter byte only stores the parameter with the counter
decremented (same state byte);
(b) with counter 0 and state below `0x3f` only raises Redraw and stores
`(state + 1) | 0x300`;
(c) with counter 0 and state `>= 0x3f` raises Redraw, calls
`SetIscriptAnimation(Death)` and then sets bit `0x1` of `order_signal` on the
owning entity (`ctx->unit` if non-null, otherwise `ctx->bullet` if non-null).
Only in case (c) is the animation requested or an entity written. -/
theorem DrawFunc_ProgressFrame_WarpFlash (K : Consts) (X : Externals) (w : World)
    (hlay : K.DrawFunc.Layout) (hdf : w.img.drawfunc = K.DrawFunc.WarpFlash) :
    (paramCounter w.img.drawfunc_param ≠ 0 →
      DrawFunc_ProgressFrame K X w =
        { w with img := { w.img with drawfunc_param :=
            ((paramCounter w.img.drawfunc_param - 1) <<< 8) ||| paramState w.img.drawfunc_param } } ∧
      paramCounter (DrawFunc_ProgressFrame K X w).img.drawfunc_param
        = paramCounter w.img.drawfunc_param - 1 ∧
      paramState (DrawFunc_ProgressFrame K X w).img.drawfunc_param
        = paramState w.img.drawfunc_param) ∧
    (paramCounter w.img.drawfunc_param = 0 ∧ paramState w.img.drawfunc_param < 0x3f →
      DrawFunc_ProgressFrame K X w =
        { w with img := { w.img with
            flags := w.img.flags ||| K.ImageFlags.Redraw,
            drawfunc_param := (paramState w.img.drawfunc_param + 1) ||| 0x300 } }) ∧
    (paramCounter w.img.drawfunc_param = 0 ∧ 0x3f ≤ paramState w.img.drawfunc_param →
      DrawFunc_ProgressFrame K X w =
        signalOwner (warnUnhandled (SetIscriptAnimation K X K.IscriptAnim.Death
          { w with img := { w.img with flags := w.img.flags ||| K.ImageFlags.Redraw } })) ∧
      (∀ u, (DrawFunc_ProgressFrame K X w).unit = some u → u.order_signal &&& 0x1 = 0x1) ∧
      ((DrawFunc_ProgressFrame K X w).unit = none →
        ∀ b, (DrawFunc_ProgressFrame K X w).bullet = some b → b.order_signal &&& 0x1 = 0x1)) := by
  obtain ⟨h1, h2, h3, h4, h5, h6, h7, h8⟩ := hlay
  have hn1 : ¬ (w.img.drawfunc = K.DrawFunc.Cloaking ∨
      w.img.drawfunc = K.DrawFunc.DetectedCloaking) := by rw [hdf]; omega
  have hn2 : ¬ (w.img.drawfunc = K.DrawFunc.Decloaking ∨
      w.img.drawfunc = K.DrawFunc.DetectedDecloaking) := by rw [hdf]; omega
  have hstep : DrawFunc_ProgressFrame K X w =
      if paramCounter w.img.drawfunc_param ≠ 0 then
        { w with img := { w.img with drawfunc_param :=
            ((paramCounter w.img.drawfunc_param - 1) <<< 8) ||| paramState w.img.drawfunc_param } }
      else if paramState w.img.drawfunc_param < 0x3f then
        { w with img := { w.img with
            flags := w.img.flags ||| K.ImageFlags.Redraw,
            drawfunc_param := (paramState w.img.drawfunc_param + 1) ||| 0x300 } }
      else
        signalOwner (warnUnhandled (SetIscriptAnimation K X K.IscriptAnim.Death
          { w with img := { w.img with flags := w.img.flags ||| K.ImageFlags.Redraw } })) := by
    unfold DrawFunc_ProgressFrame
    dsimp only
    rw [if_neg hn1, if_neg hn2, if_pos hdf]
    rfl
  rw [hstep]
  refine ⟨fun hc => ?_, fun hc => ?_, fun hc => ?_⟩
  · rw [if_pos hc]
    refine ⟨rfl, ?_, ?_⟩
    · have hlt := paramCounter_lt w.img.drawfunc_param
      exact (param_pack _ _ (by omega) (paramState_lt _)).1
    · have hlt := paramCounter_lt w.img.drawfunc_param
      exact (param_pack _ _ (by omega) (paramState_lt _)).2
  · rw [if_neg (by simp [hc.1]), if_pos hc.2]
  · rw [if_neg (by simp [hc.1]), if_neg (by omega)]
    refine ⟨rfl, ?_, ?_⟩
    · intro u hu
      unfold signalOwner at hu
      split at hu
      · simp only [Option.some.injEq] at hu
        subst hu
        exact or_and_self_right _ _
      · rename_i hnone _
        simp [hnone] at hu
      · rename_i hnone _
        simp [hnone] at hu
    · intro hnone b hb
      unfold signalOwner at hnone hb
      split at hb
      · simp at hnone
        rename_i hsome
        simp [hsome] at hnone
      · simp only [Option.some.injEq] at hb
        subst hb
        exact or_and_self_right _ _
      · rename_i hb0
        simp [hb0] at hb

theorem DrawFunc_ProgressFrame_WarpFlash_witness :
    DrawFunc_ProgressFrame exampleConsts exampleExternals exampleWarpFlashWorld =
      signalOwner (warnUnhandled (SetIscriptAnimation exampleConsts exampleExternals
        exampleConsts.IscriptAnim.Death
        { exampleWarpFlashWorld with img := { exampleWarpFlashWorld.img with
            flags := exampleWarpFlashWorld.img.flags ||| exampleConsts.ImageFlags.Redraw } })) ∧
    (DrawFunc_ProgressFrame exampleConsts exampleExternals exampleWarpFlashWorld).unit
      = some { flags := 0, order_signal := 1 } ∧
    (DrawFunc_ProgressFrame exampleConsts exampleExternals exampleWarpFlashWorld).img.iscript
      = { header := 0, pos := 0x50, return_pos := 0, animation := 1, wait := 0 } :=
  ⟨((DrawFunc_ProgressFrame_WarpFlash exampleConsts exampleExternals exampleWarpFlashWorld
      (by decide) (by decide)).2.2 (by decide)).1, by decide, by decide⟩

theorem cloakParamAfter_bytes (n : Nat) (h1 : 1 ≤ n) (h28 : n ≤ 28) :
    paramState (cloakParamAfter n) = (n + 3) / 4 ∧
    paramCounter (cloakParamAfter n) = 3 - (n - 1) % 4 := by
  unfold cloakParamAfter
  rw [if_neg (by omega), paramState_eq, paramCounter_eq]
  omega

/-- One tick of a cloaking (or detected-cloaking) image. -/
theorem DrawFunc_ProgressFrame_cloaking (K : Consts) (X : Externals) (w : World)
    (hdf : w.img.drawfunc = K.DrawFunc.Cloaking ∨ w.img.drawfunc = K.DrawFunc.DetectedCloaking) :
    DrawFunc_ProgressFrame K X w =
      if paramCounter w.img.drawfunc_param ≠ 0 then
        { w with img := { w.img with drawfunc_param :=
            ((paramCounter w.img.drawfunc_param - 1) <<< 8) ||| paramState w.img.drawfunc_param } }
      else if paramState w.img.drawfunc_param + 1 ≥ 8 then
        setInvisible K (SetDrawFunc K X (w.img.drawfunc + 1) 0
          { w with img := { w.img with
              drawfunc_param := (paramState w.img.drawfunc_param + 1) ||| 0x300,
              flags := w.img.flags ||| K.ImageFlags.Redraw } })
      else
        { w with img := { w.img with
            drawfunc_param := (paramState w.img.drawfunc_param + 1) ||| 0x300,
            flags := w.img.flags ||| K.ImageFlags.Redraw } } := by
  unfold DrawFunc_ProgressFrame
  dsimp only
  rw [if_pos hdf]
  rfl

theorem ticks_succ (K : Consts) (X : Externals) (n : Nat) (w : World) :
    ticks K X (n + 1) w = DrawFunc_ProgressFrame K X (ticks K X n w) := by
  unfold ticks
  exact Function.iterate_succ_apply' _ _ _

theorem ticks_cloaking_prefix (K : Consts) (X : Externals) (w : World)
    (hdf : w.img.drawfunc = K.DrawFunc.Cloaking ∨ w.img.drawfunc = K.DrawFunc.DetectedCloaking)
    (hp : w.img.drawfunc_param = 0) :
    ∀ n, n ≤ 28 → ticks K X n w =
      { w with img := { w.img with
          drawfunc_param := cloakParamAfter n,
          flags := if n = 0 then w.img.flags else w.img.flags ||| K.ImageFlags.Redraw } } := by
  intro n
  induction n with
  | zero =>
    intro _
    have : cloakParamAfter 0 = w.img.drawfunc_param := by rw [hp]; rfl
    rw [this]
    rfl
  | succ n ih =>
    intro hn
    have hdf' : (ticks K X n w).img.drawfunc = K.DrawFunc.Cloaking ∨
        (ticks K X n w).img.drawfunc = K.DrawFunc.DetectedCloaking := by
      rw [ih (by omega)]; exact hdf
    rw [ticks_succ, DrawFunc_ProgressFrame_cloaking K X _ hdf', ih (by omega)]
    dsimp only
    by_cases h0 : n = 0
    · subst h0
      have e1 : paramCounter (cloakParamAfter 0) = 0 := by decide
      have e2 : paramState (cloakParamAfter 0) = 0 := by decide
      rw [e1, e2]
      simp only [ne_eq, not_true_eq_false, if_false, if_true]
      rfl
    · obtain ⟨hs, hc⟩ := cloakParamAfter_bytes n (by omega) (by omega)
      rw [hs, hc, if_neg h0]
      by_cases h4 : (n - 1) % 4 = 3
      · rw [if_neg (by omega), if_neg (by omega), or_0x300 _ (by omega), or_or_self_right]
        have e : cloakParamAfter (n + 1) = 768 + ((n + 3) / 4 + 1) := by
          unfold cloakParamAfter
          rw [if_neg (by omega)]
          omega
        rw [e, if_neg (by omega)]
      · rw [if_pos (by omega), shl8_or _ _ (by omega)]
        have e : cloakParamAfter (n + 1) = 256 * (3 - (n - 1) % 4 - 1) + (n + 3) / 4 := by
          unfold cloakParamAfter
          rw [if_neg (by omega)]
          omega
        rw [e, if_neg (by omega)]

theorem setInvisible_eq (K : Consts) (v : World) :
    setInvisible K v = { v with unit := v.unit.map (fun u => { u with flags := u.flags |||
      (K.UnitStatus.InvisibilityDone ||| K.UnitStatus.BeginInvisibility) }) } := by
  unfold setInvisible
  cases h : v.unit with
  | none => simp only [Option.map_none']; cases v; simp_all
  | some u => simp only [Option.map_some']

/-- An image whose drawfunc is none of the five animated ones is left alone. -/
theorem DrawFunc_ProgressFrame_idle (K : Consts) (X : Externals) (w : World)
    (h1 : w.img.drawfunc ≠ K.DrawFunc.Cloaking) (h2 : w.img.drawfunc ≠ K.DrawFunc.DetectedCloaking)
    (h3 : w.img.drawfunc ≠ K.DrawFunc.Decloaking)
    (h4 : w.img.drawfunc ≠ K.DrawFunc.DetectedDecloaking)
    (h5 : w.img.drawfunc ≠ K.DrawFunc.WarpFlash) :
    DrawFunc_ProgressFrame K X w = w := by
  unfold DrawFunc_ProgressFrame
  dsimp only
  rw [if_neg (by simp [h1, h2]), if_neg (by simp [h3, h4]), if_neg h5]

/-- C3: from a Cloaking (resp. DetectedCloaking) image with packed parameter 0,
under the enumeration layout the code relies on:
after `n <= 28` ticks only the parameter and (from tick 1 on) the Redraw flag
have changed, the state byte being `(n + 3) / 4` and the counter byte
`3 - (n - 1) % 4` (so the state advances on ticks 1, 5, .., 25, refilling the
counter to 3, and the other ticks only decrement the counter); tick 29, the 8th
advance, stores drawfunc + 1 = Cloak (resp. DetectedCloak) with parameter 0 and
sets InvisibilityDone and BeginInvisibility on the unit; the unit is untouched
before, and from tick 29 on nothing changes any more. -/
theorem cloaking_progression (K : Consts) (X : Externals) (w : World)
    (hlay : K.DrawFunc.Layout)
    (hdf : w.img.drawfunc = K.DrawFunc.Cloaking ∨ w.img.drawfunc = K.DrawFunc.DetectedCloaking)
    (hp : w.img.drawfunc_param = 0) :
    (∀ n, n ≤ 28 → ticks K X n w =
      { w with img := { w.img with
          drawfunc_param := cloakParamAfter n,
          flags := if n = 0 then w.img.flags else w.img.flags ||| K.ImageFlags.Redraw } }) ∧
    (∀ n, 1 ≤ n → n ≤ 28 →
      paramState (cloakParamAfter n) = (n + 3) / 4 ∧
      paramCounter (cloakParamAfter n) = 3 - (n - 1) % 4) ∧
    (∃ x y : Int,
      ticks K X 29 w =
        { w with
          img := { w.img with
            drawfunc := w.img.drawfunc + 1,
            drawfunc_param := 0,
            Render := { index := w.img.drawfunc + 1,
                        flipped := Image.IsFlipped K
                          { w.img with flags := w.img.flags ||| K.ImageFlags.Redraw } },
            x_off := x, y_off := y,
            flags := w.img.flags ||| K.ImageFlags.Redraw },
          unit := w.unit.map (fun u => { u with flags := u.flags |||
            (K.UnitStatus.InvisibilityDone ||| K.UnitStatus.BeginInvisibility) }) } ∧
      ((w.img.flags ||| K.ImageFlags.Redraw) &&& K.ImageFlags.UseParentLo = 0 →
        x = w.img.x_off ∧ y = w.img.y_off)) ∧
    (w.img.drawfunc = K.DrawFunc.Cloaking → (ticks K X 29 w).img.drawfunc = K.DrawFunc.Cloak) ∧
    (w.img.drawfunc = K.DrawFunc.DetectedCloaking →
      (ticks K X 29 w).img.drawfunc = K.DrawFunc.DetectedCloak) ∧
    (∀ n, n ≤ 28 → (ticks K X n w).unit = w.unit ∧
      (ticks K X n w).img.drawfunc = w.img.drawfunc) ∧
    (∀ n, 29 ≤ n → ticks K X n w = ticks K X 29 w) := by
  obtain ⟨l1, l2, l3, l4, l5, l6, l7, l8⟩ := hlay
  have hpre := ticks_cloaking_prefix K X w hdf hp
  have h29 : ∃ x y : Int,
      ticks K X 29 w =
        { w with
          img := { w.img with
            drawfunc := w.img.drawfunc + 1,
            drawfunc_param := 0,
            Render := { index := w.img.drawfunc + 1,
                        flipped := Image.IsFlipped K
                          { w.img with flags := w.img.flags ||| K.ImageFlags.Redraw } },
            x_off := x, y_off := y,
            flags := w.img.flags ||| K.ImageFlags.Redraw },
          unit := w.unit.map (fun u => { u with flags := u.flags |||
            (K.UnitStatus.InvisibilityDone ||| K.UnitStatus.BeginInvisibility) }) } ∧
      ((w.img.flags ||| K.ImageFlags.Redraw) &&& K.ImageFlags.UseParentLo = 0 →
        x = w.img.x_off ∧ y = w.img.y_off) := by
    have hdf' : (ticks K X 28 w).img.drawfunc = K.DrawFunc.Cloaking ∨
        (ticks K X 28 w).img.drawfunc = K.DrawFunc.DetectedCloaking := by
      rw [hpre 28 (by omega)]; exact hdf
    rw [ticks_succ K X 28 w, DrawFunc_ProgressFrame_cloaking K X _ hdf', hpre 28 (by omega)]
    dsimp only
    have e1 : paramCounter (cloakParamAfter 28) = 0 := by decide
    have e2 : paramState (cloakParamAfter 28) = 7 := by decide
    rw [e1, e2, if_neg (by simp), if_pos (by decide), if_neg (by decide), setInvisible_eq,
      or_or_self_right]
    obtain ⟨x, y, heq, hxy⟩ := SetDrawFunc_eq K X (w.img.drawfunc + 1) 0
      { w with img := { w.img with
          drawfunc_param := (7 + 1) ||| 0x300,
          flags := w.img.flags ||| K.ImageFlags.Redraw } }
    dsimp only at heq hxy
    refine ⟨x, y, ?_, hxy⟩
    rw [heq]
    unfold Image.IsFlipped
    dsimp only
    rw [if_neg (by omega), or_or_self_right]
  have hfix : DrawFunc_ProgressFrame K X (ticks K X 29 w) = ticks K X 29 w := by
    obtain ⟨x, y, heq, -⟩ := h29
    apply DrawFunc_ProgressFrame_idle <;> rw [heq] <;> dsimp only <;> omega
  refine ⟨hpre, cloakParamAfter_bytes, h29, ?_, ?_, ?_, ?_⟩
  · intro hc
    obtain ⟨x, y, heq, -⟩ := h29
    rw [heq]; dsimp only; omega
  · intro hc
    obtain ⟨x, y, heq, -⟩ := h29
    rw [heq]; dsimp only; omega
  · intro n hn
    rw [hpre n hn]
    exact ⟨rfl, rfl⟩
  · intro n hn
    obtain ⟨m, rfl⟩ := Nat.exists_eq_add_of_le hn
    unfold ticks at hfix ⊢
    rw [Nat.add_comm, Function.iterate_add_apply]
    exact Function.iterate_fixed hfix m

theorem cloaking_progression_witness :
    (ticks exampleConsts exampleExternals 29 exampleCloakingWorld).img.drawfunc
      = exampleConsts.DrawFunc.Cloak :=
  (cloaking_progression exampleConsts exampleExternals exampleCloakingWorld
    (by decide) (by decide) (by decide)).2.2.2.1 (by decide)

theorem Chain_frame (m m' : Memory) (sp : Ptr) :
    ∀ (l : List Ptr) (prev next : Ptr),
      (∀ p ∈ l, ∀ img, m.images p = some img → m'.images p = some img) →
      Chain m sp prev l next → Chain m' sp prev l next := by
  intro l
  induction l with
  | nil => intro _ _ _ _; trivial
  | cons a l ih =>
    intro prev next hsame hc
    obtain ⟨ha, ⟨img, himg, hrest⟩, hch⟩ := hc
    exact ⟨ha, ⟨img, hsame a (List.mem_cons_self _ _) img himg, hrest⟩,
      ih _ _ (fun p hp => hsame p (List.mem_cons_of_mem _ hp)) hch⟩

theorem Chain_mem_ne_zero (m : Memory) (sp : Ptr) :
    ∀ (l : List Ptr) (prev next : Ptr), Chain m sp prev l next → ∀ p ∈ l, p ≠ 0 := by
  intro l
  induction l with
  | nil => intro _ _ _ p hp; simp at hp
  | cons a l ih =>
    intro prev next hc p hp
    obtain ⟨ha, -, hch⟩ := hc
    rcases List.mem_cons.mp hp with rfl | hp
    · exact ha
    · exact ih _ _ hch p hp

theorem getLastD_mem : ∀ (l : List Ptr) (b : Ptr), l.getLastD b ∈ b :: l := by
  intro l
  induction l with
  | nil => intro b; simp
  | cons c l ih =>
    intro b
    rw [List.getLastD_cons]
    exact List.mem_cons_of_mem _ (ih c)

theorem relinked_of_ne (pv nx p : Ptr) (img : Image) (h1 : p ≠ nx) (h2 : p ≠ pv) :
    relinked pv nx p img = img := by
  unfold relinked
  rw [if_neg h1, if_neg h2]

/-- Unlinking `this` from a chain: if every other image of the chain is
relinked around `this`, the images without `this` form a chain again. -/
theorem Chain_unlink (m m' : Memory) (sp this : Ptr) (l2 : List Ptr) (next : Ptr) :
    ∀ (l1 : List Ptr) (prev : Ptr),
      (l1 ++ this :: l2).Nodup → prev ∉ l1 ++ this :: l2 → next ∉ l1 ++ this :: l2 →
      Chain m sp prev (l1 ++ this :: l2) next →
      (∀ p ∈ l1 ++ l2, ∀ img, m.images p = some img →
        m'.images p = some (relinked (l1.getLastD prev) (l2.headD next) p img)) →
      Chain m' sp prev (l1 ++ l2) next := by
  intro l1
  induction l1 with
  | nil =>
    intro prev hnd hprev hnext hc hrel
    simp only [List.nil_append, List.getLastD_nil] at *
    obtain ⟨-, -, hch⟩ := hc
    cases l2 with
    | nil => trivial
    | cons b l2 =>
      obtain ⟨hb, ⟨img, himg, hpar, hpv, hnx⟩, hch'⟩ := hch
      have hbprev : b ≠ prev := by
        rintro rfl; exact hprev (by simp)
      refine ⟨hb, ⟨_, hrel b (List.mem_cons_self _ _) img himg, hpar, ?_, ?_⟩, ?_⟩
      · simp [relinked]
      · simp [relinked, hbprev, hnx]
      · apply Chain_frame m m' sp l2 b next _ hch'
        intro p hp ip hip
        have hpb : p ≠ b := by
          rintro rfl
          simp only [List.nodup_cons] at hnd
          exact hnd.2.1 hp
        have hpp : p ≠ prev := by
          rintro rfl; exact hprev (by simp [hp])
        rw [hrel p (List.mem_cons_of_mem _ hp) ip hip]
        simp only [List.headD_cons]
        rw [relinked_of_ne _ _ _ _ hpb hpp]
  | cons a l1 ih =>
    intro prev hnd hprev hnext hc hrel
    simp only [List.cons_append] at hnd hprev hnext hc hrel ⊢
    obtain ⟨ha, ⟨img, himg, hpar, hpv, hnx⟩, hch⟩ := hc
    have hnd' := (List.nodup_cons.mp hnd).2
    have ha_notin : a ∉ l1 ++ this :: l2 := (List.nodup_cons.mp hnd).1
    have hlast : (a :: l1).getLastD prev = l1.getLastD a := by
      cases l1 <;> simp [List.getLastD]
    rw [hlast] at hrel
    have ha_nx : a ≠ l2.headD next := by
      intro h
      cases l2 with
      | nil =>
        simp only [List.headD_nil] at h
        exact hnext (by rw [← h]; simp)
      | cons b l2 =>
        simp only [List.headD_cons] at h
        exact ha_notin (by rw [h]; simp)
    refine ⟨ha, ⟨_, hrel a (List.mem_cons_self _ _) img himg, hpar, ?_, ?_⟩, ?_⟩
    · simp only [relinked, if_neg ha_nx]
      exact hpv
    · cases l1 with
      | nil => simp [relinked]
      | cons c l1 =>
        have : a ≠ (c :: l1).getLastD a := by
          intro h
          have hmem : (c :: l1).getLastD a ∈ c :: l1 := by
            rw [List.getLastD_cons]
            exact getLastD_mem l1 c
          exact ha_notin (by rw [h]; exact List.mem_append_left _ hmem)
        simp only [relinked, if_neg this]
        simpa using hnx
    · apply ih a hnd' ha_notin (fun h => hnext (List.mem_cons_of_mem _ h)) hch
      intro p hp ip hip
      exact hrel p (List.mem_cons_of_mem _ hp) ip hip
theorem SingleDelete_eq (m : Memory) (this sp pv nx : Ptr) (img : Image) (s : Sprite)
    (himg : m.images this = some img) (hpar : img.parent = sp)
    (hpv : img.list.prev = pv) (hnx : img.list.next = nx) (hs : m.sprites sp = some s)
    (hnx1 : nx ≠ 0 → nx ≠ this ∧ ∃ i, m.images nx = some i)
    (hnx0 : nx = 0 → s.last_overlay = this)
    (hpv1 : pv ≠ 0 → pv ≠ this ∧ pv ≠ nx ∧ ∃ i, m.images pv = some i)
    (hpv0 : pv = 0 → s.first_overlay = this) :
    ∃ m', SingleDelete this m = some m' ∧ m'.images this = none ∧
      (∀ p, p ≠ this → p ≠ 0 → ∀ i, m.images p = some i →
        m'.images p = some (relinked pv nx p i)) ∧
      m'.sprites sp = some
        { first_overlay := if pv = 0 then nx else s.first_overlay,
          last_overlay := if nx = 0 then pv else s.last_overlay,
          main_image := if s.main_image = this then 0 else s.main_image } ∧
      (∀ q, q ≠ sp → m'.sprites q = m.sprites q) ∧
      m'.image_flags = m.image_flags ∧
      m'.log = m.log ++
        (if m.image_flags &&& 1 = 0 then [Event.MarkImageAreaForRedraw img.image_id] else []) := by
  subst hpar hpv hnx
  cases hres : SingleDelete this m with
  | none =>
    exfalso
    by_cases hn : img.list.next = 0
    · have hl := hnx0 hn
      by_cases hp : img.list.prev = 0
      · have hf := hpv0 hp
        simp [SingleDelete, himg, hn, hp, hs, hl, hf] at hres
      · obtain ⟨hp1, hp2, ip, hip⟩ := hpv1 hp
        simp [SingleDelete, himg, hn, hp, hs, hl, hip, Function.update, hp1.symm] at hres
    · obtain ⟨hn1, inx, hinx⟩ := hnx1 hn
      by_cases hp : img.list.prev = 0
      · have hf := hpv0 hp
        simp [SingleDelete, himg, hn, hp, hs, hf, hinx, Function.update, hn1.symm] at hres
      · obtain ⟨hp1, hp2, ip, hip⟩ := hpv1 hp
        simp [SingleDelete, himg, hn, hp, hs, hinx, hip, Function.update, hn1.symm, hp1.symm,
          hp2] at hres
  | some m' =>
    refine ⟨m', rfl, ?_⟩
    by_cases hn : img.list.next = 0
    · have hl := hnx0 hn
      by_cases hp : img.list.prev = 0
      · have hf := hpv0 hp
        simp [SingleDelete, himg, hn, hp, hs, hl, hf] at hres
        subst hres
        refine ⟨?_, ?_, ?_, ?_, ?_, ?_⟩
        · simp [Function.update]
        · intro p hpt hp0 i hi
          simp [Function.update, hpt, hi, relinked, hp0, hn, hp]
        · by_cases hmain : s.main_image = this <;> simp [Function.update, hmain, hn, hp, hs]
        · intro q hq
          by_cases hmain : s.main_image = this <;> simp [Function.update, hmain, hq]
        · rfl
        · by_cases hfl : m.image_flags % 2 = 0 <;> simp [hfl]
      · obtain ⟨hp1, hp2, ip, hip⟩ := hpv1 hp
        simp [SingleDelete, himg, hn, hp, hs, hl, hip, Function.update, hp1.symm] at hres
        subst hres
        refine ⟨?_, ?_, ?_, ?_, ?_, ?_⟩
        · simp [Function.update]
        · intro p hpt hp0 i hi
          by_cases hpp : p = img.list.prev
          · subst hpp
            simp [hip] at hi
            subst hi
            simp [Function.update, hpt, relinked, hp0, hn, hp]
          · simp [Function.update, hpt, hi, relinked, hp0, hn, hp, hpp]
        · by_cases hmain : s.main_image = this <;> simp [Function.update, hmain, hn, hp, hs]
        · intro q hq
          by_cases hmain : s.main_image = this <;> simp [Function.update, hmain, hq]
        · rfl
        · by_cases hfl : m.image_flags % 2 = 0 <;> simp [hfl]
    · obtain ⟨hn1, inx, hinx⟩ := hnx1 hn
      by_cases hp : img.list.prev = 0
      · have hf := hpv0 hp
        simp [SingleDelete, himg, hn, hp, hs, hf, hinx, Function.update, hn1.symm] at hres
        subst hres
        refine ⟨?_, ?_, ?_, ?_, ?_, ?_⟩
        · simp [Function.update]
        · intro p hpt hp0 i hi
          by_cases hpn : p = img.list.next
          · subst hpn
            simp [hinx] at hi
            subst hi
            simp [Function.update, hpt, relinked, hp0, hn, hp]
          · simp [Function.update, hpt, hi, relinked, hp0, hn, hp, hpn]
        · by_cases hmain : s.main_image = this <;> simp [Function.update, hmain, hn, hp, hs]
        · intro q hq
          by_cases hmain : s.main_image = this <;> simp [Function.update, hmain, hq]
        · rfl
        · by_cases hfl : m.image_flags % 2 = 0 <;> simp [hfl]
      · obtain ⟨hp1, hp2, ip, hip⟩ := hpv1 hp
        simp [SingleDelete, himg, hn, hp, hs, hinx, hip, Function.update, hn1.symm, hp1.symm,
          hp2] at hres
        subst hres
        refine ⟨?_, ?_, ?_, ?_, ?_, ?_⟩
        · simp [Function.update]
        · intro p hpt hp0 i hi
          by_cases hpn : p = img.list.next
          · subst hpn
            simp [hinx] at hi
            subst hi
            simp [Function.update, hpt, relinked, hp0, hn, hp, hp2.symm]
          · by_cases hpp : p = img.list.prev
            · subst hpp
              simp [hip] at hi
              subst hi
              simp [Function.update, hpt, relinked, hp0, hn, hp, hp2]
            · simp [Function.update, hpt, hi, relinked, hp0, hn, hp, hpn, hpp]
        · by_cases hmain : s.main_image = this <;> simp [Function.update, hmain, hn, hp, hs]
        · intro q hq
          by_cases hmain : s.main_image = this <;> simp [Function.update, hmain, hq]
        · rfl
        · by_cases hfl : m.image_flags % 2 = 0 <;> simp [hfl]
theorem getLastD_append : ∀ (l1 l2 : List Ptr) (d : Ptr),
    (l1 ++ l2).getLastD d = l2.getLastD (l1.getLastD d) := by
  intro l1
  induction l1 with
  | nil => intro l2 d; rfl
  | cons a l1 ih =>
    intro l2 d
    rw [List.cons_append, List.getLastD_cons, List.getLastD_cons, ih]

theorem Chain_alloc (m : Memory) (sp : Ptr) :
    ∀ (l : List Ptr) (prev next : Ptr), Chain m sp prev l next →
      ∀ p ∈ l, ∃ i, m.images p = some i := by
  intro l
  induction l with
  | nil => intro _ _ _ p hp; simp at hp
  | cons a l ih =>
    intro prev next hc p hp
    obtain ⟨-, ⟨img, himg, -⟩, hch⟩ := hc
    rcases List.mem_cons.mp hp with rfl | hp
    · exact ⟨img, himg⟩
    · exact ih _ _ hch p hp

theorem Chain_mid (m : Memory) (sp this : Ptr) (l2 : List Ptr) (next : Ptr) :
    ∀ (l1 : List Ptr) (prev : Ptr), Chain m sp prev (l1 ++ this :: l2) next →
      ∃ img, m.images this = some img ∧ img.parent = sp ∧
        img.list.prev = l1.getLastD prev ∧ img.list.next = l2.headD next := by
  intro l1
  induction l1 with
  | nil =>
    intro prev hc
    obtain ⟨-, ⟨img, himg, hpar, hpv, hnx⟩, -⟩ := hc
    exact ⟨img, himg, hpar, hpv, hnx⟩
  | cons a l1 ih =>
    intro prev hc
    obtain ⟨-, -, hch⟩ := hc
    rw [List.getLastD_cons]
    exact ih a hch

/-- C9: if the overlay list of sprite `sp` is the well-formed doubly linked
list `l` and `this` is one of its images, `SingleDelete` succeeds (no null
dereference, no failed `Assert`), frees `this`, and leaves the well-formed list
of the other images in their original order, `first_overlay` / `last_overlay`
being its ends (both null when `this` was the only image); `main_image` becomes
null if it was `this` and is unchanged otherwise; the other images keep
everything but their links. -/
theorem SingleDelete_overlay_list (m : Memory) (sp this : Ptr) (l : List Ptr)
    (hwf : OverlayList m sp l) (hmem : this ∈ l) :
    ∃ m', SingleDelete this m = some m' ∧
      OverlayList m' sp (l.erase this) ∧
      m'.images this = none ∧
      (∃ s s', m.sprites sp = some s ∧ m'.sprites sp = some s' ∧
        s'.main_image = (if s.main_image = this then 0 else s.main_image) ∧
        (l = [this] → s'.first_overlay = 0 ∧ s'.last_overlay = 0)) ∧
      (∀ p ∈ l.erase this, ∀ i, m.images p = some i →
        ∃ i', m'.images p = some i' ∧ { i' with list := i.list } = i) := by
  obtain ⟨hnd, hch, s, hs, hfirst, hlast⟩ := hwf
  obtain ⟨l1, l2, rfl⟩ := List.append_of_mem hmem
  have hnd1 : this ∉ l1 := fun h => by
    have := List.nodup_append.mp hnd
    exact this.2.2 h (List.mem_cons_self _ _)
  have hnd2 : this ∉ l2 := by
    have := (List.nodup_append.mp hnd).2.1
    exact (List.nodup_cons.mp this).1
  have hdisj : ∀ a ∈ l1, a ∉ l2 := fun a ha hb =>
    (List.nodup_append.mp hnd).2.2 ha (List.mem_cons_of_mem _ hb)
  have herase : (l1 ++ this :: l2).erase this = l1 ++ l2 := by
    rw [List.erase_append_right _ hnd1, List.erase_cons_head]
  have hne0 := Chain_mem_ne_zero m sp _ _ _ hch
  have halloc := Chain_alloc m sp _ _ _ hch
  obtain ⟨img, himg, hpar, hpv, hnx⟩ := Chain_mid m sp this l2 0 l1 0 hch
  have hpv_mem : l1.getLastD 0 ≠ 0 → l1.getLastD 0 ∈ l1 := by
    intro h
    rcases List.mem_cons.mp (getLastD_mem l1 0) with h0 | h0
    · exact absurd h0 h
    · exact h0
  have hnx_mem : l2.headD 0 ≠ 0 → l2.headD 0 ∈ l2 := by
    intro h
    cases l2 with
    | nil => exact absurd rfl h
    | cons b l2 => simp
  obtain ⟨m', hres, hfree, hrel, hspr, -, -, -⟩ :=
    SingleDelete_eq m this sp (l1.getLastD 0) (l2.headD 0) img s himg hpar hpv hnx hs
      (fun h => ⟨fun e => hnd2 (e ▸ hnx_mem h),
        halloc _ (List.mem_append_right _ (List.mem_cons_of_mem _ (hnx_mem h)))⟩)
      (fun h => by
        cases l2 with
        | nil => rw [hlast, getLastD_append]; rfl
        | cons b l2 => exact absurd h (hne0 b (by simp)))
      (fun h => ⟨fun e => hnd1 (e ▸ hpv_mem h),
        fun e => by
          by_cases hz : l2.headD 0 = 0
          · exact h (e.trans hz)
          · exact hdisj _ (hpv_mem h) (e ▸ hnx_mem hz),
        halloc _ (List.mem_append_left _ (hpv_mem h))⟩)
      (fun h => by
        cases l1 with
        | nil => rw [hfirst]; rfl
        | cons a l1 =>
          have hm := getLastD_mem l1 a
          rw [List.getLastD_cons] at h
          exact absurd h (hne0 _ (List.mem_append_left _ hm)))
  refine ⟨m', hres, ?_, hfree, ⟨s, _, hs, hspr, rfl, ?_⟩, ?_⟩
  · rw [herase]
    refine ⟨?_, ?_, _, hspr, ?_, ?_⟩
    · exact List.Nodup.sublist (List.Sublist.append_left (List.sublist_cons_self _ _) _) hnd
    · apply Chain_unlink m m' sp this l2 0 l1 0 hnd (fun h => hne0 0 h rfl)
        (fun h => hne0 0 h rfl) hch
      intro p hp i hi
      have hp' : p ∈ l1 ++ this :: l2 := by
        rcases List.mem_append.mp hp with h | h
        · exact List.mem_append_left _ h
        · exact List.mem_append_right _ (List.mem_cons_of_mem _ h)
      have hpt : p ≠ this := by
        rintro rfl
        rcases List.mem_append.mp hp with h | h
        · exact hnd1 h
        · exact hnd2 h
      exact hrel p hpt (hne0 p hp') i hi
    · dsimp only
      cases l1 with
      | nil => simp
      | cons a l1 =>
        have hm := getLastD_mem l1 a
        have : (a :: l1).getLastD 0 ≠ 0 := by
          rw [List.getLastD_cons]
          exact hne0 _ (List.mem_append_left _ hm)
        rw [if_neg this, hfirst]
        rfl
    · dsimp only
      cases l2 with
      | nil => simp
      | cons b l2 =>
        have : (b :: l2).headD 0 ≠ 0 := hne0 b (by simp)
        rw [if_neg this, hlast, getLastD_append, getLastD_append, List.getLastD_cons,
          List.getLastD_cons, List.getLastD_cons]
  · intro hl
    have h1 : l1 = [] := by
      cases l1 with
      | nil => rfl
      | cons a l1 => simp at hl
    subst h1
    have h2 : l2 = [] := by simpa using hl
    subst h2
    simp
  · rw [herase]
    intro p hp i hi
    have hp' : p ∈ l1 ++ this :: l2 := by
      rcases List.mem_append.mp hp with h | h
      · exact List.mem_append_left _ h
      · exact List.mem_append_right _ (List.mem_cons_of_mem _ h)
    have hpt : p ≠ this := by
      rintro rfl
      rcases List.mem_append.mp hp with h | h
      · exact hnd1 h
      · exact hnd2 h
    exact ⟨_, hrel p hpt (hne0 p hp') i hi, rfl⟩
theorem exampleMemory_overlays : OverlayList exampleMemory 1 [10, 20, 30] :=
  ⟨by decide,
    ⟨by decide, ⟨_, rfl, rfl, rfl, rfl⟩,
      by decide, ⟨_, rfl, rfl, rfl, rfl⟩,
      by decide, ⟨_, rfl, rfl, rfl, rfl⟩, trivial⟩,
    ⟨_, rfl, rfl, rfl⟩⟩

theorem SingleDelete_overlay_list_witness :
    OverlayList exampleMemory 1 [10, 20, 30] ∧
    ∃ m', SingleDelete 20 exampleMemory = some m' ∧
      OverlayList m' 1 ([10, 20, 30].erase 20) ∧
      m'.images 20 = none ∧
      (∃ s s', exampleMemory.sprites 1 = some s ∧ m'.sprites 1 = some s' ∧
        s'.main_image = (if s.main_image = 20 then 0 else s.main_image) ∧
        ([10, 20, 30] = [20] → s'.first_overlay = 0 ∧ s'.last_overlay = 0)) ∧
      (∀ p ∈ [10, 20, 30].erase 20, ∀ i, exampleMemory.images p = some i →
        ∃ i', m'.images p = some i' ∧ { i' with list := i.list } = i) :=
  ⟨exampleMemory_overlays,
    SingleDelete_overlay_list exampleMemory 1 20 [10, 20, 30] exampleMemory_overlays (by decide)⟩

theorem andNot32_and_self (v m : Nat) : andNot32 v m &&& m = 0 := by
  unfold andNot32
  by_cases hm : m < 2 ^ 32
  · apply Nat.eq_of_testBit_eq
    intro i
    have e : 2 ^ 32 - 1 - m = 2 ^ 32 - (m + 1) := by omega
    rw [e, Nat.testBit_and, Nat.testBit_and, Nat.testBit_two_pow_sub_succ hm, Nat.zero_testBit]
    cases v.testBit i <;> cases m.testBit i <;> simp
  · have e : 2 ^ 32 - 1 - m = 0 := by omega
    rw [e, Nat.and_zero, Nat.zero_and]

theorem or_and_eq_zero (a b c : Nat) (ha : a &&& c = 0) (hb : b &&& c = 0) :
    (a ||| b) &&& c = 0 := by
  rw [Nat.and_comm, Nat.and_or_distrib_left, Nat.and_comm c a, Nat.and_comm c b, ha, hb]
  rfl

/-- C13: Show and Hide are idempotent (a second Hide changes neither the image
nor the log, so it issues no redraw request); after Show the Hidden flag is
clear, after Hide it is set; Hide on a visible image logs exactly one
`MarkImageAreaForRedraw` if bit 0 of `*bw::image_flags` is clear and none
otherwise, and changes nothing on a hidden image; Show on a hidden image raises
Redraw and changes nothing on a visible one. -/
theorem Show_Hide_idempotent (K : Consts) (w : World) (hflag : K.ImageFlags.HiddenIsFlag) :
    (w.img.Show K).Show K = w.img.Show K ∧
    Hide K (Hide K w) = Hide K w ∧
    (w.img.Show K).IsHidden K = false ∧
    (Hide K w).img.IsHidden K = true ∧
    (w.img.IsHidden K = false →
      Hide K w = { w with
        img := { w.img with flags := w.img.flags ||| K.ImageFlags.Hidden },
        log := w.log ++ (if w.image_flags &&& 0x1 = 0
          then [Event.MarkImageAreaForRedraw w.img.image_id] else []) }) ∧
    (w.img.IsHidden K = true → Hide K w = w) ∧
    (w.img.IsHidden K = true →
      (w.img.Show K).flags = andNot32 w.img.flags K.ImageFlags.Hidden ||| K.ImageFlags.Redraw ∧
      (w.img.Show K).flags &&& K.ImageFlags.Redraw = K.ImageFlags.Redraw) ∧
    (w.img.IsHidden K = false → w.img.Show K = w.img) := by
  obtain ⟨hne, hlt, hdisj⟩ := hflag
  have hshow_clear : ∀ i : Image, (i.Show K).IsHidden K = false := by
    intro i
    unfold Image.Show
    by_cases h : i.IsHidden K = true
    · rw [if_pos h]
      unfold Image.IsHidden
      dsimp only
      rw [or_and_eq_zero _ _ _ (andNot32_and_self _ _) hdisj]
      rfl
    · rw [if_neg h]
      simpa using h
  have hshow_noop : ∀ i : Image, i.IsHidden K = false → i.Show K = i := by
    intro i h
    unfold Image.Show
    rw [if_neg (by simp [h])]
  have hhide_set : ∀ v : World, (Hide K v).img.IsHidden K = true := by
    intro v
    unfold Hide
    by_cases h : v.img.IsHidden K = true
    · rw [if_neg (by simp [h])]
      exact h
    · rw [if_pos h]
      unfold Image.IsHidden
      dsimp only
      split
      · dsimp only
        rw [or_and_self_right]
        simpa using hne
      · rw [or_and_self_right]
        simpa using hne
  have hhide_noop : ∀ v : World, v.img.IsHidden K = true → Hide K v = v := by
    intro v h
    unfold Hide
    rw [if_neg (by simp [h])]
  refine ⟨hshow_noop _ (hshow_clear _), hhide_noop _ (hhide_set _), hshow_clear _, hhide_set _,
    ?_, hhide_noop w, ?_, hshow_noop _⟩
  · intro h
    unfold Hide
    rw [if_pos (by simp [h])]
    dsimp only
    split
    · rfl
    · simp
  · intro h
    unfold Image.Show
    rw [if_pos h]
    exact ⟨rfl, or_and_self_right _ _⟩

theorem Show_Hide_idempotent_witness :
    (exampleWorld.img.IsHidden exampleConsts = false →
      Hide exampleConsts exampleWorld = { exampleWorld with
        img := { exampleWorld.img with
          flags := exampleWorld.img.flags ||| exampleConsts.ImageFlags.Hidden },
        log := exampleWorld.log ++ (if exampleWorld.image_flags &&& 0x1 = 0
          then [Event.MarkImageAreaForRedraw exampleWorld.img.image_id] else []) }) ∧
    (exampleHiddenWorld.img.Show exampleConsts).flags = 0x1 :=
  ⟨(Show_Hide_idempotent exampleConsts exampleWorld (by decide)).2.2.2.2.1,
    ((Show_Hide_idempotent exampleConsts exampleHiddenWorld (by decide)).2.2.2.2.2.2.1
      (by decide)).1.trans (by decide)⟩

/-- C20 as stated (for every `n`) fails outside the range of the 16-bit
members: on the image with frameset 10, direction 1 and display frame 11, which
satisfies the invariant, `SetFrame(65546)` changes nothing (the frameset stays
10, not 65546, and Redraw is not raised although `n` differs from the previous
frameset), and `SetFrame(65535)` stores frameset 65535 and display frame 0,
which is not `n + direction = 65536`. -/
theorem SetFrame_wraps :
    exampleFrameImage.frame = exampleFrameImage.frameset + exampleFrameImage.direction ∧
    exampleFrameImage.SetFrame exampleConsts 65546 = exampleFrameImage ∧
    (exampleFrameImage.SetFrame exampleConsts 65546).frameset = 10 ∧
    (exampleFrameImage.SetFrame exampleConsts 65535).frameset = 65535 ∧
    (exampleFrameImage.SetFrame exampleConsts 65535).frame = 0 ∧
    (exampleFrameImage.SetFrame exampleConsts 65535).frame
      ≠ (exampleFrameImage.SetFrame exampleConsts 65535).frameset
        + (exampleFrameImage.SetFrame exampleConsts 65535).direction := by
  decide

/-- C20, amended: on an image with `frame == frameset + direction`, for every
`n >= 0` such that `n + direction` fits the 16-bit `frame` member, after
`SetFrame(n)` the frameset is `n` and the frame is `n + direction` (the
invariant holds again); the flags become `flags | Redraw` (Redraw raised) if
`n` differs from the previous frameset and are untouched otherwise; no member
other than frameset, frame and flags changes. -/
theorem SetFrame_preserves_invariant (K : Consts) (img : Image) (n : Int)
    (hinv : img.frame = img.frameset + img.direction)
    (h0 : 0 ≤ n) (hr : n + img.direction < 2 ^ 16) :
    ((img.SetFrame K n).frameset : Int) = n ∧
    ((img.SetFrame K n).frame : Int) = n + img.direction ∧
    (img.SetFrame K n).frame = (img.SetFrame K n).frameset + (img.SetFrame K n).direction ∧
    (n ≠ img.frameset →
      (img.SetFrame K n).flags = img.flags ||| K.ImageFlags.Redraw ∧
      (img.SetFrame K n).flags &&& K.ImageFlags.Redraw = K.ImageFlags.Redraw) ∧
    (n = img.frameset → (img.SetFrame K n).flags = img.flags) ∧
    img.SetFrame K n =
      { img with frameset := n.toNat, frame := n.toNat + img.direction,
                 flags := (img.SetFrame K n).flags } := by
  obtain ⟨m, rfl⟩ := Int.eq_ofNat_of_zero_le h0
  have hm : m + img.direction < 2 ^ 16 := by
    have : ((m + img.direction : Nat) : Int) < ((2 ^ 16 : Nat) : Int) := by
      push_cast
      exact hr
    exact Int.ofNat_lt.mp this
  have e1 : ((m : Int) % 2 ^ 16).toNat = m := by
    have : ((m : Int) % 2 ^ 16) = ((m % 2 ^ 16 : Nat) : Int) := by push_cast; rfl
    rw [this, Int.toNat_ofNat, Nat.mod_eq_of_lt (by omega)]
  unfold Image.SetFrame
  dsimp only
  rw [e1, Nat.mod_eq_of_lt hm, Int.toNat_ofNat]
  by_cases h : img.frameset = m
  · subst h
    simp only [ne_eq, not_true_eq_false, if_false, hinv.symm, true_and, not_false_eq_true,
      false_implies, implies_true, and_true, Nat.cast_add]
    omega
  · have h' : ¬ m = img.frameset := fun e => h e.symm
    have h2 : img.frame ≠ m + img.direction := by omega
    have h3 : ¬ ((img.frameset : Int) = (m : Int)) := by omega
    have h4 : ¬ ((m : Int) = (img.frameset : Int)) := by omega
    simp [h, h', h2, h3, h4, or_and_self_right]

theorem SetFrame_preserves_invariant_witness :
    exampleTurnedImage.UpdateFrameToDirection exampleConsts
      = { exampleTurnedImage with frame := 13, flags := 1 } ∧
    (((exampleTurnedImage.UpdateFrameToDirection exampleConsts).SetFrame exampleConsts 20).frame
        : Int)
      = 20 + (exampleTurnedImage.UpdateFrameToDirection exampleConsts).direction ∧
    (exampleTurnedImage.UpdateFrameToDirection exampleConsts).SetFrame exampleConsts 20
      = { exampleTurnedImage with frameset := 20, frame := 23, flags := 1 } :=
  ⟨by decide, (SetFrame_preserves_invariant exampleConsts
    (exampleTurnedImage.UpdateFrameToDirection exampleConsts) 20 (by decide) (by decide)
    (by decide)).2.1, by decide⟩

/-- C17 as stated fails: the decoded example frame (stored width 5, alignment
unit 16) has `GetWidth() = 46 = 16 + 2 * 15`, not `16 + 2 * 16`. -/
theorem GetWidth_not_two_full_units :
    exampleDecodedFrame.IsDecoded = true ∧
    exampleDecodedFrame.GetWidth exampleConsts = 46 ∧
    alignUp exampleDecodedFrame.w exampleConsts.grp_padding_size = 16 ∧
    exampleDecodedFrame.GetWidth exampleConsts ≠
      alignUp exampleDecodedFrame.w exampleConsts.grp_padding_size
        + 2 * exampleConsts.grp_padding_size := by
  decide

/-- C17, amended: for a decoded frame, alignment unit `A = 2 ^ k` and a stored
width in the range where the `int` arithmetic does not overflow, `GetWidth()`
is `w` rounded up to the next multiple of `A` plus `2 * (A - 1)` bytes of
safety padding, i.e. two bytes less than two full alignment units. -/
theorem GetWidth_decoded_padding (K : Consts) (f : GrpFrameHeader) (k : Nat)
    (hA : K.grp_padding_size = 2 ^ k) (hw : f.w + 3 * K.grp_padding_size < 2 ^ 31)
    (hd : f.IsDecoded = true) :
    f.GetWidth K = alignUp f.w K.grp_padding_size + 2 * (K.grp_padding_size - 1) ∧
    f.GetWidth K + 2 = alignUp f.w K.grp_padding_size + 2 * K.grp_padding_size ∧
    K.grp_padding_size ∣ alignUp f.w K.grp_padding_size ∧
    f.w ≤ alignUp f.w K.grp_padding_size ∧
    alignUp f.w K.grp_padding_size < f.w + K.grp_padding_size := by
  have hpos : 0 < 2 ^ k := Nat.two_pow_pos k
  have hk : k ≤ 32 := by
    by_contra hcon
    have : 2 ^ 32 ≤ 2 ^ k := Nat.pow_le_pow_right (by decide) (by omega)
    omega
  have hgw : f.GetWidth K = alignUp f.w K.grp_padding_size + 2 * (K.grp_padding_size - 1) := by
    simp only [GrpFrameHeader.GetWidth, hd, if_true, hA, alignUp]
    rw [andNot32_pow_two_sub_one _ _ (by omega) hk]
  have h1 := Nat.div_add_mod (f.w + (2 ^ k - 1)) (2 ^ k)
  have h2 := Nat.mod_lt (f.w + (2 ^ k - 1)) hpos
  rw [Nat.mul_comm] at h1
  refine ⟨hgw, ?_, ?_, ?_, ?_⟩
  · rw [hgw, hA]; omega
  · rw [hA]; exact Dvd.intro_left _ rfl
  · rw [hA]; unfold alignUp; omega
  · rw [hA]; unfold alignUp; omega

theorem GetWidth_decoded_padding_witness :
    exampleDecodedFrame.GetWidth exampleConsts + 2 =
      alignUp exampleDecodedFrame.w exampleConsts.grp_padding_size
        + 2 * exampleConsts.grp_padding_size :=
  (GetWidth_decoded_padding exampleConsts exampleDecodedFrame 4 (by decide) (by decide)
    (by decide)).2.1

theorem redirectedAnim_other (K : Consts) (anim cur : Nat)
    (h1 : anim ≠ K.IscriptAnim.GndAttkRpt) (h2 : anim ≠ K.IscriptAnim.AirAttkRpt) :
    redirectedAnim K anim cur = anim := by
  unfold redirectedAnim
  rw [if_neg h1, if_neg h2]

/-- C16: on an image with the full-iscript flag (the enumerators being
distinct), with `rpt`/`init` the ground pair GndAttkRpt/GndAttkInit or the air
pair AirAttkRpt/AirAttkInit, both in the header:
`SetIscriptAnimation(rpt)` commits `init` at `init`'s header offset when the
current animation is neither `rpt` nor `init`, and commits `rpt` itself at its
own offset when the current animation is `rpt` or `init`.  A request for any
other animation is looked up and committed (or warned about) under its own id. -/
theorem SetIscriptAnimation_attack_repeat (K : Consts) (X : Externals) (w : World)
    (hdist : K.IscriptAnim.Distinct) (hfull : w.img.flags &&& 0x10 ≠ 0) :
    (∀ rpt init,
      (rpt = K.IscriptAnim.GndAttkRpt ∧ init = K.IscriptAnim.GndAttkInit) ∨
      (rpt = K.IscriptAnim.AirAttkRpt ∧ init = K.IscriptAnim.AirAttkInit) →
      hasAnimation w rpt → hasAnimation w init →
      (w.img.iscript.animation ≠ rpt ∧ w.img.iscript.animation ≠ init →
        SetIscriptAnimation K X rpt w =
          ProgressFrame X (committed w init
            (load16 w.iscript (w.img.iscript.header + 8 + init * 2)))) ∧
      (w.img.iscript.animation = rpt ∨ w.img.iscript.animation = init →
        SetIscriptAnimation K X rpt w =
          ProgressFrame X (committed w rpt
            (load16 w.iscript (w.img.iscript.header + 8 + rpt * 2))))) ∧
    (∀ anim, anim ≠ K.IscriptAnim.GndAttkRpt → anim ≠ K.IscriptAnim.AirAttkRpt →
      ¬ earlyNoop K anim w →
      SetIscriptAnimation K X anim w =
        if hasAnimation w anim then
          ProgressFrame X (committed w anim
            (load16 w.iscript (w.img.iscript.header + 8 + anim * 2)))
        else
          ({ w with log := w.log ++ [Event.WarnNoAnimation w.img.image_id anim] }, [])) := by
  unfold IscriptAnimIds.Distinct at hdist
  simp only [List.nodup_cons, List.mem_cons, List.mem_singleton, not_or, List.not_mem_nil,
    not_false_eq_true, List.nodup_nil, and_true] at hdist
  obtain ⟨⟨i1, i2, i3, i4, i5, i6, i7⟩, ⟨d2, d3, d4, d5, d6, d7⟩, ⟨g3, g4, g5, g6, g7⟩,
    ⟨a4, a5, a6, a7⟩, ⟨r5, r6, r7⟩, ⟨s6, s7⟩, t7⟩ := hdist
  have key : ∀ anim a', ¬ earlyNoop K anim w →
      redirectedAnim K anim w.img.iscript.animation = a' → hasAnimation w a' →
      SetIscriptAnimation K X anim w =
        ProgressFrame X (committed w a' (load16 w.iscript (w.img.iscript.header + 8 + a' * 2))) := by
    intro anim a' hpass hred hhas
    rw [SetIscriptAnimation_past_checks K X w anim hpass, hred, if_pos hhas.1, if_pos hhas.2]
  have hpass : ∀ rpt, rpt = K.IscriptAnim.GndAttkRpt ∨ rpt = K.IscriptAnim.AirAttkRpt →
      ¬ earlyNoop K rpt w := by
    intro rpt hr
    unfold earlyNoop
    rcases hr with rfl | rfl
    · simp [hfull, Ne.symm d4, r6, r7]
    · simp [hfull, Ne.symm d5, s6, s7]
  refine ⟨?_, ?_⟩
  · rintro rpt init (⟨rfl, rfl⟩ | ⟨rfl, rfl⟩) hrpt hinit
    · refine ⟨fun hcur => ?_, fun hcur => ?_⟩
      · apply key _ _ (hpass _ (Or.inl rfl)) _ hinit
        unfold redirectedAnim
        rw [if_pos rfl, if_pos hcur]
      · apply key _ _ (hpass _ (Or.inl rfl)) _ hrpt
        unfold redirectedAnim
        rw [if_pos rfl, if_neg (by rcases hcur with h | h <;> simp [h])]
    · refine ⟨fun hcur => ?_, fun hcur => ?_⟩
      · apply key _ _ (hpass _ (Or.inr rfl)) _ hinit
        unfold redirectedAnim
        rw [if_neg (Ne.symm r5), if_pos rfl, if_pos hcur]
      · apply key _ _ (hpass _ (Or.inr rfl)) _ hrpt
        unfold redirectedAnim
        rw [if_neg (Ne.symm r5), if_pos rfl, if_neg (by rcases hcur with h | h <;> simp [h])]
  · intro anim h1 h2 hp
    rw [SetIscriptAnimation_past_checks K X w anim hp, redirectedAnim_other K anim _ h1 h2]
    unfold hasAnimation
    by_cases c1 : load32s w.iscript (w.img.iscript.header + 4) ≥ (anim : Int)
    · by_cases c2 : load16 w.iscript (w.img.iscript.header + 8 + anim * 2) ≠ 0
      · rw [if_pos c1, if_pos c2, if_pos ⟨c1, c2⟩]
      · rw [if_pos c1, if_neg c2, if_neg (fun h => c2 h.2)]
    · rw [if_neg c1, if_neg (fun h => c1 h.1)]

theorem SetIscriptAnimation_attack_repeat_witness :
    SetIscriptAnimation exampleConsts exampleExternals exampleConsts.IscriptAnim.GndAttkRpt
        exampleAttackWorld =
      ProgressFrame exampleExternals (committed exampleAttackWorld
        exampleConsts.IscriptAnim.GndAttkInit
        (load16 exampleAttackWorld.iscript
          (exampleAttackWorld.img.iscript.header + 8 + exampleConsts.IscriptAnim.GndAttkInit * 2))) ∧
    (SetIscriptAnimation exampleConsts exampleExternals exampleConsts.IscriptAnim.GndAttkRpt
        exampleAttackWorld).1.img.iscript
      = { header := 0, pos := 0x60, return_pos := 0, animation := 2, wait := 0 } :=
  ⟨((SetIscriptAnimation_attack_repeat exampleConsts exampleExternals exampleAttackWorld
      (by decide) (by decide)).1 exampleConsts.IscriptAnim.GndAttkRpt
      exampleConsts.IscriptAnim.GndAttkInit (Or.inl ⟨rfl, rfl⟩) (by decide) (by decide)).1
      (by decide),
    by decide⟩

theorem MakeDetected_unfold (K : Consts) (X : Externals) (w : World) :
    MakeDetected K X w =
      if mainImageIsNormal K w ∧ w.img.drawfunc = K.DrawFunc.Normal then
        SetDrawFunc K X K.DrawFunc.DetectedCloak 0 w
      else if w.img.drawfunc ≥ K.DrawFunc.Cloaking ∧ w.img.drawfunc ≤ K.DrawFunc.Decloaking then
        SetDrawFunc K X (w.img.drawfunc + 3) w.img.drawfunc_param w
      else w := by
  have hiff : ((match w.main_image with
      | MainImage.null => false
      | MainImage.this => decide (w.img.drawfunc = K.DrawFunc.Normal)
      | MainImage.other m => decide (m.drawfunc = K.DrawFunc.Normal)) = true)
      ↔ mainImageIsNormal K w := by
    unfold mainImageIsNormal
    cases w.main_image <;> simp
  unfold MakeDetected
  dsimp only
  by_cases h : mainImageIsNormal K w ∧ w.img.drawfunc = K.DrawFunc.Normal
  · rw [if_pos h, if_pos ⟨hiff.mpr h.1, h.2⟩]
  · rw [if_neg h, if_neg (fun hc => h ⟨hiff.mp hc.1, hc.2⟩)]

/-- C15: under the enumeration layout the code relies on, `MakeDetected` does
exactly one of:
(1) if the parent's main image exists and has drawfunc Normal and this image's
drawfunc is Normal, `SetDrawFunc(DetectedCloak, 0)`: drawfunc DetectedCloak,
parameter 0;
(2) otherwise, if this image's drawfunc is Cloaking, Cloak or Decloaking,
`SetDrawFunc(drawfunc + 3, drawfunc_param)`: drawfunc + 3 (DetectedCloaking,
DetectedCloak, DetectedDecloaking respectively), parameter unchanged;
(3) otherwise nothing.
In (1) and (2) `SetDrawFunc` also selects the render function, raises Redraw and
(UseParentLo images only) may move the offset. -/
theorem MakeDetected_cases (K : Consts) (X : Externals) (w : World)
    (hlay : K.DrawFunc.Layout) :
    (mainImageIsNormal K w ∧ w.img.drawfunc = K.DrawFunc.Normal →
      ∃ x y : Int,
        MakeDetected K X w =
          { w with img := { w.img with
              drawfunc := K.DrawFunc.DetectedCloak,
              drawfunc_param := 0,
              Render := { index := K.DrawFunc.DetectedCloak, flipped := w.img.IsFlipped K },
              x_off := x, y_off := y,
              flags := w.img.flags ||| K.ImageFlags.Redraw } } ∧
        (w.img.flags &&& K.ImageFlags.UseParentLo = 0 → x = w.img.x_off ∧ y = w.img.y_off)) ∧
    (¬ (mainImageIsNormal K w ∧ w.img.drawfunc = K.DrawFunc.Normal) ∧
      (w.img.drawfunc = K.DrawFunc.Cloaking ∨ w.img.drawfunc = K.DrawFunc.Cloak ∨
        w.img.drawfunc = K.DrawFunc.Decloaking) →
      (∃ x y : Int,
        MakeDetected K X w =
          { w with img := { w.img with
              drawfunc := w.img.drawfunc + 3,
              drawfunc_param := w.img.drawfunc_param,
              Render := { index := w.img.drawfunc + 3, flipped := w.img.IsFlipped K },
              x_off := x, y_off := y,
              flags := w.img.flags ||| K.ImageFlags.Redraw } } ∧
        (w.img.flags &&& K.ImageFlags.UseParentLo = 0 → x = w.img.x_off ∧ y = w.img.y_off)) ∧
      (w.img.drawfunc = K.DrawFunc.Cloaking →
        w.img.drawfunc + 3 = K.DrawFunc.DetectedCloaking) ∧
      (w.img.drawfunc = K.DrawFunc.Cloak → w.img.drawfunc + 3 = K.DrawFunc.DetectedCloak) ∧
      (w.img.drawfunc = K.DrawFunc.Decloaking →
        w.img.drawfunc + 3 = K.DrawFunc.DetectedDecloaking)) ∧
    (¬ (mainImageIsNormal K w ∧ w.img.drawfunc = K.DrawFunc.Normal) ∧
      ¬ (w.img.drawfunc = K.DrawFunc.Cloaking ∨ w.img.drawfunc = K.DrawFunc.Cloak ∨
        w.img.drawfunc = K.DrawFunc.Decloaking) →
      MakeDetected K X w = w) := by
  obtain ⟨l1, l2, l3, l4, l5, l6, l7, l8⟩ := hlay
  rw [MakeDetected_unfold]
  refine ⟨fun h => ?_, fun h => ?_, fun h => ?_⟩
  · rw [if_pos h]
    obtain ⟨x, y, heq, hxy⟩ := SetDrawFunc_eq K X K.DrawFunc.DetectedCloak 0 w
    refine ⟨x, y, ?_, hxy⟩
    rw [heq, if_neg (by omega)]
  · rw [if_neg h.1, if_pos (by omega)]
    obtain ⟨x, y, heq, hxy⟩ := SetDrawFunc_eq K X (w.img.drawfunc + 3) w.img.drawfunc_param w
    refine ⟨⟨x, y, ?_, hxy⟩, fun e => by omega, fun e => by omega, fun e => by omega⟩
    rw [heq, if_neg (by omega)]
  · rw [if_neg h.1, if_neg (by omega)]

theorem MakeDetected_cases_witness :
    (MakeDetected exampleConsts exampleExternals exampleFadingWorld).img.drawfunc
      = exampleConsts.DrawFunc.DetectedCloaking ∧
    (MakeDetected exampleConsts exampleExternals exampleFadingWorld).img.drawfunc_param
      = 0x105 := by
  obtain ⟨⟨x, y, heq, -⟩, h1, -, -⟩ :=
    (MakeDetected_cases exampleConsts exampleExternals exampleFadingWorld (by decide)).2.1
      ⟨by decide, Or.inl (by decide)⟩
  rw [heq]
  exact ⟨h1 (by decide), rfl⟩

theorem clearInvisible_eq (K : Consts) (v : World) :
    clearInvisible K v = { v with unit := v.unit.map (fun u => { u with flags := (andNot32 u.flags
      (K.UnitStatus.InvisibilityDone ||| K.UnitStatus.BeginInvisibility)) }) } := by
  unfold clearInvisible
  cases h : v.unit with
  | none => simp only [Option.map_none']; cases v; simp_all
  | some u => simp only [Option.map_some']

/-- One tick of a decloaking (or detected-decloaking) image. -/
theorem DrawFunc_ProgressFrame_decloaking (K : Consts) (X : Externals) (w : World)
    (hlay : K.DrawFunc.Layout)
    (hdf : w.img.drawfunc = K.DrawFunc.Decloaking ∨
      w.img.drawfunc = K.DrawFunc.DetectedDecloaking) :
    DrawFunc_ProgressFrame K X w =
      if paramCounter w.img.drawfunc_param ≠ 0 then
        { w with img := { w.img with drawfunc_param :=
            ((paramCounter w.img.drawfunc_param - 1) <<< 8) ||| paramState w.img.drawfunc_param } }
      else if paramState w.img.drawfunc_param = 1 then
        clearInvisible K (SetDrawFunc K X K.DrawFunc.Normal 0
          { w with img := { w.img with
              drawfunc_param := if paramState w.img.drawfunc_param = 0 then 0xffffffff
                else (paramState w.img.drawfunc_param - 1) ||| 0x300,
              flags := w.img.flags ||| K.ImageFlags.Redraw } })
      else
        { w with img := { w.img with
            drawfunc_param := if paramState w.img.drawfunc_param = 0 then 0xffffffff
              else (paramState w.img.drawfunc_param - 1) ||| 0x300,
            flags := w.img.flags ||| K.ImageFlags.Redraw } } := by
  obtain ⟨l1, l2, l3, l4, l5, l6, l7, l8⟩ := hlay
  unfold DrawFunc_ProgressFrame
  dsimp only
  rw [if_neg (by omega), if_pos hdf]
  rfl

theorem decloakParamAfter_bytes (p n : Nat) (h1 : 1 ≤ n) :
    paramState (decloakParamAfter p n) = paramState p - (n + 3) / 4 ∧
    paramCounter (decloakParamAfter p n) = 3 - (n - 1) % 4 := by
  have hlt := paramState_lt p
  unfold decloakParamAfter
  rw [if_neg (by omega)]
  have hc : 3 - (n - 1) % 4 ≤ 3 := by omega
  have ht : paramState p - (n + 3) / 4 < 256 := by omega
  generalize 3 - (n - 1) % 4 = c at hc ⊢
  generalize paramState p - (n + 3) / 4 = t at ht ⊢
  rw [paramState_eq, paramCounter_eq]
  omega

theorem ticks_decloaking_prefix (K : Consts) (X : Externals) (w : World)
    (hlay : K.DrawFunc.Layout)
    (hdf : w.img.drawfunc = K.DrawFunc.Decloaking ∨
      w.img.drawfunc = K.DrawFunc.DetectedDecloaking)
    (hc : paramCounter w.img.drawfunc_param = 0) :
    ∀ n, n ≤ 4 * (paramState w.img.drawfunc_param - 1) → ticks K X n w =
      { w with img := { w.img with
          drawfunc_param := decloakParamAfter w.img.drawfunc_param n,
          flags := if n = 0 then w.img.flags else w.img.flags ||| K.ImageFlags.Redraw } } := by
  intro n
  induction n with
  | zero =>
    intro _
    rfl
  | succ n ih =>
    intro hn
    have hdf' : (ticks K X n w).img.drawfunc = K.DrawFunc.Decloaking ∨
        (ticks K X n w).img.drawfunc = K.DrawFunc.DetectedDecloaking := by
      rw [ih (by omega)]; exact hdf
    rw [ticks_succ, DrawFunc_ProgressFrame_decloaking K X _ hlay hdf', ih (by omega)]
    dsimp only
    have hlt := paramState_lt w.img.drawfunc_param
    by_cases h0 : n = 0
    · subst h0
      have e0 : decloakParamAfter w.img.drawfunc_param 0 = w.img.drawfunc_param := rfl
      rw [e0, hc]
      have hs1 : ¬ paramState w.img.drawfunc_param = 1 := by omega
      have hs0 : ¬ paramState w.img.drawfunc_param = 0 := by omega
      have e : decloakParamAfter w.img.drawfunc_param (0 + 1)
          = 768 + (paramState w.img.drawfunc_param - 1) := by
        unfold decloakParamAfter
        rw [if_neg (by omega)]
      rw [e, if_neg (by simp), if_neg hs1, if_neg hs0, or_0x300 _ (by omega),
        if_pos rfl, if_neg (by omega)]
    · obtain ⟨hs, hcn⟩ := decloakParamAfter_bytes w.img.drawfunc_param n (by omega)
      rw [hs, hcn, if_neg h0]
      by_cases h4 : (n - 1) % 4 = 3
      · rw [if_neg (by omega), if_neg (by omega), if_neg (by omega), or_0x300 _ (by omega),
          or_or_self_right]
        have e : decloakParamAfter w.img.drawfunc_param (n + 1)
            = 768 + (paramState w.img.drawfunc_param - (n + 3) / 4 - 1) := by
          unfold decloakParamAfter
          rw [if_neg (by omega)]
          omega
        rw [e, if_neg (by omega)]
      · rw [if_pos (by omega), shl8_or _ _ (by omega)]
        have e : decloakParamAfter w.img.drawfunc_param (n + 1)
            = 256 * (3 - (n - 1) % 4 - 1) + (paramState w.img.drawfunc_param - (n + 3) / 4) := by
          unfold decloakParamAfter
          rw [if_neg (by omega)]
          omega
        rw [e, if_neg (by omega)]
/-- C14: from a Decloaking (resp. DetectedDecloaking) image with counter byte 0
and state byte `s >= 1`, under the enumeration layout the code relies on:
after `n <= 4 * (s - 1)` ticks only the parameter and (from tick 1 on) the
Redraw flag have changed, the state byte being `s - (n + 3) / 4` and the
counter byte `3 - (n - 1) % 4` (so the state is decremented on ticks 1, 5, ..,
each time refilling the counter to 3, and the other ticks only decrement the
counter); tick `4 * (s - 1) + 1`, the `s`-th decrement, stores drawfunc Normal
with parameter 0 and clears InvisibilityDone and BeginInvisibility on the unit;
drawfunc and unit are untouched before, and nothing changes afterwards. -/
theorem decloaking_progression (K : Consts) (X : Externals) (w : World) (s : Nat)
    (hlay : K.DrawFunc.Layout)
    (hdf : w.img.drawfunc = K.DrawFunc.Decloaking ∨
      w.img.drawfunc = K.DrawFunc.DetectedDecloaking)
    (hc : paramCounter w.img.drawfunc_param = 0)
    (hs : paramState w.img.drawfunc_param = s) (h1 : 1 ≤ s) :
    (∀ n, n ≤ 4 * (s - 1) → ticks K X n w =
      { w with img := { w.img with
          drawfunc_param := decloakParamAfter w.img.drawfunc_param n,
          flags := if n = 0 then w.img.flags else w.img.flags ||| K.ImageFlags.Redraw } }) ∧
    (∀ n, 1 ≤ n → n ≤ 4 * (s - 1) →
      paramState (decloakParamAfter w.img.drawfunc_param n) = s - (n + 3) / 4 ∧
      1 ≤ paramState (decloakParamAfter w.img.drawfunc_param n) ∧
      paramCounter (decloakParamAfter w.img.drawfunc_param n) = 3 - (n - 1) % 4) ∧
    (∃ x y : Int,
      ticks K X (4 * (s - 1) + 1) w =
        { w with
          img := { w.img with
            drawfunc := K.DrawFunc.Normal,
            drawfunc_param := 0,
            Render := { index := K.DrawFunc.Normal,
                        flipped := Image.IsFlipped K
                          { w.img with flags := w.img.flags ||| K.ImageFlags.Redraw } },
            x_off := x, y_off := y,
            flags := w.img.flags ||| K.ImageFlags.Redraw },
          unit := w.unit.map (fun u => { u with flags := (andNot32 u.flags
            (K.UnitStatus.InvisibilityDone ||| K.UnitStatus.BeginInvisibility)) }) } ∧
      ((w.img.flags ||| K.ImageFlags.Redraw) &&& K.ImageFlags.UseParentLo = 0 →
        x = w.img.x_off ∧ y = w.img.y_off)) ∧
    (∀ u, (ticks K X (4 * (s - 1) + 1) w).unit = some u →
      u.flags &&& (K.UnitStatus.InvisibilityDone ||| K.UnitStatus.BeginInvisibility) = 0) ∧
    (∀ n, n ≤ 4 * (s - 1) → (ticks K X n w).unit = w.unit ∧
      (ticks K X n w).img.drawfunc = w.img.drawfunc) ∧
    (∀ n, 4 * (s - 1) + 1 ≤ n → ticks K X n w = ticks K X (4 * (s - 1) + 1) w) := by
  subst hs
  have hpre := ticks_decloaking_prefix K X w hlay hdf hc
  have hlt := paramState_lt w.img.drawfunc_param
  obtain ⟨l1, l2, l3, l4, l5, l6, l7, l8⟩ := id hlay
  have hlast : paramCounter (decloakParamAfter w.img.drawfunc_param
        (4 * (paramState w.img.drawfunc_param - 1))) = 0 ∧
      paramState (decloakParamAfter w.img.drawfunc_param
        (4 * (paramState w.img.drawfunc_param - 1))) = 1 := by
    by_cases hs1 : paramState w.img.drawfunc_param = 1
    · rw [hs1]
      exact ⟨hc, hs1⟩
    · obtain ⟨e1, e2⟩ := decloakParamAfter_bytes w.img.drawfunc_param
        (4 * (paramState w.img.drawfunc_param - 1)) (by omega)
      rw [e1, e2]
      omega
  have hfinal : ∃ x y : Int,
      ticks K X (4 * (paramState w.img.drawfunc_param - 1) + 1) w =
        { w with
          img := { w.img with
            drawfunc := K.DrawFunc.Normal,
            drawfunc_param := 0,
            Render := { index := K.DrawFunc.Normal,
                        flipped := Image.IsFlipped K
                          { w.img with flags := w.img.flags ||| K.ImageFlags.Redraw } },
            x_off := x, y_off := y,
            flags := w.img.flags ||| K.ImageFlags.Redraw },
          unit := w.unit.map (fun u => { u with flags := (andNot32 u.flags
            (K.UnitStatus.InvisibilityDone ||| K.UnitStatus.BeginInvisibility)) }) } ∧
      ((w.img.flags ||| K.ImageFlags.Redraw) &&& K.ImageFlags.UseParentLo = 0 →
        x = w.img.x_off ∧ y = w.img.y_off) := by
    have hdf' : (ticks K X (4 * (paramState w.img.drawfunc_param - 1)) w).img.drawfunc
          = K.DrawFunc.Decloaking ∨
        (ticks K X (4 * (paramState w.img.drawfunc_param - 1)) w).img.drawfunc
          = K.DrawFunc.DetectedDecloaking := by
      rw [hpre _ (le_refl _)]; exact hdf
    rw [ticks_succ, DrawFunc_ProgressFrame_decloaking K X _ hlay hdf', hpre _ (le_refl _)]
    dsimp only
    rw [hlast.1, hlast.2, if_neg (by simp), if_pos rfl, clearInvisible_eq]
    have hfl : (if 4 * (paramState w.img.drawfunc_param - 1) = 0 then w.img.flags
        else w.img.flags ||| K.ImageFlags.Redraw) ||| K.ImageFlags.Redraw
        = w.img.flags ||| K.ImageFlags.Redraw := by
      split
      · rfl
      · rw [or_or_self_right]
    rw [hfl]
    obtain ⟨x, y, heq, hxy⟩ := SetDrawFunc_eq K X K.DrawFunc.Normal 0
      { w with img := { w.img with
          drawfunc_param := if (1 : Nat) = 0 then 0xffffffff else (1 - 1) ||| 0x300,
          flags := w.img.flags ||| K.ImageFlags.Redraw } }
    dsimp only at heq hxy
    refine ⟨x, y, ?_, hxy⟩
    rw [heq]
    unfold Image.IsFlipped
    dsimp only
    rw [if_neg l8, or_or_self_right]
  have hfix : DrawFunc_ProgressFrame K X
      (ticks K X (4 * (paramState w.img.drawfunc_param - 1) + 1) w)
      = ticks K X (4 * (paramState w.img.drawfunc_param - 1) + 1) w := by
    obtain ⟨x, y, heq, -⟩ := hfinal
    apply DrawFunc_ProgressFrame_idle <;> rw [heq] <;> dsimp only <;> omega
  refine ⟨hpre, ?_, hfinal, ?_, ?_, ?_⟩
  · intro n hn1 hn
    obtain ⟨e1, e2⟩ := decloakParamAfter_bytes w.img.drawfunc_param n hn1
    rw [e1, e2]
    refine ⟨rfl, ?_, rfl⟩
    omega
  · intro u hu
    obtain ⟨x, y, heq, -⟩ := hfinal
    rw [heq] at hu
    dsimp only at hu
    cases hunit : w.unit with
    | none => rw [hunit] at hu; simp at hu
    | some u0 =>
      rw [hunit] at hu
      simp only [Option.map_some', Option.some.injEq] at hu
      subst hu
      exact andNot32_and_self _ _
  · intro n hn
    rw [hpre n hn]
    exact ⟨rfl, rfl⟩
  · intro n hn
    obtain ⟨m, rfl⟩ := Nat.exists_eq_add_of_le hn
    unfold ticks at hfix ⊢
    rw [Nat.add_comm, Function.iterate_add_apply]
    exact Function.iterate_fixed hfix m

theorem decloaking_progression_witness :
    ticks exampleConsts exampleExternals 5 exampleDecloakingWorld =
      { exampleDecloakingWorld with
        img := { exampleDecloakingWorld.img with
          drawfunc := 0, drawfunc_param := 0, flags := 1 },
        unit := some { flags := 0, order_signal := 0 } } ∧
    ∀ u, (ticks exampleConsts exampleExternals (4 * (2 - 1) + 1) exampleDecloakingWorld).unit
        = some u →
      u.flags &&& (exampleConsts.UnitStatus.InvisibilityDone |||
        exampleConsts.UnitStatus.BeginInvisibility) = 0 :=
  ⟨by decide, (decloaking_progression exampleConsts exampleExternals exampleDecloakingWorld 2
    (by decide) (by decide) (by decide) (by decide) (by decide)).2.2.2.1⟩

theorem applyCalls_append {S : Type} (op : Int → Int → S → S) (a b : List (Int × Int)) (s : S) :
    applyCalls op (a ++ b) s = applyCalls op b (applyCalls op a s) := by
  unfold applyCalls
  rw [List.foldl_append]

theorem rowCalls_append (dir : Int) : ∀ (a b : Nat) (ip sp : Int),
    rowCalls dir (a + b) ip sp = rowCalls dir a ip sp ++ rowCalls dir b (ip + dir * a) (sp + a) := by
  intro a
  induction a with
  | zero => intro b ip sp; simp [rowCalls]
  | succ a ih =>
    intro b ip sp
    rw [show a + 1 + b = (a + b) + 1 by omega]
    simp only [rowCalls, List.cons_append, ih]
    congr 3
    · push_cast; ring
    · push_cast; ring

theorem mem_rowCalls (dir : Int) : ∀ (n : Nat) (ip sp : Int) (p : Int × Int),
    p ∈ rowCalls dir n ip sp → ∃ c : Nat, c < n ∧ p = (ip + dir * c, sp + c) := by
  intro n
  induction n with
  | zero => intro ip sp p h; simp [rowCalls] at h
  | succ n ih =>
    intro ip sp p h
    simp only [rowCalls, List.mem_cons] at h
    rcases h with rfl | h
    · exact ⟨0, by omega, by simp⟩
    · obtain ⟨c, hc, rfl⟩ := ih _ _ _ h
      refine ⟨c + 1, by omega, ?_⟩
      congr 1
      · push_cast; ring
      · push_cast; ring

theorem mem_blitCalls (dir : Int) (per_row : Nat) (stride_i stride_s : Int) :
    ∀ (n : Nat) (ip sp : Int) (p : Int × Int),
      p ∈ blitCalls dir per_row stride_i stride_s n ip sp →
      ∃ r c : Nat, r < n ∧ c < per_row ∧
        p = (ip + r * stride_i + dir * c, sp + r * stride_s + c) := by
  intro n
  induction n with
  | zero => intro ip sp p h; simp [blitCalls] at h
  | succ n ih =>
    intro ip sp p h
    simp only [blitCalls, List.mem_append] at h
    rcases h with h | h
    · obtain ⟨c, hc, rfl⟩ := mem_rowCalls dir _ _ _ _ h
      exact ⟨0, c, by omega, hc, by simp⟩
    · obtain ⟨r, c, hr, hc, rfl⟩ := ih _ _ _ h
      refine ⟨r + 1, c, by omega, hc, ?_⟩
      congr 1
      · push_cast; ring
      · push_cast; ring

theorem unrollNonFlipped_eq {S : Type} (op : Int → Int → S → S) :
    ∀ (n : Nat) (ip sp : Int) (s : S),
      unrollNonFlipped op n (ip, sp, s) = (ip + n, sp + n, applyCalls op (rowCalls 1 n ip sp) s) := by
  intro n
  induction n with
  | zero => intro ip sp s; simp [unrollNonFlipped, rowCalls, applyCalls]
  | succ n ih =>
    intro ip sp s
    simp only [unrollNonFlipped, ih, rowCalls, applyCalls, List.foldl_cons]
    congr 1
    · push_cast; ring
    · congr 1
      push_cast; ring

theorem unrollFlipped_eq {S : Type} (op : Int → Int → S → S) :
    ∀ (n : Nat) (ip sp : Int) (s : S),
      unrollFlipped op n (ip, sp, s)
        = (ip - n, sp + n, applyCalls op (rowCalls (-1) n ip sp) s) := by
  intro n
  induction n with
  | zero => intro ip sp s; simp [unrollFlipped, rowCalls, applyCalls]
  | succ n ih =>
    intro ip sp s
    simp only [unrollFlipped, ih, rowCalls, applyCalls, List.foldl_cons]
    congr 1
    · push_cast; ring
    · congr 1
      push_cast; ring

theorem groupsNonFlipped_eq {S : Type} (A : Nat) (hA : 0 < A) (op : Int → Int → S → S)
    (dw : Nat) :
    ∀ (G fuel x : Nat) (ip sp : Int) (s : S), dw = x + G * A → G ≤ fuel →
      groupsNonFlipped A op dw fuel x (ip, sp, s)
        = (ip + (G * (A / 2 + A / 2) : Nat), sp + (G * (A / 2 + A / 2) : Nat),
            applyCalls op (rowCalls 1 (G * (A / 2 + A / 2)) ip sp) s) := by
  intro G
  induction G with
  | zero =>
    intro fuel x ip sp s hdw _
    have hx : ¬ x < dw := by omega
    cases fuel with
    | zero => simp [groupsNonFlipped, rowCalls, applyCalls]
    | succ fuel => simp [groupsNonFlipped, hx, rowCalls, applyCalls]
  | succ G ih =>
    intro fuel x ip sp s hdw hfuel
    have hpos : 0 < (G + 1) * A := Nat.mul_pos (by omega) hA
    have hx : x < dw := by omega
    cases fuel with
    | zero => omega
    | succ fuel =>
      simp only [groupsNonFlipped, if_pos hx, unrollNonFlipped_eq]
      rw [ih fuel (x + A) _ _ _ (by rw [hdw, Nat.succ_mul]; omega) (by omega)]
      rw [show (G + 1) * (A / 2 + A / 2) = (A / 2 + A / 2) + G * (A / 2 + A / 2) by ring,
        rowCalls_append, rowCalls_append, applyCalls_append, applyCalls_append]
      simp only [mul_one, Nat.cast_add, Nat.cast_mul]
      refine Prod.ext ?_ (Prod.ext ?_ ?_)
      · simp only; ring
      · simp only; ring
      · simp only
        congr 2 <;> ring_nf

theorem groupsFlipped_eq {S : Type} (A : Nat) (hA : 0 < A) (op : Int → Int → S → S)
    (dw : Nat) :
    ∀ (G fuel x : Nat) (ip sp : Int) (s : S), dw = x + G * A → G ≤ fuel →
      groupsFlipped A op dw fuel x (ip, sp, s)
        = (ip - (G * (A / 2 + A / 2) : Nat), sp + (G * (A / 2 + A / 2) : Nat),
            applyCalls op (rowCalls (-1) (G * (A / 2 + A / 2)) ip sp) s) := by
  intro G
  induction G with
  | zero =>
    intro fuel x ip sp s hdw _
    have hx : ¬ x < dw := by omega
    cases fuel with
    | zero => simp [groupsFlipped, rowCalls, applyCalls]
    | succ fuel => simp [groupsFlipped, hx, rowCalls, applyCalls]
  | succ G ih =>
    intro fuel x ip sp s hdw hfuel
    have hpos : 0 < (G + 1) * A := Nat.mul_pos (by omega) hA
    have hx : x < dw := by omega
    cases fuel with
    | zero => omega
    | succ fuel =>
      simp only [groupsFlipped, if_pos hx, unrollFlipped_eq]
      rw [ih fuel (x + A) _ _ _ (by rw [hdw, Nat.succ_mul]; omega) (by omega)]
      rw [show (G + 1) * (A / 2 + A / 2) = (A / 2 + A / 2) + G * (A / 2 + A / 2) by ring,
        rowCalls_append, rowCalls_append, applyCalls_append, applyCalls_append]
      simp only [Nat.cast_add, Nat.cast_mul]
      refine Prod.ext ?_ (Prod.ext ?_ ?_)
      · simp only; ring
      · simp only; ring
      · simp only
        congr 2 <;> ring_nf
theorem linesNonFlipped_eq {S : Type} (A : Nat) (hA : 0 < A) (op : Int → Int → S → S)
    (dw G : Nat) (hdw : dw = G * A) (img_add surface_add : Int) :
    ∀ (n : Nat) (ip sp : Int) (s : S),
      (linesNonFlipped A op dw img_add surface_add n (ip, sp, s)).2.2
        = applyCalls op (blitCalls 1 (G * (A / 2 + A / 2))
            ((G * (A / 2 + A / 2) : Nat) + img_add) ((G * (A / 2 + A / 2) : Nat) + surface_add)
            n ip sp) s := by
  have hG : G ≤ dw := by
    rw [hdw]; exact Nat.le_mul_of_pos_right G hA
  intro n
  induction n with
  | zero => intro ip sp s; simp [linesNonFlipped, blitCalls, applyCalls]
  | succ n ih =>
    intro ip sp s
    simp only [linesNonFlipped, blitCalls]
    rw [groupsNonFlipped_eq A hA op dw G dw 0 ip sp s (by omega) hG]
    dsimp only
    rw [applyCalls_append, ← ih]
    congr 3
    ring_nf

theorem linesFlipped_eq {S : Type} (A : Nat) (hA : 0 < A) (op : Int → Int → S → S)
    (dw G : Nat) (hdw : dw = G * A) (img_add surface_add : Int) :
    ∀ (n : Nat) (ip sp : Int) (s : S),
      (linesFlipped A op dw img_add surface_add n (ip, sp, s)).2.2
        = applyCalls op (blitCalls (-1) (G * (A / 2 + A / 2))
            (img_add - (G * (A / 2 + A / 2) : Nat)) ((G * (A / 2 + A / 2) : Nat) + surface_add)
            n ip sp) s := by
  have hG : G ≤ dw := by
    rw [hdw]; exact Nat.le_mul_of_pos_right G hA
  intro n
  induction n with
  | zero => intro ip sp s; simp [linesFlipped, blitCalls, applyCalls]
  | succ n ih =>
    intro ip sp s
    simp only [linesFlipped, blitCalls]
    rw [groupsFlipped_eq A hA op dw G dw 0 ip sp s (by omega) hG]
    dsimp only
    rw [applyCalls_append, ← ih]
    congr 3
    ring_nf

/-- The calls of `Render_NonFlipped` in closed form, for a positive alignment
unit that divides `draw_width`. -/
theorem Render_NonFlipped_eq {S : Type} (K : Consts) (surface_w : Nat) (x y : Int)
    (f : GrpFrameHeader) (rect : Rect32) (op : Int → Int → S → S) (s : S)
    (hA : 0 < K.grp_padding_size) (hdvd : K.grp_padding_size ∣ drawWidth K rect) :
    Render_NonFlipped K surface_w x y f rect op s =
      applyCalls op (blitCalls 1 (perRow K rect)
        ((perRow K rect : Nat) + ((f.GetWidth K : Int) - drawWidth K rect))
        ((perRow K rect : Nat) + ((surface_w : Int) - drawWidth K rect))
        rect.bottom
        (2 + (f.GetWidth K : Int) * rect.top + K.grp_padding_size - 1 + rect.left
          - clipSub K surface_w x rect)
        (x + y * surface_w - clipSub K surface_w x rect)) s := by
  obtain ⟨G, hG⟩ := hdvd
  have hdw : drawWidth K rect = G * K.grp_padding_size := by rw [hG, Nat.mul_comm]
  have hper : perRow K rect = G * (K.grp_padding_size / 2 + K.grp_padding_size / 2) := by
    unfold perRow
    rw [hdw, Nat.mul_div_cancel _ hA]
  unfold Render_NonFlipped
  dsimp only
  rw [← show drawWidth K rect = andNot32 (rect.right + (K.grp_padding_size - 1))
    (K.grp_padding_size - 1) from rfl]
  rw [linesNonFlipped_eq K.grp_padding_size hA op (drawWidth K rect) G hdw, ← hper]
  unfold clipSub
  split <;> simp

/-- The calls of `Render_Flipped` in closed form, for a positive alignment unit
that divides `draw_width`. -/
theorem Render_Flipped_eq {S : Type} (K : Consts) (surface_w : Nat) (x y : Int)
    (f : GrpFrameHeader) (rect : Rect32) (op : Int → Int → S → S) (s : S)
    (hA : 0 < K.grp_padding_size) (hdvd : K.grp_padding_size ∣ drawWidth K rect) :
    Render_Flipped K surface_w x y f rect op s =
      applyCalls op (blitCalls (-1) (perRow K rect)
        (((f.GetWidth K : Int) + drawWidth K rect) - (perRow K rect : Nat))
        ((perRow K rect : Nat) + ((surface_w : Int) - drawWidth K rect))
        rect.bottom
        (2 + (f.GetWidth K : Int) * rect.top + K.grp_padding_size - 1 + f.w - 1 - rect.left
          + clipSub K surface_w x rect)
        (x + y * surface_w - clipSub K surface_w x rect)) s := by
  obtain ⟨G, hG⟩ := hdvd
  have hdw : drawWidth K rect = G * K.grp_padding_size := by rw [hG, Nat.mul_comm]
  have hper : perRow K rect = G * (K.grp_padding_size / 2 + K.grp_padding_size / 2) := by
    unfold perRow
    rw [hdw, Nat.mul_div_cancel _ hA]
  unfold Render_Flipped
  dsimp only
  rw [← show drawWidth K rect = andNot32 (rect.right + (K.grp_padding_size - 1))
    (K.grp_padding_size - 1) from rfl]
  rw [linesFlipped_eq K.grp_padding_size hA op (drawWidth K rect) G hdw, ← hper]
  unfold clipSub
  split <;> simp
theorem length_poke (c : List Nat) (k : Int) (v : Nat) : (poke c k v).length = c.length := by
  unfold poke
  split
  · exact List.length_set _ _ _
  · rfl

theorem peek_poke_ne (c : List Nat) (k j : Int) (v : Nat) (h : k ≠ j) :
    peek (poke c k v) j = peek c j := by
  unfold peek poke
  by_cases hj : 0 ≤ j
  · by_cases hk : 0 ≤ k
    · have hne : k.toNat ≠ j.toNat := by omega
      simp [hj, hk, List.getD_eq_getElem?_getD, List.getElem?_set_ne hne]
    · simp [hj, hk]
  · simp [hj]

theorem peek_poke_self (c : List Nat) (j : Int) (v : Nat) (h0 : 0 ≤ j)
    (hlt : j.toNat < c.length) : peek (poke c j v) j = v := by
  unfold peek poke
  simp [h0, List.getD_eq_getElem?_getD, hlt]

theorem peek_poke_congr (c1 c : List Nat) (j : Int) (v : Nat) (hlen : c1.length = c.length) :
    peek (poke c1 j v) j = peek (poke c j v) j := by
  unfold peek poke
  by_cases hj : 0 ≤ j
  · simp only [hj, if_true, List.getD_eq_getElem?_getD, List.getElem?_set, hlen]
  · simp [hj]

theorem applyCalls_pixelOp_length (g : Nat → Nat → Nat) (frame : List Nat) :
    ∀ (calls : List (Int × Int)) (canvas : List Nat),
      (applyCalls (pixelOp g frame) calls canvas).length = canvas.length := by
  intro calls
  induction calls with
  | nil => intro canvas; rfl
  | cons p calls ih =>
    intro canvas
    simp only [applyCalls, List.foldl_cons] at ih ⊢
    rw [ih]
    exact length_poke _ _ _

theorem applyCalls_pixelOp_untouched (g : Nat → Nat → Nat) (frame : List Nat) (j : Int) :
    ∀ (calls : List (Int × Int)) (canvas : List Nat), (∀ p ∈ calls, p.2 ≠ j) →
      peek (applyCalls (pixelOp g frame) calls canvas) j = peek canvas j := by
  intro calls
  induction calls with
  | nil => intro canvas _; rfl
  | cons p calls ih =>
    intro canvas h
    simp only [applyCalls, List.foldl_cons] at ih ⊢
    rw [ih _ (fun q hq => h q (List.mem_cons_of_mem _ hq))]
    exact peek_poke_ne _ _ _ _ (h p (List.mem_cons_self _ _))

/-- The value a destination pixel `j` holds after the single store
`*out = g (*in) (*out)` with `in = i`, `out = j`. -/
theorem applyCalls_pixelOp_row (g : Nat → Nat → Nat) (frame : List Nat) (dir : Int) :
    ∀ (n : Nat) (ip sp : Int) (canvas : List Nat) (c : Nat), c < n →
      peek (applyCalls (pixelOp g frame) (rowCalls dir n ip sp) canvas) (sp + c)
        = peek (poke canvas (sp + c)
            (g (peek frame (ip + dir * c)) (peek canvas (sp + c)))) (sp + c) := by
  intro n
  induction n with
  | zero => intro ip sp canvas c hc; omega
  | succ n ih =>
    intro ip sp canvas c hc
    simp only [rowCalls, applyCalls, List.foldl_cons]
    cases c with
    | zero =>
      have hrest : ∀ p ∈ rowCalls dir n (ip + dir) (sp + 1), p.2 ≠ sp + (0 : Nat) := by
        intro p hp
        obtain ⟨c', _, rfl⟩ := mem_rowCalls dir _ _ _ _ hp
        simp only [ne_eq]
        omega
      have := applyCalls_pixelOp_untouched g frame (sp + (0 : Nat)) _
        (pixelOp g frame ip sp canvas) hrest
      simp only [applyCalls] at this
      rw [this]
      simp [pixelOp]
    | succ c =>
      have h1 := ih (ip + dir) (sp + 1) (pixelOp g frame ip sp canvas) c (by omega)
      simp only [applyCalls] at h1
      have e1 : sp + ((c + 1 : Nat) : Int) = sp + 1 + (c : Int) := by push_cast; ring
      have e2 : ip + dir * ((c + 1 : Nat) : Int) = ip + dir + dir * (c : Int) := by
        push_cast; ring
      rw [e1, e2, h1]
      have hne : sp ≠ sp + 1 + (c : Int) := by omega
      have hp : peek (pixelOp g frame ip sp canvas) (sp + 1 + (c : Int))
          = peek canvas (sp + 1 + (c : Int)) := peek_poke_ne _ _ _ _ hne
      rw [hp]
      exact peek_poke_congr _ _ _ _ (length_poke _ _ _)

theorem applyCalls_pixelOp_blit (g : Nat → Nat → Nat) (frame : List Nat) (dir : Int)
    (per_row : Nat) (stride_i stride_s : Int) (hstride : (per_row : Int) ≤ stride_s) :
    ∀ (n : Nat) (ip sp : Int) (canvas : List Nat) (r c : Nat), r < n → c < per_row →
      peek (applyCalls (pixelOp g frame) (blitCalls dir per_row stride_i stride_s n ip sp)
          canvas) (sp + r * stride_s + c)
        = peek (poke canvas (sp + r * stride_s + c)
            (g (peek frame (ip + r * stride_i + dir * c))
              (peek canvas (sp + r * stride_s + c)))) (sp + r * stride_s + c) := by
  intro n
  induction n with
  | zero => intro ip sp canvas r c hr; omega
  | succ n ih =>
    intro ip sp canvas r c hr hc
    simp only [blitCalls]
    rw [applyCalls_append]
    cases r with
    | zero =>
      have hrest : ∀ p ∈ blitCalls dir per_row stride_i stride_s n (ip + stride_i)
          (sp + stride_s), p.2 ≠ sp + ((0 : Nat) : Int) * stride_s + c := by
        intro p hp
        obtain ⟨r', c', _, hc', rfl⟩ := mem_blitCalls dir per_row stride_i stride_s _ _ _ _ hp
        have hnn : 0 ≤ (r' : Int) * stride_s :=
          Int.mul_nonneg (Int.ofNat_nonneg _) (by omega)
        simp only [ne_eq, Nat.cast_zero, zero_mul]
        omega
      rw [applyCalls_pixelOp_untouched g frame _ _ _ hrest]
      have := applyCalls_pixelOp_row g frame dir per_row ip sp canvas c hc
      simpa using this
    | succ r =>
      have hnn : 0 ≤ (r : Int) * stride_s := Int.mul_nonneg (Int.ofNat_nonneg _) (by omega)
      have e1 : sp + ((r + 1 : Nat) : Int) * stride_s + c = sp + stride_s + r * stride_s + c := by
        push_cast; ring
      have e2 : ip + ((r + 1 : Nat) : Int) * stride_i + dir * c
          = ip + stride_i + r * stride_i + dir * c := by
        push_cast; ring
      rw [e1, e2, ih (ip + stride_i) (sp + stride_s) _ r c (by omega) hc]
      have hrow : ∀ p ∈ rowCalls dir per_row ip sp, p.2 ≠ sp + stride_s + r * stride_s + c := by
        intro p hp
        obtain ⟨c', hc', rfl⟩ := mem_rowCalls dir _ _ _ _ hp
        simp only [ne_eq]
        omega
      rw [applyCalls_pixelOp_untouched g frame _ _ canvas hrow]
      exact peek_poke_congr _ _ _ _ (applyCalls_pixelOp_length g frame _ _)
theorem alignUp_spec (w A : Nat) (hA : 0 < A) :
    A ∣ alignUp w A ∧ w ≤ alignUp w A ∧ alignUp w A < w + A ∧
    ∀ m, A ∣ m → w ≤ m → alignUp w A ≤ m := by
  unfold alignUp
  have h1 := Nat.div_add_mod (w + (A - 1)) A
  have h2 := Nat.mod_lt (w + (A - 1)) hA
  rw [Nat.mul_comm] at h1
  refine ⟨Dvd.intro_left _ rfl, by omega, by omega, ?_⟩
  rintro m ⟨q, rfl⟩ hm
  rw [Nat.mul_comm A q]
  apply Nat.mul_le_mul_right
  apply Nat.lt_succ_iff.mp
  rw [Nat.div_lt_iff_lt_mul hA, Nat.succ_mul]
  rw [Nat.mul_comm] at hm
  generalize q * A = t at hm ⊢
  omega

theorem drawWidth_eq (K : Consts) (rect : Rect32) (k : Nat) (hA : K.grp_padding_size = 2 ^ k)
    (hr : rect.right + K.grp_padding_size ≤ 2 ^ 32) :
    drawWidth K rect = alignUp rect.right K.grp_padding_size := by
  have hpos : 0 < 2 ^ k := Nat.two_pow_pos k
  have hk : k ≤ 32 := by
    by_contra hcon
    have : 2 ^ 32 < 2 ^ k := Nat.pow_lt_pow_right (by decide) (by omega)
    omega
  unfold drawWidth alignUp
  rw [hA, andNot32_pow_two_sub_one _ _ (by omega) hk]

theorem GetWidth_decoded_alignUp (K : Consts) (f : GrpFrameHeader) (k : Nat)
    (hA : K.grp_padding_size = 2 ^ k) (hw : f.w + 3 * K.grp_padding_size < 2 ^ 31)
    (hd : f.IsDecoded = true) :
    f.GetWidth K = alignUp f.w K.grp_padding_size + 2 * (K.grp_padding_size - 1) := by
  have hpos : 0 < 2 ^ k := Nat.two_pow_pos k
  have hk : k ≤ 32 := by
    by_contra hcon
    have : 2 ^ 32 ≤ 2 ^ k := Nat.pow_le_pow_right (by decide) (by omega)
    omega
  simp only [GrpFrameHeader.GetWidth, hd, if_true, hA, alignUp]
  rw [andNot32_pow_two_sub_one _ _ (by omega) hk]

theorem perRow_even (K : Consts) (rect : Rect32) (k : Nat) (hA : K.grp_padding_size = 2 ^ k)
    (hk : 1 ≤ k) (hdvd : K.grp_padding_size ∣ drawWidth K rect) :
    perRow K rect = drawWidth K rect := by
  have hpos : 0 < K.grp_padding_size := by rw [hA]; exact Nat.two_pow_pos k
  have heven : K.grp_padding_size / 2 + K.grp_padding_size / 2 = K.grp_padding_size := by
    obtain ⟨j, rfl⟩ := Nat.exists_eq_add_of_le hk
    rw [hA, Nat.add_comm 1 j, Nat.pow_succ]
    omega
  unfold perRow
  rw [heven]
  exact Nat.div_mul_cancel hdvd

theorem perRow_odd (K : Consts) (rect : Rect32) (hA : K.grp_padding_size = 1) :
    perRow K rect = 0 := by
  unfold perRow
  rw [hA]
  simp

theorem getElem?_eq_peek (l : List Nat) (n : Nat) (h : n < l.length) :
    l[n]? = some (peek l (n : Int)) := by
  unfold peek
  simp [List.getD_eq_getElem?_getD, List.getElem?_eq_getElem h]

/-- C12: for a decoded frame of stored size `w x h` (buffer of
`2 + GetWidth() * h` bytes), an even alignment unit `A = 2 ^ k`, a surface that
is wider than `w` rounded up to `A` and at least `h` high, `Render_NonFlipped`
at `(0, 0)` with the rectangle `(0, 0, w, h)` and the operation `*out = *in` on
an all-zero canvas leaves `canvas[r * surface_width + c] == GetPixel(c, r)` for
every `c < w`, `r < h`. -/
theorem Render_NonFlipped_copy_roundtrip (K : Consts) (f : GrpFrameHeader) (k sw sh : Nat)
    (hA : K.grp_padding_size = 2 ^ k) (hk : 1 ≤ k)
    (hw : f.w + 3 * K.grp_padding_size < 2 ^ 31) (hd : f.IsDecoded = true)
    (hlen : f.frame.length = 2 + f.GetWidth K * f.h)
    (hfit : alignUp f.w K.grp_padding_size < sw) (hh : f.h ≤ sh) :
    ∀ r c, r < f.h → c < f.w →
      (Render_NonFlipped K sw 0 0 f { left := 0, top := 0, right := f.w, bottom := f.h }
          (copyOp f.frame) (List.replicate (sw * sh) 0))[r * sw + c]?
        = f.GetPixel K c r ∧
      (f.GetPixel K c r).isSome = true := by
  intro r c hr hc
  have hpos : 0 < K.grp_padding_size := by rw [hA]; exact Nat.two_pow_pos k
  obtain ⟨hdvd, hle, hlt, -⟩ := alignUp_spec f.w K.grp_padding_size hpos
  have hgw := GetWidth_decoded_alignUp K f k hA hw hd
  have hdw : drawWidth K { left := 0, top := 0, right := f.w, bottom := f.h }
      = alignUp f.w K.grp_padding_size := drawWidth_eq K _ k hA (by dsimp only; omega)
  have hper := perRow_even K { left := 0, top := 0, right := f.w, bottom := f.h } k hA hk
    (by rw [hdw]; exact hdvd)
  have hclip : clipSub K sw 0 { left := 0, top := 0, right := f.w, bottom := f.h } = 0 := by
    unfold clipSub
    rw [hdw, if_neg (by omega)]
  -- the frame byte read for (c, r) and its index
  have hrow : r * f.GetWidth K + f.GetWidth K ≤ f.GetWidth K * f.h := by
    have : (r + 1) * f.GetWidth K ≤ f.h * f.GetWidth K := Nat.mul_le_mul_right _ (by omega)
    rw [Nat.succ_mul, Nat.mul_comm f.h] at this
    exact this
  have hidx : 2 + (K.grp_padding_size - 1) + c + r * f.GetWidth K < f.frame.length := by
    rw [hlen]; omega
  have hpix : f.GetPixel K c r
      = some (peek f.frame ((2 + (K.grp_padding_size - 1) + c + r * f.GetWidth K : Nat) : Int)) := by
    simp only [GrpFrameHeader.GetPixel, hd, if_true]
    exact getElem?_eq_peek _ _ hidx
  -- the canvas byte
  have hcan : r * sw + c < sw * sh := by
    have : (r + 1) * sw ≤ sh * sw := Nat.mul_le_mul_right _ (by omega)
    rw [Nat.succ_mul, Nat.mul_comm sh] at this
    omega
  rw [Render_NonFlipped_eq K sw 0 0 f _ _ _ hpos (by rw [hdw]; exact hdvd), hper, hclip, hdw]
  dsimp only
  have hval := applyCalls_pixelOp_blit (fun s _ => s) f.frame 1
    (alignUp f.w K.grp_padding_size)
    ((alignUp f.w K.grp_padding_size : Nat) + ((f.GetWidth K : Int)
      - (alignUp f.w K.grp_padding_size : Nat)))
    ((alignUp f.w K.grp_padding_size : Nat) + ((sw : Int)
      - (alignUp f.w K.grp_padding_size : Nat)))
    (by omega) f.h
    (2 + (f.GetWidth K : Int) * (0 : Nat) + K.grp_padding_size - 1 + (0 : Nat) - 0)
    (0 + 0 * (sw : Int) - 0) (List.replicate (sw * sh) 0) r c hr (by omega)
  have ej : (0 + 0 * (sw : Int) - 0) + (r : Int) * ((alignUp f.w K.grp_padding_size : Nat)
      + ((sw : Int) - (alignUp f.w K.grp_padding_size : Nat))) + c = ((r * sw + c : Nat) : Int) := by
    push_cast; ring
  have ei : (2 + (f.GetWidth K : Int) * (0 : Nat) + K.grp_padding_size - 1 + (0 : Nat) - 0)
      + (r : Int) * ((alignUp f.w K.grp_padding_size : Nat) + ((f.GetWidth K : Int)
        - (alignUp f.w K.grp_padding_size : Nat))) + 1 * c
      = ((2 + (K.grp_padding_size - 1) + c + r * f.GetWidth K : Nat) : Int) := by
    have : ((K.grp_padding_size - 1 : Nat) : Int) = (K.grp_padding_size : Int) - 1 := by omega
    push_cast
    rw [this]
    ring
  rw [ej, ei] at hval
  have hlenf : (applyCalls (pixelOp (fun s _ => s) f.frame)
      (blitCalls 1 (alignUp f.w K.grp_padding_size)
        ((alignUp f.w K.grp_padding_size : Nat) + ((f.GetWidth K : Int)
          - (alignUp f.w K.grp_padding_size : Nat)))
        ((alignUp f.w K.grp_padding_size : Nat) + ((sw : Int)
          - (alignUp f.w K.grp_padding_size : Nat)))
        f.h (2 + (f.GetWidth K : Int) * (0 : Nat) + K.grp_padding_size - 1 + (0 : Nat) - 0)
        (0 + 0 * (sw : Int) - 0)) (List.replicate (sw * sh) 0)).length = sw * sh := by
    rw [applyCalls_pixelOp_length]; simp
  refine ⟨?_, by rw [hpix]; rfl⟩
  rw [hpix]
  have hcopy : copyOp f.frame = pixelOp (fun s _ => s) f.frame := rfl
  rw [hcopy, getElem?_eq_peek _ _ (by rw [hlenf]; exact hcan), hval,
    peek_poke_self _ _ _ (by omega) (by simp; omega)]
theorem applyCalls_record (calls : List (Int × Int)) : ∀ tr : List (Int × Int),
    applyCalls (fun ip sp (tr : List (Int × Int)) => tr ++ [(ip, sp)]) calls tr = tr ++ calls := by
  induction calls with
  | nil => intro tr; simp [applyCalls]
  | cons p calls ih =>
    intro tr
    simp only [applyCalls, List.foldl_cons] at ih ⊢
    rw [ih]
    simp

theorem clipSub_cases (K : Consts) (sw : Nat) (x : Int) (rect : Rect32) :
    (clipSub K sw x rect = 0 ∧ x + drawWidth K rect < sw) ∨
    (clipSub K sw x rect = x + drawWidth K rect - sw ∧ (sw : Int) ≤ x + drawWidth K rect) := by
  unfold clipSub
  split
  · right; exact ⟨rfl, by omega⟩
  · left; exact ⟨rfl, by omega⟩

theorem row_bound (GW top r : Nat) (o : Int) (h0 : 0 ≤ o) (h1 : o < GW) :
    2 + (GW : Int) * (top + r) ≤ 2 + (GW : Int) * top + r * (GW : Int) + o ∧
    2 + (GW : Int) * top + r * (GW : Int) + o < 2 + (GW : Int) * (top + r + 1) := by
  have e1 : (GW : Int) * (top + r) = (GW : Int) * top + r * (GW : Int) := by ring
  have e2 : (GW : Int) * (top + r + 1) = (GW : Int) * top + r * (GW : Int) + GW := by ring
  rw [e1, e2]
  constructor <;> omega

theorem row_bound_dest (sw y r : Nat) (o : Int) (h0 : 0 ≤ o) (h1 : o < sw) :
    ((y : Int) + r) * sw ≤ (y : Int) * sw + r * sw + o ∧
    (y : Int) * sw + r * sw + o < ((y : Int) + r + 1) * sw := by
  have e1 : ((y : Int) + r) * sw = (y : Int) * sw + r * sw := by ring
  have e2 : ((y : Int) + r + 1) * sw = (y : Int) * sw + r * sw + sw := by ring
  rw [e1, e2]
  constructor <;> omega

/-- C18: for a decoded frame of stored size `w x h` (buffer of
`2 + GetWidth() * h` bytes), alignment unit `A = 2 ^ k`, a rectangle with
`left + right <= w`, `top + bottom <= h`, a destination `x, y >= 0` with
`x + right <= surface width`, `y + bottom <= surface height`, and a surface
width that is a multiple of `A`: every pointer pair passed to the per-pixel
operation by `Render_NonFlipped` and by `Render_Flipped` belongs to a line
`r < bottom`; its source pointer lies in the padded row `top + r` of the frame
buffer and its destination pointer in row `y + r` of the surface buffer (so the
written columns end at or before the last column of the surface). -/
theorem Render_calls_in_bounds (K : Consts) (f : GrpFrameHeader) (k sw sh x y : Nat)
    (rect : Rect32)
    (hA : K.grp_padding_size = 2 ^ k) (hw : f.w + 3 * K.grp_padding_size < 2 ^ 31)
    (hd : f.IsDecoded = true) (hlen : f.frame.length = 2 + f.GetWidth K * f.h)
    (hrw : rect.left + rect.right ≤ f.w) (hrh : rect.top + rect.bottom ≤ f.h)
    (hxr : x + rect.right ≤ sw) (hyb : y + rect.bottom ≤ sh)
    (hsw : K.grp_padding_size ∣ sw) :
    (∀ p ∈ Render_NonFlipped_calls K sw x y f rect, ∃ r : Nat, r < rect.bottom ∧
      2 + (f.GetWidth K : Int) * (rect.top + r) ≤ p.1 ∧
      p.1 < 2 + (f.GetWidth K : Int) * (rect.top + r + 1) ∧
      p.1 < f.frame.length ∧
      ((y : Int) + r) * sw ≤ p.2 ∧ p.2 < ((y : Int) + r + 1) * sw ∧
      p.2 < ((sw * sh : Nat) : Int)) ∧
    (∀ p ∈ Render_Flipped_calls K sw x y f rect, ∃ r : Nat, r < rect.bottom ∧
      2 + (f.GetWidth K : Int) * (rect.top + r) ≤ p.1 ∧
      p.1 < 2 + (f.GetWidth K : Int) * (rect.top + r + 1) ∧
      p.1 < f.frame.length ∧
      ((y : Int) + r) * sw ≤ p.2 ∧ p.2 < ((y : Int) + r + 1) * sw ∧
      p.2 < ((sw * sh : Nat) : Int)) := by
  have hpos : 0 < K.grp_padding_size := by rw [hA]; exact Nat.two_pow_pos k
  obtain ⟨-, hwle, -, -⟩ := alignUp_spec f.w K.grp_padding_size hpos
  obtain ⟨hdvd, hrle, hrlt, hmin⟩ := alignUp_spec rect.right K.grp_padding_size hpos
  have hgw := GetWidth_decoded_alignUp K f k hA hw hd
  have hdw : drawWidth K rect = alignUp rect.right K.grp_padding_size :=
    drawWidth_eq K rect k hA (by omega)
  rw [← hdw] at hdvd hrle hrlt hmin
  have hdwsw : drawWidth K rect ≤ sw := hmin sw hsw (by omega)
  -- the facts about one call, shared by the two loops
  have hrows : ∀ r : Nat, r < rect.bottom →
      (f.GetWidth K : Int) * (rect.top + r + 1) ≤ ((f.GetWidth K * f.h : Nat) : Int) ∧
      ((y : Int) + r + 1) * sw ≤ ((sw * sh : Nat) : Int) := by
    intro r hr
    constructor
    · have : f.GetWidth K * (rect.top + r + 1) ≤ f.GetWidth K * f.h :=
        Nat.mul_le_mul_left _ (by omega)
      exact_mod_cast this
    · have : (y + r + 1) * sw ≤ sh * sw := Nat.mul_le_mul_right _ (by omega)
      rw [Nat.mul_comm sh sw] at this
      exact_mod_cast this
  have hper : ∀ c : Nat, c < perRow K rect →
      c < drawWidth K rect ∧ perRow K rect = drawWidth K rect := by
    intro c hc
    by_cases hk : 1 ≤ k
    · have e := perRow_even K rect k hA hk hdvd
      rw [e] at hc
      exact ⟨hc, e⟩
    · have hk0 : k = 0 := by omega
      rw [perRow_odd K rect (by rw [hA, hk0]; rfl)] at hc
      omega
  have hgwi : (f.GetWidth K : Int)
      = (alignUp f.w K.grp_padding_size : Int) + 2 * ((K.grp_padding_size : Int) - 1) := by
    rw [hgw]; push_cast; omega
  have hleni : ((f.frame.length : Nat) : Int) = 2 + ((f.GetWidth K * f.h : Nat) : Int) := by
    rw [hlen]; push_cast; ring
  constructor
  · intro p hp
    unfold Render_NonFlipped_calls at hp
    rw [Render_NonFlipped_eq K sw x y f rect _ _ hpos hdvd, applyCalls_record] at hp
    simp only [List.nil_append] at hp
    obtain ⟨r, c, hr, hc, rfl⟩ := mem_blitCalls _ _ _ _ _ _ _ _ hp
    obtain ⟨hc', hpr⟩ := hper c hc
    obtain ⟨hrow1, hrow2⟩ := hrows r hr
    refine ⟨r, hr, ?_⟩
    dsimp only
    rw [hpr]
    have e1 : 2 + (f.GetWidth K : Int) * rect.top + K.grp_padding_size - 1 + rect.left
          - clipSub K sw x rect
          + r * ((drawWidth K rect : Nat) + ((f.GetWidth K : Int) - drawWidth K rect)) + 1 * c
        = 2 + (f.GetWidth K : Int) * rect.top + r * (f.GetWidth K : Int)
          + ((K.grp_padding_size : Int) - 1 + rect.left - clipSub K sw x rect + c) := by ring
    have e2 : (x : Int) + y * sw - clipSub K sw x rect
          + r * ((drawWidth K rect : Nat) + ((sw : Int) - drawWidth K rect)) + c
        = (y : Int) * sw + r * sw + ((x : Int) - clipSub K sw x rect + c) := by ring
    rw [e1, e2]
    have hsrc := row_bound (f.GetWidth K) rect.top r
      ((K.grp_padding_size : Int) - 1 + rect.left - clipSub K sw x rect + c)
    have hdst := row_bound_dest sw y r ((x : Int) - clipSub K sw x rect + c)
    rcases clipSub_cases K sw x rect with ⟨hs, hcl⟩ | ⟨hs, hcl⟩
    · rw [hs] at hsrc hdst ⊢
      obtain ⟨a1, a2⟩ := hsrc (by omega) (by omega)
      obtain ⟨b1, b2⟩ := hdst (by omega) (by omega)
      exact ⟨a1, a2, by omega, b1, b2, by omega⟩
    · rw [hs] at hsrc hdst ⊢
      obtain ⟨a1, a2⟩ := hsrc (by omega) (by omega)
      obtain ⟨b1, b2⟩ := hdst (by omega) (by omega)
      exact ⟨a1, a2, by omega, b1, b2, by omega⟩
  · intro p hp
    unfold Render_Flipped_calls at hp
    rw [Render_Flipped_eq K sw x y f rect _ _ hpos hdvd, applyCalls_record] at hp
    simp only [List.nil_append] at hp
    obtain ⟨r, c, hr, hc, rfl⟩ := mem_blitCalls _ _ _ _ _ _ _ _ hp
    obtain ⟨hc', hpr⟩ := hper c hc
    obtain ⟨hrow1, hrow2⟩ := hrows r hr
    refine ⟨r, hr, ?_⟩
    dsimp only
    rw [hpr]
    have e1 : 2 + (f.GetWidth K : Int) * rect.top + K.grp_padding_size - 1 + f.w - 1 - rect.left
          + clipSub K sw x rect
          + r * (((f.GetWidth K : Int) + drawWidth K rect) - (drawWidth K rect : Nat)) + -1 * c
        = 2 + (f.GetWidth K : Int) * rect.top + r * (f.GetWidth K : Int)
          + ((K.grp_padding_size : Int) - 1 + f.w - 1 - rect.left + clipSub K sw x rect - c) := by
      ring
    have e2 : (x : Int) + y * sw - clipSub K sw x rect
          + r * ((drawWidth K rect : Nat) + ((sw : Int) - drawWidth K rect)) + c
        = (y : Int) * sw + r * sw + ((x : Int) - clipSub K sw x rect + c) := by ring
    rw [e1, e2]
    have hsrc := row_bound (f.GetWidth K) rect.top r
      ((K.grp_padding_size : Int) - 1 + f.w - 1 - rect.left + clipSub K sw x rect - c)
    have hdst := row_bound_dest sw y r ((x : Int) - clipSub K sw x rect + c)
    rcases clipSub_cases K sw x rect with ⟨hs, hcl⟩ | ⟨hs, hcl⟩
    · rw [hs] at hsrc hdst ⊢
      obtain ⟨a1, a2⟩ := hsrc (by omega) (by omega)
      obtain ⟨b1, b2⟩ := hdst (by omega) (by omega)
      exact ⟨a1, a2, by omega, b1, b2, by omega⟩
    · rw [hs] at hsrc hdst ⊢
      obtain ⟨a1, a2⟩ := hsrc (by omega) (by omega)
      obtain ⟨b1, b2⟩ := hdst (by omega) (by omega)
      exact ⟨a1, a2, by omega, b1, b2, by omega⟩
theorem peek_natCast (l : List Nat) (n : Nat) : peek l (n : Int) = l.getD n 0 := by
  unfold peek
  simp

theorem blitCalls_zero (dir stride_i stride_s : Int) : ∀ (n : Nat) (ip sp : Int),
    blitCalls dir 0 stride_i stride_s n ip sp = [] := by
  intro n
  induction n with
  | zero => intro ip sp; rfl
  | succ n ih => intro ip sp; simp [blitCalls, rowCalls, ih]

theorem mirrorFrame_IsDecoded (K : Consts) (f : GrpFrameHeader) (hd : f.IsDecoded = true) :
    (mirrorFrame K f).IsDecoded = true := by
  unfold GrpFrameHeader.IsDecoded read16 at hd ⊢
  cases h0 : f.frame[0]? with
  | none => simp [h0] at hd
  | some lo =>
    cases h1 : f.frame[0 + 1]? with
    | none => simp [h0, h1] at hd
    | some hi =>
      simp only [h0, h1, beq_iff_eq, Option.some.injEq] at hd
      have hlo : lo = 0 := by omega
      have hhi : hi = 0 := by omega
      subst hlo hhi
      have hl0 : 0 < f.frame.length := by
        by_contra hc
        rw [List.getElem?_eq_none (by omega)] at h0
        exact absurd h0 (by simp)
      have hl1 : 0 + 1 < f.frame.length := by
        by_contra hc
        rw [List.getElem?_eq_none (by omega)] at h1
        exact absurd h1 (by simp)
      have m0 : mirrorIndex K f 0 = 0 := by
        unfold mirrorIndex; rw [if_neg (by omega)]
      have m1 : mirrorIndex K f (0 + 1) = 0 + 1 := by
        unfold mirrorIndex; rw [if_neg (by omega)]
      have e0 : (mirrorFrame K f).frame[0]? = some 0 := by
        unfold mirrorFrame
        simp only [List.getElem?_map, List.getElem?_range hl0, Option.map_some', m0,
          List.getD_eq_getElem?_getD, h0, Option.getD_some]
      have e1 : (mirrorFrame K f).frame[0 + 1]? = some 0 := by
        unfold mirrorFrame
        simp only [List.getElem?_map, List.getElem?_range hl1, Option.map_some', m1,
          List.getD_eq_getElem?_getD, h1, Option.getD_some]
      simp only [e0, e1]
      rfl

theorem mirrorFrame_GetWidth (K : Consts) (f : GrpFrameHeader) (hd : f.IsDecoded = true) :
    (mirrorFrame K f).GetWidth K = f.GetWidth K := by
  unfold GrpFrameHeader.GetWidth
  rw [mirrorFrame_IsDecoded K f hd, hd]
  rfl

/-- A stored pixel of the mirrored frame is the pixel of the mirrored column. -/
theorem mirrorFrame_pixel (K : Consts) (f : GrpFrameHeader) (row col : Nat)
    (hcol : col < f.w) (hgw : K.grp_padding_size - 1 + f.w ≤ f.GetWidth K)
    (hin : 2 + row * f.GetWidth K + (K.grp_padding_size - 1) + col < f.frame.length) :
    (mirrorFrame K f).frame.getD (2 + row * f.GetWidth K + (K.grp_padding_size - 1) + col) 0
      = f.frame.getD
          (2 + row * f.GetWidth K + (K.grp_padding_size - 1) + (f.w - 1 - col)) 0 := by
  have hpos : 0 < f.GetWidth K := by omega
  have hmod : (2 + row * f.GetWidth K + (K.grp_padding_size - 1) + col - 2) % f.GetWidth K
      = K.grp_padding_size - 1 + col := by
    have e : 2 + row * f.GetWidth K + (K.grp_padding_size - 1) + col - 2
        = (K.grp_padding_size - 1 + col) + f.GetWidth K * row := by
      rw [Nat.mul_comm]; omega
    rw [e, Nat.add_mul_mod_self_left, Nat.mod_eq_of_lt (by omega)]
  have hdiv : (2 + row * f.GetWidth K + (K.grp_padding_size - 1) + col - 2) / f.GetWidth K
      = row := by
    have e : 2 + row * f.GetWidth K + (K.grp_padding_size - 1) + col - 2
        = (K.grp_padding_size - 1 + col) + f.GetWidth K * row := by
      rw [Nat.mul_comm]; omega
    rw [e, Nat.add_mul_div_left _ _ hpos, Nat.div_eq_of_lt (by omega)]
    omega
  have hmi : mirrorIndex K f (2 + row * f.GetWidth K + (K.grp_padding_size - 1) + col)
      = 2 + row * f.GetWidth K + (K.grp_padding_size - 1) + (f.w - 1 - col) := by
    unfold mirrorIndex
    rw [hmod, hdiv, if_pos ⟨by omega, by omega, by omega⟩]
    congr 2
    omega
  unfold mirrorFrame
  simp only [List.getD_eq_getElem?_getD, List.getElem?_map, List.getElem?_range hin,
    Option.map_some', Option.getD_some, hmi]
/-- C11 as stated (for every per-pixel operation) fails: with the per-pixel
operation of `DrawWarpTexture`, which uses the position of `in` inside the
frame, the flipped blit of the 2x1 frame `[7, 9]` differs from the non-flipped
blit of the mirrored frame `[9, 7]` at both destination pixels, although the
clip does not trigger and both source columns are stored columns. -/
theorem Render_Flipped_not_mirrored_for_every_op :
    Render_Flipped smallConsts 4 0 0 smallFrame smallRect
        (warpTextureOp smallConsts smallFrame smallMask) [0, 0, 0, 0] = [0, 7, 0, 0] ∧
    Render_NonFlipped smallConsts 4 0 0 (mirrorFrame smallConsts smallFrame) smallRect
        (warpTextureOp smallConsts (mirrorFrame smallConsts smallFrame) smallMask) [0, 0, 0, 0]
      = [9, 0, 0, 0] ∧
    (mirrorFrame smallConsts smallFrame).frame = [0, 0, 0, 9, 7, 0] ∧
    (0 : Int) + drawWidth smallConsts smallRect < 4 := by
  decide

/-- C11, amended: for a decoded frame `F` of stored size `w x h`, alignment unit
`A = 2 ^ k`, a rectangle inside the frame, a destination `x >= 0` for which the
right-edge clip does not trigger, and every per-pixel operation that stores a
function `g` of the source pixel and the current destination pixel:
`Render_Flipped` of `F` and `Render_NonFlipped` of the column-mirrored frame
leave the same value at every destination pixel of the blit whose source column
`left + c` lies inside the stored width. -/
theorem Render_Flipped_eq_mirrored (K : Consts) (f : GrpFrameHeader) (k sw x : Nat) (y : Int)
    (rect : Rect32) (g : Nat → Nat → Nat) (canvas : List Nat)
    (hA : K.grp_padding_size = 2 ^ k) (hw : f.w + 3 * K.grp_padding_size < 2 ^ 31)
    (hd : f.IsDecoded = true) (hlen : f.frame.length = 2 + f.GetWidth K * f.h)
    (hrw : rect.left + rect.right ≤ f.w) (hrh : rect.top + rect.bottom ≤ f.h)
    (hnoclip : x + drawWidth K rect < sw) :
    ∀ r c : Nat, r < rect.bottom → c < drawWidth K rect → rect.left + c < f.w →
      peek (Render_Flipped K sw x y f rect (pixelOp g f.frame) canvas)
          (x + (y + r) * sw + c)
        = peek (Render_NonFlipped K sw x y (mirrorFrame K f) rect
            (pixelOp g (mirrorFrame K f).frame) canvas) (x + (y + r) * sw + c) := by
  intro r c hr hc hcol
  have hpos : 0 < K.grp_padding_size := by rw [hA]; exact Nat.two_pow_pos k
  obtain ⟨-, hwle, -, -⟩ := alignUp_spec f.w K.grp_padding_size hpos
  obtain ⟨hdvd, -, -, -⟩ := alignUp_spec rect.right K.grp_padding_size hpos
  have hgw := GetWidth_decoded_alignUp K f k hA hw hd
  have hdw : drawWidth K rect = alignUp rect.right K.grp_padding_size :=
    drawWidth_eq K rect k hA (by omega)
  rw [← hdw] at hdvd
  have hgw' := mirrorFrame_GetWidth K f hd
  have hclip : clipSub K sw x rect = 0 := by
    unfold clipSub
    rw [if_neg (by omega)]
  rw [Render_Flipped_eq K sw x y f rect _ _ hpos hdvd,
    Render_NonFlipped_eq K sw x y (mirrorFrame K f) rect _ _ hpos hdvd, hgw', hclip]
  by_cases hk : 1 ≤ k
  · rw [perRow_even K rect k hA hk hdvd]
    have hvF := applyCalls_pixelOp_blit g f.frame (-1) (drawWidth K rect)
      (((f.GetWidth K : Int) + drawWidth K rect) - (drawWidth K rect : Nat))
      ((drawWidth K rect : Nat) + ((sw : Int) - drawWidth K rect)) (by omega) rect.bottom
      (2 + (f.GetWidth K : Int) * rect.top + K.grp_padding_size - 1 + f.w - 1 - rect.left + 0)
      (x + y * sw - 0) canvas r c hr hc
    have hvN := applyCalls_pixelOp_blit g (mirrorFrame K f).frame 1 (drawWidth K rect)
      ((drawWidth K rect : Nat) + ((f.GetWidth K : Int) - drawWidth K rect))
      ((drawWidth K rect : Nat) + ((sw : Int) - drawWidth K rect)) (by omega) rect.bottom
      (2 + (f.GetWidth K : Int) * rect.top + K.grp_padding_size - 1 + rect.left - 0)
      (x + y * sw - 0) canvas r c hr hc
    have ej : (x : Int) + y * sw - 0
          + r * ((drawWidth K rect : Nat) + ((sw : Int) - drawWidth K rect)) + c
        = x + (y + r) * sw + c := by ring
    have hA1 : ((K.grp_padding_size - 1 : Nat) : Int) = (K.grp_padding_size : Int) - 1 := by
      omega
    have hwc : ((f.w - 1 - (rect.left + c) : Nat) : Int) = (f.w : Int) - 1 - rect.left - c := by
      omega
    have eF : 2 + (f.GetWidth K : Int) * rect.top + K.grp_padding_size - 1 + f.w - 1 - rect.left
          + 0 + r * (((f.GetWidth K : Int) + drawWidth K rect) - (drawWidth K rect : Nat))
          + -1 * c
        = ((2 + (rect.top + r) * f.GetWidth K + (K.grp_padding_size - 1)
            + (f.w - 1 - (rect.left + c)) : Nat) : Int) := by
      push_cast
      rw [hA1, hwc]
      ring
    have eN : 2 + (f.GetWidth K : Int) * rect.top + K.grp_padding_size - 1 + rect.left - 0
          + r * ((drawWidth K rect : Nat) + ((f.GetWidth K : Int) - drawWidth K rect)) + 1 * c
        = ((2 + (rect.top + r) * f.GetWidth K + (K.grp_padding_size - 1)
            + (rect.left + c) : Nat) : Int) := by
      push_cast
      rw [hA1]
      ring
    rw [ej, eF] at hvF
    rw [ej, eN] at hvN
    rw [hvF, hvN, peek_natCast, peek_natCast]
    have hrow : (rect.top + r) * f.GetWidth K + f.GetWidth K ≤ f.GetWidth K * f.h := by
      have : (rect.top + r + 1) * f.GetWidth K ≤ f.h * f.GetWidth K :=
        Nat.mul_le_mul_right _ (by omega)
      rw [Nat.succ_mul, Nat.mul_comm f.h] at this
      exact this
    rw [mirrorFrame_pixel K f (rect.top + r) (rect.left + c) hcol (by omega)
      (by rw [hlen]; omega)]
  · have hk0 : k = 0 := by omega
    rw [perRow_odd K rect (by rw [hA, hk0]; rfl)]
    simp only [blitCalls_zero]
    rfl

theorem Render_Flipped_eq_mirrored_witness :
    peek (Render_Flipped smallConsts 4 ((1 : Nat) : Int) 0 smallFrame smallRect
        (pixelOp (fun s _ => s) smallFrame.frame) [0, 0, 0, 0])
        (((1 : Nat) : Int) + (0 + ((0 : Nat) : Int)) * ((4 : Nat) : Int) + ((0 : Nat) : Int))
      = peek (Render_NonFlipped smallConsts 4 ((1 : Nat) : Int) 0
          (mirrorFrame smallConsts smallFrame) smallRect
          (pixelOp (fun s _ => s) (mirrorFrame smallConsts smallFrame).frame) [0, 0, 0, 0])
        (((1 : Nat) : Int) + (0 + ((0 : Nat) : Int)) * ((4 : Nat) : Int) + ((0 : Nat) : Int)) :=
  Render_Flipped_eq_mirrored smallConsts smallFrame 1 4 1 0 smallRect (fun s _ => s)
    [0, 0, 0, 0] (by decide) (by decide) (by decide) (by decide) (by decide) (by decide)
    (by decide) 0 0 (by decide) (by decide) (by decide)

theorem Render_NonFlipped_copy_roundtrip_witness :
    (Render_NonFlipped smallConsts 4 0 0 smallFrame
        { left := 0, top := 0, right := smallFrame.w, bottom := smallFrame.h }
        (copyOp smallFrame.frame) (List.replicate (4 * 1) 0))[0 * 4 + 1]?
      = smallFrame.GetPixel smallConsts 1 0 ∧
    (smallFrame.GetPixel smallConsts 1 0).isSome = true :=
  Render_NonFlipped_copy_roundtrip smallConsts smallFrame 1 4 1 (by decide) (by decide)
    (by decide) (by decide) (by decide) (by decide) (by decide) 0 1 (by decide) (by decide)

theorem Render_calls_in_bounds_witness :
    ∃ r : Nat, r < smallRect.bottom ∧
      2 + (smallFrame.GetWidth smallConsts : Int) * (smallRect.top + r) ≤ ((4 : Int), (2 : Int)).1 ∧
      ((4 : Int), (2 : Int)).1
        < 2 + (smallFrame.GetWidth smallConsts : Int) * (smallRect.top + r + 1) ∧
      ((4 : Int), (2 : Int)).1 < smallFrame.frame.length ∧
      (((0 : Nat) : Int) + r) * ((4 : Nat) : Int) ≤ ((4 : Int), (2 : Int)).2 ∧
      ((4 : Int), (2 : Int)).2 < (((0 : Nat) : Int) + r + 1) * ((4 : Nat) : Int) ∧
      ((4 : Int), (2 : Int)).2 < ((4 * 1 : Nat) : Int) :=
  (Render_calls_in_bounds smallConsts smallFrame 1 4 1 2 0 smallRect (by decide) (by decide)
    (by decide) (by decide) (by decide) (by decide) (by decide) (by decide) (by decide)).2
    ((4 : Int), (2 : Int)) (by decide)

/-- C19: the per-pixel operation of the Cloaked draw variant (the same lambda in
`DrawCloaked_NonFlipped` and `DrawCloaked_Flipped`), on a canvas of
`N = screen_width * screen_height >= 256` bytes: for every destination index
`d < N` and source pixel `s = *in` with `pos = remap[s]` (a byte), the operation
stores at `canvas[d]` the value held at `canvas[(d + pos) mod N]`, that index is
inside the canvas, every other byte and the length are unchanged, and the single
conditional subtraction of `N` is exactly the modulo. -/
theorem cloakedOp_wraps (K : Consts) (remap frame canvas : List Nat) (N d : Nat) (inp : Int)
    (hN : 256 ≤ N) (hlen : canvas.length = N) (hd : d < N) :
    (cloakedOp remap N frame inp d canvas
        = canvas.set d (canvas.getD ((d + remap.getD (peek frame inp) 0 % 256) % N) 0)) ∧
    (d + remap.getD (peek frame inp) 0 % 256) % N < canvas.length ∧
    ((if ((d : Int) + (remap.getD (peek frame inp) 0 % 256 : Nat)) ≥ N
        then ((d : Int) + (remap.getD (peek frame inp) 0 % 256 : Nat)) - N
        else (d : Int) + (remap.getD (peek frame inp) 0 % 256 : Nat))
      = (((d + remap.getD (peek frame inp) 0 % 256) % N : Nat) : Int)) ∧
    (cloakedOp remap N frame inp d canvas).length = canvas.length ∧
    (∀ j : Nat, j ≠ d → (cloakedOp remap N frame inp d canvas)[j]? = canvas[j]?) ∧
    (∀ (sw : Nat) (x y : Int) (f : GrpFrameHeader) (rect : Rect32),
      DrawCloaked_NonFlipped K remap N sw x y f rect canvas
          = Render_NonFlipped K sw x y f rect (cloakedOp remap N f.frame) canvas ∧
      DrawCloaked_Flipped K remap N sw x y f rect canvas
          = Render_Flipped K sw x y f rect (cloakedOp remap N f.frame) canvas) := by
  have hp : remap.getD (peek frame inp) 0 % 256 < 256 := Nat.mod_lt _ (by decide)
  generalize hpos : remap.getD (peek frame inp) 0 % 256 = pos at hp ⊢
  have hmod : (if ((d : Int) + (pos : Nat)) ≥ N then ((d : Int) + (pos : Nat)) - N
      else (d : Int) + (pos : Nat)) = (((d + pos) % N : Nat) : Int) := by
    by_cases h : N ≤ d + pos
    · rw [if_pos (by omega)]
      have : (d + pos) % N = d + pos - N := by
        rw [Nat.mod_eq_sub_mod h, Nat.mod_eq_of_lt (by omega)]
      rw [this]
      omega
    · rw [if_neg (by omega), Nat.mod_eq_of_lt (by omega)]
      push_cast
      rfl
  have hmain : cloakedOp remap N frame inp d canvas
      = canvas.set d (canvas.getD ((d + pos) % N) 0) := by
    unfold cloakedOp
    dsimp only
    rw [hpos, hmod]
    unfold poke peek
    rw [if_pos (by omega), if_pos (by omega)]
    rfl
  refine ⟨hmain, ?_, hmod, ?_, ?_, ?_⟩
  · rw [hlen]
    exact Nat.mod_lt _ (by omega)
  · rw [hmain, List.length_set]
  · intro j hj
    rw [hmain, List.getElem?_set_ne (Ne.symm hj)]
  · intro sw x y f rect
    exact ⟨rfl, rfl⟩

theorem cloakedOp_wraps_witness :
    cloakedOp [100] 256 [0] 0 ((200 : Nat) : Int) (List.range 256)
      = (List.range 256).set 200
          ((List.range 256).getD ((200 + [100].getD (peek [0] 0) 0 % 256) % 256) 0) :=
  (cloakedOp_wraps exampleConsts [100] [0] (List.range 256) 256 200 0 (by decide)
    (List.length_range 256) (by decide)).1

/-- One tick of a WarpFlash image. -/
theorem DrawFunc_ProgressFrame_warpflash (K : Consts) (X : Externals) (w : World)
    (hlay : K.DrawFunc.Layout) (hdf : w.img.drawfunc = K.DrawFunc.WarpFlash) :
    DrawFunc_ProgressFrame K X w =
      if paramCounter w.img.drawfunc_param ≠ 0 then
        { w with img := { w.img with drawfunc_param :=
            ((paramCounter w.img.drawfunc_param - 1) <<< 8) ||| paramState w.img.drawfunc_param } }
      else if paramState w.img.drawfunc_param < 0x3f then
        { w with img := { w.img with
            flags := w.img.flags ||| K.ImageFlags.Redraw,
            drawfunc_param := (paramState w.img.drawfunc_param + 1) ||| 0x300 } }
      else
        signalOwner (warnUnhandled (SetIscriptAnimation K X K.IscriptAnim.Death
          { w with img := { w.img with flags := w.img.flags ||| K.ImageFlags.Redraw } })) := by
  obtain ⟨h1, h2, h3, h4, h5, h6, h7, h8⟩ := hlay
  have hn1 : ¬ (w.img.drawfunc = K.DrawFunc.Cloaking ∨
      w.img.drawfunc = K.DrawFunc.DetectedCloaking) := by rw [hdf]; omega
  have hn2 : ¬ (w.img.drawfunc = K.DrawFunc.Decloaking ∨
      w.img.drawfunc = K.DrawFunc.DetectedDecloaking) := by rw [hdf]; omega
  unfold DrawFunc_ProgressFrame
  dsimp only
  rw [if_neg hn1, if_neg hn2, if_pos hdf]
  rfl

theorem warpFlashParamAfter_bytes (n : Nat) (h : n ≤ 62) :
    paramState (warpFlashParamAfter n) = 0x30 + (n + 1) / 4 ∧
    paramCounter (warpFlashParamAfter n) = 3 - (n + 1) % 4 := by
  unfold warpFlashParamAfter
  rw [paramState_eq, paramCounter_eq]
  have hc : 3 - (n + 1) % 4 ≤ 3 := by omega
  have hs : (n + 1) / 4 ≤ 15 := by omega
  generalize 3 - (n + 1) % 4 = c at hc ⊢
  generalize (n + 1) / 4 = s at hs ⊢
  omega

/-- The first 62 ticks of a WarpFlash image that starts with parameter `0x230`
and the Redraw flag raised: only the parameter changes. -/
theorem ticks_warpflash_prefix (K : Consts) (X : Externals) (w : World)
    (hlay : K.DrawFunc.Layout) (hdf : w.img.drawfunc = K.DrawFunc.WarpFlash)
    (hp : w.img.drawfunc_param = 0x230)
    (hr : w.img.flags ||| K.ImageFlags.Redraw = w.img.flags) :
    ∀ n, n ≤ 62 → ticks K X n w =
      { w with img := { w.img with drawfunc_param := warpFlashParamAfter n } } := by
  intro n
  induction n with
  | zero =>
    intro _
    have : warpFlashParamAfter 0 = w.img.drawfunc_param := by rw [hp]; rfl
    rw [this]
    rfl
  | succ n ih =>
    intro hn
    have hdf' : (ticks K X n w).img.drawfunc = K.DrawFunc.WarpFlash := by
      rw [ih (by omega)]; exact hdf
    rw [ticks_succ, DrawFunc_ProgressFrame_warpflash K X _ hlay hdf', ih (by omega)]
    dsimp only
    obtain ⟨hs, hc⟩ := warpFlashParamAfter_bytes n (by omega)
    rw [hs, hc]
    by_cases h4 : (n + 1) % 4 = 3
    · rw [if_neg (by omega), if_pos (by omega), or_0x300 _ (by omega), hr]
      have e : warpFlashParamAfter (n + 1) = 768 + (0x30 + (n + 1) / 4 + 1) := by
        unfold warpFlashParamAfter
        omega
      rw [e]
    · rw [if_pos (by omega), shl8_or _ _ (by omega)]
      have e : warpFlashParamAfter (n + 1)
          = 256 * (3 - (n + 1) % 4 - 1) + (0x30 + (n + 1) / 4) := by
        unfold warpFlashParamAfter
        omega
      rw [e]

/-- After `signalOwner`, bit `0x1` of `order_signal` is set on the owning entity:
on `ctx->unit` if it is not null, otherwise on `ctx->bullet` if that is not null. -/
theorem signalOwner_sets (v : World) :
    (∀ u, (signalOwner v).unit = some u → u.order_signal &&& 0x1 = 0x1) ∧
    ((signalOwner v).unit = none →
      ∀ b, (signalOwner v).bullet = some b → b.order_signal &&& 0x1 = 0x1) := by
  obtain ⟨img, mi, unit, bullet, rng, fl, isc, log⟩ := v
  cases unit <;> cases bullet <;> simp [signalOwner, or_and_self_right]
/-- C21: under the enumeration layout the code relies on (WarpFlash is an
enumerator other than the cloaking and decloaking ones), for every image and
every parameter argument: `SetDrawFunc(WarpFlash, param)` stores drawfunc
WarpFlash with the packed parameter `0x230` (counter 2, state `0x30`) and raises
Redraw.  From that state, after `n <= 62` calls of `DrawFunc_ProgressFrame` only
the parameter has changed: its state byte is `0x30 + (n + 1) / 4` and its counter
byte `3 - (n + 1) % 4`, so the state byte advances by one exactly on the ticks
`n` with `n % 4 = 3` (3, 7, 11, .., 59), and unit, bullet, iscript buffer, script
cursor and log are untouched.  The 63rd call is the one that calls
`SetIscriptAnimation(Death)` (on the state with parameter `0x03f`) and then sets
bit `0x1` of `order_signal` on the owning entity. -/
theorem warpflash_progression (K : Consts) (X : Externals) (w : World) (param : Nat)
    (hlay : K.DrawFunc.Layout) :
    (SetDrawFunc K X K.DrawFunc.WarpFlash param w).img.drawfunc = K.DrawFunc.WarpFlash ∧
    (SetDrawFunc K X K.DrawFunc.WarpFlash param w).img.drawfunc_param = 0x230 ∧
    paramCounter (SetDrawFunc K X K.DrawFunc.WarpFlash param w).img.drawfunc_param = 2 ∧
    paramState (SetDrawFunc K X K.DrawFunc.WarpFlash param w).img.drawfunc_param = 0x30 ∧
    (SetDrawFunc K X K.DrawFunc.WarpFlash param w).img.flags &&& K.ImageFlags.Redraw
      = K.ImageFlags.Redraw ∧
    (∀ n, n ≤ 62 →
      ticks K X n (SetDrawFunc K X K.DrawFunc.WarpFlash param w) =
        { SetDrawFunc K X K.DrawFunc.WarpFlash param w with
          img := { (SetDrawFunc K X K.DrawFunc.WarpFlash param w).img with
            drawfunc_param := warpFlashParamAfter n } } ∧
      paramState (ticks K X n (SetDrawFunc K X K.DrawFunc.WarpFlash param w)).img.drawfunc_param
        = 0x30 + (n + 1) / 4 ∧
      paramCounter (ticks K X n (SetDrawFunc K X K.DrawFunc.WarpFlash param w)).img.drawfunc_param
        = 3 - (n + 1) % 4 ∧
      (ticks K X n (SetDrawFunc K X K.DrawFunc.WarpFlash param w)).unit = w.unit ∧
      (ticks K X n (SetDrawFunc K X K.DrawFunc.WarpFlash param w)).bullet = w.bullet ∧
      (ticks K X n (SetDrawFunc K X K.DrawFunc.WarpFlash param w)).iscript = w.iscript ∧
      (ticks K X n (SetDrawFunc K X K.DrawFunc.WarpFlash param w)).img.iscript = w.img.iscript ∧
      (ticks K X n (SetDrawFunc K X K.DrawFunc.WarpFlash param w)).log = w.log) ∧
    (∀ n, 1 ≤ n → n ≤ 62 →
      paramState (ticks K X n (SetDrawFunc K X K.DrawFunc.WarpFlash param w)).img.drawfunc_param
        = paramState
            (ticks K X (n - 1) (SetDrawFunc K X K.DrawFunc.WarpFlash param w)).img.drawfunc_param
          + (if n % 4 = 3 then 1 else 0)) ∧
    ticks K X 63 (SetDrawFunc K X K.DrawFunc.WarpFlash param w) =
      signalOwner (warnUnhandled (SetIscriptAnimation K X K.IscriptAnim.Death
        { SetDrawFunc K X K.DrawFunc.WarpFlash param w with
          img := { (SetDrawFunc K X K.DrawFunc.WarpFlash param w).img with
            drawfunc_param := 0x03f } })) ∧
    (∀ u, (ticks K X 63 (SetDrawFunc K X K.DrawFunc.WarpFlash param w)).unit = some u →
      u.order_signal &&& 0x1 = 0x1) ∧
    ((ticks K X 63 (SetDrawFunc K X K.DrawFunc.WarpFlash param w)).unit = none →
      ∀ b, (ticks K X 63 (SetDrawFunc K X K.DrawFunc.WarpFlash param w)).bullet = some b →
        b.order_signal &&& 0x1 = 0x1) := by
  obtain ⟨x, y, hsd, -⟩ := SetDrawFunc_eq K X K.DrawFunc.WarpFlash param w
  generalize SetDrawFunc K X K.DrawFunc.WarpFlash param w = W at hsd ⊢
  have hdf : W.img.drawfunc = K.DrawFunc.WarpFlash := by rw [hsd]
  have hp : W.img.drawfunc_param = 0x230 := by rw [hsd]; exact if_pos rfl
  have hfl : W.img.flags = w.img.flags ||| K.ImageFlags.Redraw := by rw [hsd]
  have hr : W.img.flags ||| K.ImageFlags.Redraw = W.img.flags := by
    rw [hfl, or_or_self_right]
  have hunit : W.unit = w.unit := by rw [hsd]
  have hbullet : W.bullet = w.bullet := by rw [hsd]
  have hiscript : W.iscript = w.iscript := by rw [hsd]
  have hcursor : W.img.iscript = w.img.iscript := by rw [hsd]
  have hlog : W.log = w.log := by rw [hsd]
  have hpre := ticks_warpflash_prefix K X W hlay hdf hp hr
  have hbytes : ∀ n, n ≤ 62 →
      paramState (ticks K X n W).img.drawfunc_param = 0x30 + (n + 1) / 4 ∧
      paramCounter (ticks K X n W).img.drawfunc_param = 3 - (n + 1) % 4 := by
    intro n hn
    rw [hpre n hn]
    exact warpFlashParamAfter_bytes n hn
  have h63 : ticks K X 63 W =
      signalOwner (warnUnhandled (SetIscriptAnimation K X K.IscriptAnim.Death
        { W with img := { W.img with drawfunc_param := 0x03f } })) := by
    have hdf62 : (ticks K X 62 W).img.drawfunc = K.DrawFunc.WarpFlash := by
      rw [hpre 62 (le_refl _)]; exact hdf
    obtain ⟨hs, hc⟩ := hbytes 62 (le_refl _)
    rw [ticks_succ, DrawFunc_ProgressFrame_warpflash K X _ hlay hdf62, hs, hc,
      if_neg (by decide), if_neg (by decide), hpre 62 (le_refl _)]
    dsimp only
    rw [hr]
    rfl
  refine ⟨hdf, hp, ?_, ?_, ?_, ?_, ?_, h63, ?_, ?_⟩
  · rw [hp]; decide
  · rw [hp]; decide
  · rw [hfl]; exact or_and_self_right _ _
  · intro n hn
    refine ⟨hpre n hn, (hbytes n hn).1, (hbytes n hn).2, ?_, ?_, ?_, ?_, ?_⟩
    · rw [hpre n hn]; exact hunit
    · rw [hpre n hn]; exact hbullet
    · rw [hpre n hn]; exact hiscript
    · rw [hpre n hn]; exact hcursor
    · rw [hpre n hn]; exact hlog
  · intro n h1 hn
    rw [(hbytes n hn).1, (hbytes (n - 1) (by omega)).1]
    split <;> omega
  · rw [h63]; exact (signalOwner_sets _).1
  · rw [h63]; exact (signalOwner_sets _).2

set_option maxRecDepth 100000 in
theorem warpflash_progression_witness :
    ticks exampleConsts exampleExternals 63
        (SetDrawFunc exampleConsts exampleExternals exampleConsts.DrawFunc.WarpFlash 5
          exampleWorld) =
      signalOwner (warnUnhandled (SetIscriptAnimation exampleConsts exampleExternals
        exampleConsts.IscriptAnim.Death
        { SetDrawFunc exampleConsts exampleExternals exampleConsts.DrawFunc.WarpFlash 5
            exampleWorld with
          img := { (SetDrawFunc exampleConsts exampleExternals
              exampleConsts.DrawFunc.WarpFlash 5 exampleWorld).img with
            drawfunc_param := 0x03f } })) ∧
    (ticks exampleConsts exampleExternals 62
        (SetDrawFunc exampleConsts exampleExternals exampleConsts.DrawFunc.WarpFlash 5
          exampleWorld)).unit = some { flags := 0, order_signal := 0 } ∧
    (ticks exampleConsts exampleExternals 63
        (SetDrawFunc exampleConsts exampleExternals exampleConsts.DrawFunc.WarpFlash 5
          exampleWorld)).unit = some { flags := 0, order_signal := 1 } ∧
    (ticks exampleConsts exampleExternals 63
        (SetDrawFunc exampleConsts exampleExternals exampleConsts.DrawFunc.WarpFlash 5
          exampleWorld)).img.iscript
      = { header := 0, pos := 0x50, return_pos := 0, animation := 1, wait := 0 } :=
  ⟨(warpflash_progression exampleConsts exampleExternals exampleWorld 5
    (by decide)).2.2.2.2.2.2.2.1, by decide, by decide, by decide⟩

end Teippi
